import Mathlib

/-!
Verification of the planwrite content-assembly pipeline.

This file gives a shallow embedding, in Lean 4, of the pure core of the
repository's services:

* `app/services/offer_parsing.py`  (fact extraction from offer terms),
* `app/services/compliance.py`     (rule-based compliance scoring),
* `app/services/internal_links.py` (per-property link index suggestion),
* `app/services/outline.py`        (outline repair, normalization, text round-trip),
* `app/services/draft.py`          (deterministic terms-section renderer),
* `app/services/switchboard_links.py` (affiliate link injection),

and proves or refutes the behavioural claims made about them.

Python strings are modelled as lists of characters (`Str`).  The small
regular expressions used by the source are embedded as explicit
backtracking matchers specialised to each pattern, with Python semantics
(ordered alternation, greedy quantifiers, word boundaries over the ASCII
word class).  Python `float` scores are modelled by `ℚ`; every value the
source actually produces is an exact small integer, so no rounding is lost.
External effects (file system loads, the embedding provider) are modelled
as explicit `Option`/`Except` inputs.
-/

/-- Python strings, modelled as lists of characters. -/
abbrev Str := List Char

/-- Python whitespace test (`\s`, `str.strip` default class), ASCII range.
The source only ever feeds ASCII text to these functions. -/
def pyIsSpace (c : Char) : Bool :=
  c = ' ' || c = '\t' || c = '\n' || c = '\x0d' || c = '\x0b' || c = '\x0c'

/-- ASCII decimal digit test (`\d`). -/
def pyIsDigit (c : Char) : Bool :=
  '0' ≤ c && c ≤ '9'

/-- Python word-character test (`\w`), ASCII range: letters, digits, underscore. -/
def pyIsWord (c : Char) : Bool :=
  ('a' ≤ c && c ≤ 'z') || ('A' ≤ c && c ≤ 'Z') || pyIsDigit c || c = '_'

/-- Python `str.lower`, ASCII range. -/
def pyLower (s : Str) : Str := s.map Char.toLower

/-- Python `str.upper`, ASCII range. -/
def pyUpper (s : Str) : Str := s.map Char.toUpper

/-- Python `str.strip()`: drop whitespace from both ends. -/
def pyStrip (s : Str) : Str :=
  ((s.dropWhile pyIsSpace).reverse.dropWhile pyIsSpace).reverse

/-- Python substring test (`needle in hay`). -/
def containsSub (needle : Str) : Str → Bool
  | [] => needle.isEmpty
  | c :: rest => needle.isPrefixOf (c :: rest) || containsSub needle rest

/-- Case-insensitive prefix test. -/
def isPrefixCI (needle s : Str) : Bool :=
  (pyLower needle).isPrefixOf (pyLower s)

/-- Case-insensitive substring test (`re.search` of an escaped literal with
`re.IGNORECASE`). -/
def containsSubCI (needle hay : Str) : Bool :=
  containsSub (pyLower needle) (pyLower hay)

/-- Index of the leftmost occurrence of `needle` in `hay` (`str.find`),
`none` when absent. -/
def findSub (needle : Str) : Str → Option Nat
  | [] => if needle.isEmpty then some 0 else none
  | c :: rest =>
    if needle.isPrefixOf (c :: rest) then some 0
    else (findSub needle rest).map (· + 1)

/-- All occurrence start indices of `needle` in `hay` (possibly overlapping),
in increasing order.  Helper for `rfindSub`. -/
def occIndices (needle : Str) : Str → List Nat
  | [] => if needle.isEmpty then [0] else []
  | c :: rest =>
    (if needle.isPrefixOf (c :: rest) then [0] else []) ++
      (occIndices needle rest).map (· + 1)

/-- Python `str.rfind`: index of the rightmost occurrence, `-1` when absent. -/
def rfindInt (needle hay : Str) : Int :=
  match (occIndices needle hay).getLast? with
  | none => -1
  | some n => (n : Int)

/-- Python `sep.join(parts)` specialised to a separator string. -/
def pyJoin (sep : Str) (parts : List Str) : Str :=
  List.intercalate sep parts

/-- Fuel-driven worker for `pySplitSep`; the fuel is always at least the
input length, so the fuel-exhausted branch is never taken. -/
def pySplitSepF (sep : Str) : Nat → Str → List Str
  | _, [] => [[]]
  | 0, s => [s]
  | fuel + 1, c :: rest =>
    if sep ≠ [] && sep.isPrefixOf (c :: rest) then
      [] :: pySplitSepF sep fuel ((c :: rest).drop sep.length)
    else
      match pySplitSepF sep fuel rest with
      | [] => [[c]]
      | p :: ps => (c :: p) :: ps

/-- Python `str.split(sep)` for a non-empty separator: non-overlapping
left-to-right cuts, empty pieces kept. -/
def pySplitSep (sep s : Str) : List Str :=
  pySplitSepF sep s.length s

/-- Worker for `pySplitWS`. -/
def pySplitWSGo : Str → List Str
  | [] => []
  | c :: rest =>
    if pyIsSpace c then pySplitWSGo rest
    else
      match pySplitWSGo rest, rest with
      | _, [] => [[c]]
      | [], _ => [[c]]
      | p :: ps, d :: _ => if pyIsSpace d then [c] :: p :: ps else (c :: p) :: ps

/-- Python `str.split()` (no argument): split on whitespace runs, dropping
empty pieces. -/
def pySplitWS (s : Str) : List Str :=
  pySplitWSGo s

/-- Line-break character test for `str.splitlines` (ASCII members of
Python's line-boundary set). -/
def pyIsLineBreak (c : Char) : Bool :=
  c = '\n' || c = '\x0d' || c = '\x0b' || c = '\x0c' ||
    c = '\x1c' || c = '\x1d' || c = '\x1e'

/-- Python `str.splitlines()`: split at line boundaries (`\r\n` counts as a
single boundary); a trailing boundary yields no extra empty line. -/
def pySplitlines : Str → List Str
  | [] => []
  | '\x0d' :: '\n' :: rest => [] :: pySplitlines rest
  | c :: rest =>
    if pyIsLineBreak c then [] :: pySplitlines rest
    else
      match pySplitlines rest with
      | [] => [[c]]
      | p :: ps => (c :: p) :: ps

/-- Decimal digits of a natural number (Python `str(int)` for non-negative
values). -/
def natToStr (n : Nat) : Str :=
  (Nat.toDigits 10 n)

/-- Digits of a match group parsed as a number (Python `int(group)` for a
`\d+` group, which never fails). -/
def digitsToNat (s : Str) : Nat :=
  s.foldl (fun acc c => acc * 10 + (c.toNat - 48)) 0

/-- Word-boundary test (`\b`) between an optional previous character and an
optional next character: exactly one side is a word character. -/
def wordBoundary (prev next : Option Char) : Bool :=
  (match prev with | none => false | some c => pyIsWord c) ≠
    (match next with | none => false | some c => pyIsWord c)

/-!
## Regex matchers

A matcher consumes a prefix of the input and returns the list of possible
`(consumed, rest)` outcomes, ordered by the preference Python's backtracking
engine would use (greedy quantifiers longest-first, alternation
left-to-right).  `re.search`/`re.finditer`/`re.sub` take the first outcome
at the leftmost matching position.
-/

/-- Matcher outcome list: `(consumed characters, remaining input)` in
backtracking preference order. -/
abbrev Matcher := Str → List (Str × Str)

/-- Match a literal, case-sensitively. -/
def mLit (lit : Str) : Matcher := fun s =>
  if lit.isPrefixOf s then [(s.take lit.length, s.drop lit.length)] else []

/-- Match a literal, case-insensitively (`re.IGNORECASE`); the consumed text
keeps the original casing. -/
def mLitCI (lit : Str) : Matcher := fun s =>
  if isPrefixCI lit s then [(s.take lit.length, s.drop lit.length)] else []

/-- Sequence two matchers. -/
def mSeq (a b : Matcher) : Matcher := fun s =>
  (a s).flatMap fun p => (b p.2).map fun q => (p.1 ++ q.1, q.2)

/-- Ordered alternation of matchers. -/
def mAlt (ps : List Matcher) : Matcher := fun s => ps.flatMap (· s)

/-- Greedy option (`x?`): prefer the present branch. -/
def mOpt (a : Matcher) : Matcher := fun s => a s ++ [([], s)]

/-- Greedy plus over a character class (`[c]+`): longest first, at least one. -/
def mPlus (p : Char → Bool) : Matcher := fun s =>
  let n := (s.takeWhile p).length
  (List.range n).map fun i => (s.take (n - i), s.drop (n - i))

/-- Single character from a class (`[c]`). -/
def mChar (p : Char → Bool) : Matcher := fun s =>
  match s with
  | [] => []
  | c :: rest => if p c then [([c], rest)] else []

/-- Greedy whitespace run (`\s+`). -/
def mWS1 : Matcher := mPlus pyIsSpace

/-- Greedy digit run (`\d+`). -/
def mDigits1 : Matcher := mPlus pyIsDigit

/-- Word boundary against the following input character, with a known
previous character.  Consumes nothing. -/
def mBoundary (prev : Option Char) : Matcher := fun s =>
  if wordBoundary prev s.head? then [([], s)] else []

/-- Negative lookahead (`(?!...)`): succeeds consuming nothing when the inner
matcher has no outcome. -/
def mNegLook (a : Matcher) : Matcher := fun s =>
  if (a s).isEmpty then [([], s)] else []

/-- First outcome of a matcher, i.e. the match Python would take at this
position. -/
def mFirst (a : Matcher) (s : Str) : Option (Str × Str) :=
  (a s).head?

example : mFirst (mSeq (mLitCI ("ab".data)) mWS1) ("AB  cd".data) =
    some (("AB  ".data), ("cd".data)) := by decide

example : pyStrip ("  a b ".data) = ("a b".data) := by decide

example : pySplitWS ("  a b ".data) = [("a".data), ("b".data)] := by decide

example : pySplitlines ("a\n\nb".data) = [("a".data), [], ("b".data)] := by decide

example : pySplitSep ("\n\n".data) ("a\n\nb".data) = [("a".data), ("b".data)] := by
  decide

example : rfindInt ("ab".data) ("xabab".data) = 3 := by decide

/-!
## Generic `re` drivers

`att prev s` is the attempt of a compiled pattern at the start of `s`, given
the character immediately preceding `s` (for `\b`); it yields the length of
the match together with its groups.  Every pattern embedded in this file
matches at least one character.
-/

/-- Fuel-driven `re.finditer`: non-overlapping matches, leftmost first, scan
resumes after each match.  Yields `(start, matched text, groups)`. -/
def findIterF {α : Type} (att : Option Char → Str → Option (Nat × α)) :
    Nat → Option Char → Nat → Str → List (Nat × Str × α)
  | 0, _, _, _ => []
  | _ + 1, _, _, [] => []
  | fuel + 1, prev, pos, c :: rest =>
    match att prev (c :: rest) with
    | some (n, a) =>
      let step := max n 1
      (pos, (c :: rest).take n, a) ::
        findIterF att fuel ((((c :: rest).take step).getLast?).orElse fun _ => prev)
          (pos + step) ((c :: rest).drop step)
    | none => findIterF att fuel (some c) (pos + 1) rest

/-- `re.finditer` over a whole string. -/
def findIter {α : Type} (att : Option Char → Str → Option (Nat × α)) (s : Str) :
    List (Nat × Str × α) :=
  findIterF att s.length none 0 s

/-- `re.search` as a Boolean: does the pattern match anywhere? -/
def reSearch {α : Type} (att : Option Char → Str → Option (Nat × α)) (s : Str) :
    Bool :=
  !(findIter att s).isEmpty

/-- `re.search` returning the first match's groups. -/
def reSearchG {α : Type} (att : Option Char → Str → Option (Nat × α)) (s : Str) :
    Option α :=
  ((findIter att s).head?).map fun t => t.2.2

/-!
## Fact Extractor — `app/services/offer_parsing.py`
-/

/-- Pattern `expire[sd]?\s+(?:in|within)\s+(\d+)\s+days?`; group: the digit
run. -/
def attExpire1 (_ : Option Char) (s : Str) : Option (Nat × Str) :=
  ((mLit ("expire".data) s).flatMap fun p1 =>
   (mOpt (mChar fun c => c = 's' || c = 'd') p1.2).flatMap fun p2 =>
   (mWS1 p2.2).flatMap fun p3 =>
   (mAlt [mLit ("in".data), mLit ("within".data)] p3.2).flatMap fun p4 =>
   (mWS1 p4.2).flatMap fun p5 =>
   (mDigits1 p5.2).flatMap fun p6 =>
   (mWS1 p6.2).flatMap fun p7 =>
   (mLit ("day".data) p7.2).flatMap fun p8 =>
   (mOpt (mLit ("s".data)) p8.2).map fun p9 =>
     (s.length - p9.2.length, p6.1)).head?

/-- Pattern `valid\s+for\s+(\d+)\s+days?`. -/
def attExpire2 (_ : Option Char) (s : Str) : Option (Nat × Str) :=
  ((mLit ("valid".data) s).flatMap fun p1 =>
   (mWS1 p1.2).flatMap fun p2 =>
   (mLit ("for".data) p2.2).flatMap fun p3 =>
   (mWS1 p3.2).flatMap fun p4 =>
   (mDigits1 p4.2).flatMap fun p5 =>
   (mWS1 p5.2).flatMap fun p6 =>
   (mLit ("day".data) p6.2).flatMap fun p7 =>
   (mOpt (mLit ("s".data)) p7.2).map fun p8 =>
     (s.length - p8.2.length, p5.1)).head?

/-- Pattern `must\s+be\s+used\s+within\s+(\d+)\s+days?`. -/
def attExpire3 (_ : Option Char) (s : Str) : Option (Nat × Str) :=
  ((mLit ("must".data) s).flatMap fun p1 =>
   (mWS1 p1.2).flatMap fun p2 =>
   (mLit ("be".data) p2.2).flatMap fun p3 =>
   (mWS1 p3.2).flatMap fun p4 =>
   (mLit ("used".data) p4.2).flatMap fun p5 =>
   (mWS1 p5.2).flatMap fun p6 =>
   (mLit ("within".data) p6.2).flatMap fun p7 =>
   (mWS1 p7.2).flatMap fun p8 =>
   (mDigits1 p8.2).flatMap fun p9 =>
   (mWS1 p9.2).flatMap fun p10 =>
   (mLit ("day".data) p10.2).flatMap fun p11 =>
   (mOpt (mLit ("s".data)) p11.2).map fun p12 =>
     (s.length - p12.2.length, p9.1)).head?

/-- Pattern `(\d+)[-\s]day\s+expiration`. -/
def attExpire4 (_ : Option Char) (s : Str) : Option (Nat × Str) :=
  ((mDigits1 s).flatMap fun p1 =>
   (mChar (fun c => c = '-' || pyIsSpace c) p1.2).flatMap fun p2 =>
   (mLit ("day".data) p2.2).flatMap fun p3 =>
   (mWS1 p3.2).flatMap fun p4 =>
   (mLit ("expiration".data) p4.2).map fun p5 =>
     (s.length - p5.2.length, p1.1)).head?

/-- Shared pattern loop of `extract_bonus_expiration_days`
(`offer_parsing.py`) and `_extract_expiration_days` (`compliance.py`), which
duplicate the same four patterns: first matching pattern wins, digits parsed
as an integer. -/
def searchExpirationPatterns (text : Str) : Option Nat :=
  match reSearchG attExpire1 text with
  | some g => some (digitsToNat g)
  | none =>
    match reSearchG attExpire2 text with
    | some g => some (digitsToNat g)
    | none =>
      match reSearchG attExpire3 text with
      | some g => some (digitsToNat g)
      | none =>
        match reSearchG attExpire4 text with
        | some g => some (digitsToNat g)
        | none => none

/-- `extract_bonus_expiration_days(terms)` from `offer_parsing.py`: lowercase
the terms, try the four patterns in order, return the first match's day
count, else `None`. -/
def extract_bonus_expiration_days (terms : Str) : Option Nat :=
  if terms = [] then none
  else searchExpirationPatterns (pyLower terms)

example : extract_bonus_expiration_days ("Bonus bets expire in 7 days.".data) =
    some 7 := by decide

example : extract_bonus_expiration_days ("valid for 30 days".data) = some 30 := by
  decide

example : extract_bonus_expiration_days ("no mention".data) = none := by decide

/-- `_STATE_CODES` tuple from `offer_parsing.py`, in source order. -/
def STATE_CODES : List Str :=
  [("AL".data), ("AK".data), ("AZ".data), ("AR".data), ("CA".data), ("CO".data),
   ("CT".data), ("DE".data), ("DC".data), ("FL".data), ("GA".data), ("HI".data),
   ("ID".data), ("IL".data), ("IN".data), ("IA".data), ("KS".data), ("KY".data),
   ("LA".data), ("ME".data), ("MD".data), ("MA".data), ("MI".data), ("MN".data),
   ("MS".data), ("MO".data), ("MT".data), ("NE".data), ("NV".data), ("NH".data),
   ("NJ".data), ("NM".data), ("NY".data), ("NC".data), ("ND".data), ("OH".data),
   ("OK".data), ("OR".data), ("PA".data), ("RI".data), ("SC".data), ("SD".data),
   ("TN".data), ("TX".data), ("UT".data), ("VT".data), ("VA".data), ("WA".data),
   ("WV".data), ("WI".data), ("WY".data), ("ON".data), ("PR".data)]

/-- `_STATE_NAME_TO_CODE` dict from `offer_parsing.py`, in insertion order. -/
def STATE_NAME_TO_CODE : List (Str × Str) :=
  [(("alabama".data), ("AL".data)), (("alaska".data), ("AK".data)),
   (("arizona".data), ("AZ".data)), (("arkansas".data), ("AR".data)),
   (("california".data), ("CA".data)), (("colorado".data), ("CO".data)),
   (("connecticut".data), ("CT".data)), (("delaware".data), ("DE".data)),
   (("district of columbia".data), ("DC".data)), (("florida".data), ("FL".data)),
   (("georgia".data), ("GA".data)), (("hawaii".data), ("HI".data)),
   (("idaho".data), ("ID".data)), (("illinois".data), ("IL".data)),
   (("indiana".data), ("IN".data)), (("iowa".data), ("IA".data)),
   (("kansas".data), ("KS".data)), (("kentucky".data), ("KY".data)),
   (("louisiana".data), ("LA".data)), (("maine".data), ("ME".data)),
   (("maryland".data), ("MD".data)), (("massachusetts".data), ("MA".data)),
   (("michigan".data), ("MI".data)), (("minnesota".data), ("MN".data)),
   (("mississippi".data), ("MS".data)), (("missouri".data), ("MO".data)),
   (("montana".data), ("MT".data)), (("nebraska".data), ("NE".data)),
   (("nevada".data), ("NV".data)), (("new hampshire".data), ("NH".data)),
   (("new jersey".data), ("NJ".data)), (("new mexico".data), ("NM".data)),
   (("new york".data), ("NY".data)), (("north carolina".data), ("NC".data)),
   (("north dakota".data), ("ND".data)), (("ohio".data), ("OH".data)),
   (("oklahoma".data), ("OK".data)), (("oregon".data), ("OR".data)),
   (("pennsylvania".data), ("PA".data)), (("rhode island".data), ("RI".data)),
   (("south carolina".data), ("SC".data)), (("south dakota".data), ("SD".data)),
   (("tennessee".data), ("TN".data)), (("texas".data), ("TX".data)),
   (("utah".data), ("UT".data)), (("vermont".data), ("VT".data)),
   (("virginia".data), ("VA".data)), (("washington".data), ("WA".data)),
   (("west virginia".data), ("WV".data)), (("wisconsin".data), ("WI".data)),
   (("wyoming".data), ("WY".data)), (("ontario".data), ("ON".data)),
   (("puerto rico".data), ("PR".data)), (("washington dc".data), ("DC".data)),
   (("washington d c".data), ("DC".data)), (("d c".data), ("DC".data)),
   (("d.c.".data), ("DC".data)), (("dc".data), ("DC".data))]

/-- Stable insertion into a list sorted by descending name length (ties keep
earlier-inserted entries first, as Python's stable `sorted` does). -/
def insertByLenDesc (x : Str × Str) : List (Str × Str) → List (Str × Str)
  | [] => [x]
  | y :: ys =>
    if x.1.length > y.1.length then x :: y :: ys else y :: insertByLenDesc x ys

/-- Stable sort by descending name length. -/
def sortByLenDesc : List (Str × Str) → List (Str × Str)
  | [] => []
  | x :: xs => insertByLenDesc x (sortByLenDesc xs)

/-- `_STATE_NAME_ITEMS`: the name table sorted by descending name length. -/
def STATE_NAME_ITEMS : List (Str × Str) :=
  sortByLenDesc STATE_NAME_TO_CODE

/-- One alternative of the `\b(AL|AK|...)\b` pattern: match `code` literally
at the head of `s` and require a word boundary after it. -/
def attStateCodeTry (s code : Str) : Option (Nat × Str) :=
  match mLit code s with
  | [] => none
  | p :: _ =>
    if wordBoundary (code.getLast?) p.2.head? then some (code.length, code)
    else none

/-- Attempt of `\b(AL|AK|...)\b` (case-sensitive) at the head of `s`: tries
the codes in tuple order, requiring word boundaries on both sides. -/
def attStateCode (prev : Option Char) (s : Str) : Option (Nat × Str) :=
  if wordBoundary prev s.head? then
    (STATE_CODES.filterMap (attStateCodeTry s)).head?
  else none

/-- Case-sensitive search for an escaped literal surrounded by `\b` word
boundaries (`re.search(rf"\b{re.escape(name)}\b", hay)`), with the character
preceding the scan position tracked for the left boundary. -/
def searchWordLit (needle : Str) (hay : Str) : Bool :=
  reSearch
    (fun prev s =>
      if wordBoundary prev s.head? && needle.isPrefixOf s
          && wordBoundary (needle.getLast?) ((s.drop needle.length).head?) then
        some (needle.length, ())
      else none)
    hay

/-- `_dedupe_preserve(values)`: drop falsy values and duplicates, keeping
first occurrences in order. -/
def dedupe_preserve (values : List Str) : List Str :=
  values.foldl
    (fun acc value =>
      if value ≠ [] ∧ ¬ (value ∈ acc) then acc ++ [value] else acc)
    []

/-- Collapse whitespace runs to single spaces (`re.sub(r"\s+", " ", s)`). -/
def collapseWS : Str → Str
  | [] => []
  | c :: rest =>
    if pyIsSpace c then
      match rest with
      | [] => [' ']
      | d :: _ => if pyIsSpace d then collapseWS rest else ' ' :: collapseWS rest
    else c :: collapseWS rest

/-- `_extract_state_codes_from_fragment(fragment)`: collect two-letter code
matches, then state-name matches over a punctuation-normalised lowercase
copy, deduplicated in order. -/
def extract_state_codes_from_fragment (fragment : Str) : List Str :=
  if fragment = [] then []
  else
    let found1 := (findIter attStateCode fragment).map fun t => pyUpper t.2.2
    let normalized0 :=
      (pyLower fragment).map fun c =>
        if ¬ (pyIsWord c || pyIsSpace c) then ' ' else c
    let normalized := pyStrip (collapseWS normalized0)
    let found2 :=
      if normalized ≠ [] then
        STATE_NAME_ITEMS.filterMap fun item =>
          if searchWordLit item.1 normalized then some item.2 else none
      else []
    dedupe_preserve (found1 ++ found2)

example : extract_state_codes_from_fragment ("NJ, New York and ohio".data) =
    [("NJ".data), ("NY".data), ("OH".data)] := by decide

example : extract_state_codes_from_fragment ("ALL states".data) = [] := by decide

/-- Python value accepted by `parse_states` (its argument has type `Any`):
`None`, a list of strings, a string, or any other value via `str(states)`. -/
inductive PyStates where
  | pyNone : PyStates
  | pyList : List Str → PyStates
  | pyStr : Str → PyStates
  | pyOther : Str → PyStates
deriving DecidableEq

/-- Delimiter class of `re.split(r"[,\|/;]+", txt)`. -/
def isStateDelim (c : Char) : Bool :=
  c = ',' || c = '|' || c = '/' || c = ';'

/-- `re.split(r"[,\|/;]+", txt)`: split on delimiter runs, keeping empty
boundary pieces. -/
def splitStateDelims : Str → List Str
  | [] => [[]]
  | c :: rest =>
    if isStateDelim c then
      match splitStateDelims rest, rest with
      | ps, [] => [] :: ps
      | ps, d :: _ => if isStateDelim d then ps else [] :: ps
    else
      match splitStateDelims rest with
      | [] => [[c]]
      | p :: ps => (c :: p) :: ps

/-- Truthiness of an upper-cased raw value against `{"ALL", "NATIONWIDE"}`. -/
def isAllToken (raw : Str) : Bool :=
  pyUpper raw = ("ALL".data) || pyUpper raw = ("NATIONWIDE".data)

/-- The per-raw-value loop of `parse_states`: `none` signals the early
`return ["ALL"]`, otherwise the collected codes (before deduplication). -/
def parseStatesLoop : List Str → Option (List Str)
  | [] => some []
  | raw :: rest =>
    if isAllToken raw then none
    else if STATE_CODES.contains (pyUpper raw) then
      (parseStatesLoop rest).map fun codes => pyUpper raw :: codes
    else
      (parseStatesLoop rest).map fun codes =>
        extract_state_codes_from_fragment raw ++ codes

/-- `raw_values` as computed by `parse_states` for each input shape (for the
string shape this is only reached when the whole string is not an
`ALL`/`NATIONWIDE` token). -/
def parseStatesRawValues : PyStates → List Str
  | .pyNone => []
  | .pyList ss => (ss.map pyStrip).filter (· ≠ [])
  | .pyStr s =>
    let txt := pyStrip s
    if txt = [] then []
    else ((splitStateDelims txt).map pyStrip).filter (· ≠ [])
  | .pyOther s =>
    let txt := pyStrip s
    if txt = [] then [] else [txt]

/-- Shared tail of `parse_states` once `raw_values` is fixed. -/
def parseStatesFromRaws (raws : List Str) : List Str :=
  if raws = [] then []
  else
    match parseStatesLoop raws with
    | none => [("ALL".data)]
    | some codes0 =>
      let codes := dedupe_preserve codes0
      if codes ≠ [] then codes
      else
        match raws with
        | [raw] =>
          if pyLower (pyStrip raw) = ("all".data) ∨
              pyLower (pyStrip raw) = ("nationwide".data) then [("ALL".data)]
          else []
        | _ => []

/-- `parse_states(states)` from `offer_parsing.py`. -/
def parse_states (states : PyStates) : List Str :=
  match states with
  | .pyNone => []
  | .pyStr s =>
    let txt := pyStrip s
    if txt = [] then []
    else if pyUpper txt = ("ALL".data) ∨ pyUpper txt = ("NATIONWIDE".data) then
      [("ALL".data)]
    else parseStatesFromRaws (parseStatesRawValues (.pyStr s))
  | other => parseStatesFromRaws (parseStatesRawValues other)

example : parse_states (.pyStr ("NJ, New York; nationwide".data)) =
    [("ALL".data)] := by decide

example : parse_states (.pyStr ("nj / New York".data)) =
    [("NJ".data), ("NY".data)] := by decide

example : parse_states (.pyList [("NJ".data), ("NJ".data), ("ohio".data)]) =
    [("NJ".data), ("OH".data)] := by decide

example : parse_states (.pyStr ("Nationwide".data)) = [("ALL".data)] := by decide

example : parse_states (.pyStr ("somewhere".data)) = [] := by decide

theorem mem_insertByLenDesc {x y : Str × Str} {l : List (Str × Str)}
    (h : y ∈ insertByLenDesc x l) : y = x ∨ y ∈ l := by
  induction l with
  | nil =>
    rw [insertByLenDesc] at h
    exact Or.inl (List.mem_singleton.mp h)
  | cons z zs ih =>
    simp only [insertByLenDesc] at h
    split at h
    · rcases List.mem_cons.mp h with h1 | h1
      · exact Or.inl h1
      · exact Or.inr h1
    · rcases List.mem_cons.mp h with h1 | h1
      · exact Or.inr (List.mem_cons.mpr (Or.inl h1))
      · rcases ih h1 with h2 | h2
        · exact Or.inl h2
        · exact Or.inr (List.mem_cons.mpr (Or.inr h2))

theorem mem_sortByLenDesc {y : Str × Str} {l : List (Str × Str)}
    (h : y ∈ sortByLenDesc l) : y ∈ l := by
  induction l with
  | nil => rw [sortByLenDesc] at h; exact h
  | cons z zs ih =>
    simp only [sortByLenDesc] at h
    rcases mem_insertByLenDesc h with h1 | h1
    · exact h1 ▸ List.mem_cons_self _ _
    · exact List.mem_cons.mpr (Or.inr (ih h1))

theorem findIterF_group {α : Type} (att : Option Char → Str → Option (Nat × α))
    (P : α → Prop) (hatt : ∀ prev s n a, att prev s = some (n, a) → P a) :
    ∀ (fuel : Nat) (prev : Option Char) (pos : Nat) (s : Str)
      (t : Nat × Str × α), t ∈ findIterF att fuel prev pos s → P t.2.2 := by
  intro fuel
  induction fuel with
  | zero => intro prev pos s t ht; simp [findIterF] at ht
  | succ n ih =>
    intro prev pos s t ht
    cases s with
    | nil => simp [findIterF] at ht
    | cons c rest =>
      rw [findIterF] at ht
      cases hm : att prev (c :: rest) with
      | none => rw [hm] at ht; exact ih _ _ _ _ ht
      | some pr =>
        rw [hm] at ht
        rcases List.mem_cons.mp ht with h1 | h1
        · subst h1
          exact hatt prev (c :: rest) pr.1 pr.2 (by rw [hm])
        · exact ih _ _ _ _ h1

theorem attStateCodeTry_snd {s c0 : Str} {r : Nat × Str}
    (h : attStateCodeTry s c0 = some r) : r.2 = c0 := by
  unfold attStateCodeTry at h
  split at h
  · exact Option.noConfusion h
  · split at h
    · cases Option.some.inj h
      rfl
    · exact Option.noConfusion h

theorem attStateCode_group {prev : Option Char} {s : Str} {n : Nat} {code : Str}
    (h : attStateCode prev s = some (n, code)) : code ∈ STATE_CODES := by
  rw [attStateCode] at h
  split at h
  · have hmem := List.mem_of_mem_head? h
    rcases List.mem_filterMap.mp hmem with ⟨c0, hc0, hf⟩
    have h2 : code = c0 := attStateCodeTry_snd hf
    exact h2 ▸ hc0
  · exact Option.noConfusion h

theorem dedupe_preserve_go (values : List Str) :
    ∀ acc : List Str, acc.Nodup →
      (values.foldl
        (fun acc value =>
          if value ≠ [] ∧ ¬ (value ∈ acc) then acc ++ [value] else acc)
        acc).Nodup ∧
      ∀ x ∈ values.foldl
        (fun acc value =>
          if value ≠ [] ∧ ¬ (value ∈ acc) then acc ++ [value] else acc)
        acc, x ∈ acc ∨ x ∈ values := by
  induction values with
  | nil => intro acc hacc; exact ⟨hacc, fun x hx => Or.inl hx⟩
  | cons v vs ih =>
    intro acc hacc
    simp only [List.foldl_cons]
    by_cases hc : v ≠ [] ∧ ¬ (v ∈ acc)
    · rw [if_pos hc]
      have hacc2 : (acc ++ [v]).Nodup := by
        rw [List.nodup_append]
        exact ⟨hacc, List.nodup_singleton v,
          by intro a ha hb; rw [List.mem_singleton] at hb; exact hc.2 (hb ▸ ha)⟩
      obtain ⟨h1, h2⟩ := ih (acc ++ [v]) hacc2
      refine ⟨h1, fun x hx => ?_⟩
      rcases h2 x hx with h3 | h3
      · rcases List.mem_append.mp h3 with h4 | h4
        · exact Or.inl h4
        · exact Or.inr (List.mem_cons.mpr (Or.inl (List.mem_singleton.mp h4)))
      · exact Or.inr (List.mem_cons.mpr (Or.inr h3))
    · rw [if_neg hc]
      obtain ⟨h1, h2⟩ := ih acc hacc
      refine ⟨h1, fun x hx => ?_⟩
      rcases h2 x hx with h3 | h3
      · exact Or.inl h3
      · exact Or.inr (List.mem_cons.mpr (Or.inr h3))

theorem dedupe_preserve_nodup (values : List Str) :
    (dedupe_preserve values).Nodup :=
  (dedupe_preserve_go values [] List.nodup_nil).1

theorem dedupe_preserve_mem {values : List Str} {x : Str}
    (h : x ∈ dedupe_preserve values) : x ∈ values := by
  rcases (dedupe_preserve_go values [] List.nodup_nil).2 x h with h1 | h1
  · exact absurd h1 (List.not_mem_nil x)
  · exact h1

theorem extract_state_codes_mem (fragment : Str) :
    ∀ c ∈ extract_state_codes_from_fragment fragment, c ∈ STATE_CODES := by
  intro c hc
  rw [extract_state_codes_from_fragment] at hc
  split at hc
  · exact absurd hc (List.not_mem_nil c)
  · have hc2 := dedupe_preserve_mem hc
    rcases List.mem_append.mp hc2 with h1 | h1
    · rcases List.mem_map.mp h1 with ⟨t, ht, hup⟩
      have hg : t.2.2 ∈ STATE_CODES :=
        findIterF_group attStateCode (· ∈ STATE_CODES)
          (fun prev s n a ha => attStateCode_group ha) _ _ _ _ t ht
      have hupfix : ∀ code ∈ STATE_CODES, pyUpper code = code := by decide
      rw [← hup]
      rw [hupfix t.2.2 hg]
      exact hg
    · split at h1
      · rcases List.mem_filterMap.mp h1 with ⟨item, hitem, hf⟩
        have hitem2 : item ∈ STATE_NAME_TO_CODE := mem_sortByLenDesc hitem
        have hval : ∀ it ∈ STATE_NAME_TO_CODE, it.2 ∈ STATE_CODES := by decide
        split at hf
        · exact (Option.some.inj hf) ▸ hval item hitem2
        · exact Option.noConfusion hf
      · exact absurd h1 (List.not_mem_nil c)

theorem parseStatesLoop_codes :
    ∀ (raws : List Str) (codes : List Str), parseStatesLoop raws = some codes →
      ∀ c ∈ codes, c ∈ STATE_CODES := by
  intro raws
  induction raws with
  | nil =>
    intro codes h c hc
    rw [parseStatesLoop] at h
    rw [← Option.some.inj h] at hc
    exact absurd hc (List.not_mem_nil c)
  | cons raw rest ih =>
    intro codes h c hc
    rw [parseStatesLoop] at h
    by_cases hall : isAllToken raw = true
    · rw [if_pos hall] at h; exact Option.noConfusion h
    · rw [if_neg hall] at h
      by_cases hcont : STATE_CODES.contains (pyUpper raw) = true
      · rw [if_pos hcont] at h
        cases hrec : parseStatesLoop rest with
        | none => rw [hrec] at h; exact Option.noConfusion h
        | some codes2 =>
          rw [hrec] at h
          have h2 : pyUpper raw :: codes2 = codes := Option.some.inj h
          rw [← h2] at hc
          rcases List.mem_cons.mp hc with h1 | h1
          · exact h1 ▸ List.mem_of_elem_eq_true hcont
          · exact ih codes2 hrec c h1
      · rw [if_neg hcont] at h
        cases hrec : parseStatesLoop rest with
        | none => rw [hrec] at h; exact Option.noConfusion h
        | some codes2 =>
          rw [hrec] at h
          have h2 : extract_state_codes_from_fragment raw ++ codes2 = codes :=
            Option.some.inj h
          rw [← h2] at hc
          rcases List.mem_append.mp hc with h1 | h1
          · exact extract_state_codes_mem raw c h1
          · exact ih codes2 hrec c h1

theorem parseStatesLoop_all :
    ∀ raws : List Str, (∃ v ∈ raws, isAllToken v = true) →
      parseStatesLoop raws = none := by
  intro raws
  induction raws with
  | nil => intro ⟨v, hv, _⟩; exact absurd hv (List.not_mem_nil v)
  | cons raw rest ih =>
    intro ⟨v, hv, hall⟩
    rw [parseStatesLoop]
    rcases List.mem_cons.mp hv with h1 | h1
    · rw [if_pos (h1 ▸ hall)]
    · by_cases hraw : isAllToken raw
      · rw [if_pos hraw]
      · rw [if_neg hraw, ih ⟨v, h1, hall⟩]
        split <;> rfl

theorem parseStatesFromRaws_shape (raws : List Str) :
    parseStatesFromRaws raws = [] ∨
      parseStatesFromRaws raws = [("ALL".data)] ∨
      ((parseStatesFromRaws raws).Nodup ∧
        ∀ c ∈ parseStatesFromRaws raws, c ∈ STATE_CODES) := by
  unfold parseStatesFromRaws
  split
  · exact Or.inl rfl
  · split
    · exact Or.inr (Or.inl rfl)
    · rename_i hloop
      dsimp only
      split
      · rename_i hcodes
        refine Or.inr (Or.inr ⟨dedupe_preserve_nodup _, fun c hc => ?_⟩)
        exact parseStatesLoop_codes raws _ hloop c (dedupe_preserve_mem hc)
      · split
        · split
          · exact Or.inr (Or.inl rfl)
          · exact Or.inl rfl
        · exact Or.inl rfl

theorem parseStatesFromRaws_all {raws : List Str}
    (h : ∃ v ∈ raws, isAllToken v = true) :
    parseStatesFromRaws raws = [("ALL".data)] := by
  obtain ⟨v, hv, hall⟩ := h
  have hne : raws ≠ [] := by
    intro he
    rw [he] at hv
    exact absurd hv (List.not_mem_nil v)
  have hloop := parseStatesLoop_all raws ⟨v, hv, hall⟩
  unfold parseStatesFromRaws
  rw [if_neg hne]
  split
  · rfl
  · rename_i codes0 hsome
    rw [hloop] at hsome
    exact Option.noConfusion hsome

/-- C10: for every input value, `parse_states` returns either `[]`, exactly
`["ALL"]`, or a duplicate-free list of codes drawn from the fixed state-code
table; and whenever any parsed raw value is `ALL`/`NATIONWIDE`
(case-insensitively), the result collapses to exactly `["ALL"]`. -/
theorem claim_C10_parse_states (input : PyStates) :
    (parse_states input = [] ∨
      parse_states input = [("ALL".data)] ∨
      ((parse_states input).Nodup ∧ ∀ c ∈ parse_states input, c ∈ STATE_CODES)) ∧
    ((∃ v ∈ parseStatesRawValues input, isAllToken v = true) →
      parse_states input = [("ALL".data)]) := by
  cases input with
  | pyNone =>
    refine ⟨Or.inl rfl, fun ⟨v, hv, _⟩ => ?_⟩
    exact absurd hv (List.not_mem_nil v)
  | pyList ss =>
    exact ⟨parseStatesFromRaws_shape _, fun h => parseStatesFromRaws_all h⟩
  | pyOther s =>
    exact ⟨parseStatesFromRaws_shape _, fun h => parseStatesFromRaws_all h⟩
  | pyStr s =>
    rw [parse_states]
    by_cases hempty : pyStrip s = []
    · rw [if_pos hempty]
      refine ⟨Or.inl rfl, fun ⟨v, hv, _⟩ => ?_⟩
      rw [parseStatesRawValues, if_pos hempty] at hv
      exact absurd hv (List.not_mem_nil v)
    · rw [if_neg hempty]
      by_cases htok : pyUpper (pyStrip s) = ("ALL".data) ∨
          pyUpper (pyStrip s) = ("NATIONWIDE".data)
      · rw [if_pos htok]
        exact ⟨Or.inr (Or.inl rfl), fun _ => rfl⟩
      · rw [if_neg htok]
        exact ⟨parseStatesFromRaws_shape _, fun h => parseStatesFromRaws_all h⟩

/-- Witness for C10 at concrete inputs: a raw value `all` inside a list
collapses to `["ALL"]`, and a plain state list parses to codes. -/
theorem claim_C10_witness :
    (∃ v ∈ parseStatesRawValues (.pyStr ("NJ, all".data)), isAllToken v = true) ∧
    parse_states (.pyStr ("NJ, all".data)) = [("ALL".data)] ∧
    parse_states (.pyList [("nj".data), ("Ohio".data)]) =
      [("NJ".data), ("OH".data)] :=
  ⟨by decide, (claim_C10_parse_states _).2 (by decide), by decide⟩

/-!
## Terms-section renderer — `app/services/draft.py`, `_render_terms_section_html`
-/

/-- Python `str.replace(old, new)`: replace all non-overlapping occurrences
left to right. -/
def pyReplace (old new s : Str) : Str :=
  pyJoin new (pySplitSep old s)

/-- Python `str(int)`. -/
def intToStr (i : Int) : Str :=
  if i < 0 then '-' :: natToStr i.natAbs else natToStr i.toNat

/-- Raw-terms branch of `_render_terms_section_html`: when terms text is
present, unescape literal `\n` sequences, split into non-empty stripped
paragraphs and wrap each in `<p>…</p>`; `none` when this branch falls
through to the template. -/
def render_terms_paras (terms : Str) : Option Str :=
  if terms ≠ [] then
    let cleaned := pyReplace ("\\n".data) ("\n".data) terms
    let paras := ((pySplitlines cleaned).map pyStrip).filter (· ≠ [])
    if paras ≠ [] then
      some (pyJoin ("\n".data) (paras.map fun p => ("<p>".data) ++ p ++ ("</p>".data)))
    else none
  else none

/-- Fact-template branch of `_render_terms_section_html`, built only from
already-extracted facts plus a fixed "see full terms" line. -/
def render_terms_template (expiration_days : Option Int) (min_odds wagering : Str)
    (prediction_market : Bool) : Str :=
  let points : List Str :=
    (match expiration_days with
     | some d =>
       [if prediction_market then
          ("Promotional credits expire in ".data) ++ intToStr d ++ (" days.".data)
        else
          ("Bonus bets expire in ".data) ++ intToStr d ++ (" days.".data)]
     | none => []) ++
    (if ¬ prediction_market then
      (if min_odds ≠ [] then
        [("Minimum odds requirement: ".data) ++ min_odds ++ (".".data)]
       else []) ++
      (if wagering ≠ [] then
        [("Wagering requirement: ".data) ++ wagering ++ (".".data)]
       else [])
     else []) ++
    [if ¬ prediction_market then
      ("See full terms at the operator site for complete eligibility and restrictions.".data)
     else
      ("See full terms at the operator site for complete eligibility, market rules, and settlement details.".data)]
  ("<p>".data) ++ pyJoin (" ".data) points ++ ("</p>".data)

/-- `_render_terms_section_html` from `draft.py`: reproduce raw terms text
paragraph-split when present, else the deterministic fact template. -/
def render_terms_section_html (terms : Str) (expiration_days : Option Int)
    (min_odds wagering : Str) (prediction_market : Bool) : Str :=
  match render_terms_paras terms with
  | some r => r
  | none => render_terms_template expiration_days min_odds wagering prediction_market

example : render_terms_section_html ("A.\\nB.".data) none [] [] false =
    ("<p>A.</p>\n<p>B.</p>".data) := by decide

example : render_terms_section_html [] (some 7) [] [] false =
    ("<p>Bonus bets expire in 7 days. See full terms at the operator site for complete eligibility and restrictions.</p>".data) := by
  decide

/-- C6: for terms text `Bonus bets expire in 7 days.`,
`extract_bonus_expiration_days` returns 7, and the deterministic terms-intent
renderer reproduces the sentence verbatim as a raw-terms paragraph,
whatever the other extracted facts and the mode flag are. -/
theorem claim_C6_terms_verbatim (e : Option Int) (mo w : Str) (pm : Bool) :
    extract_bonus_expiration_days (("Bonus bets expire in 7 days.").data) =
      some 7 ∧
    render_terms_section_html (("Bonus bets expire in 7 days.").data) e mo w pm =
      ("<p>Bonus bets expire in 7 days.</p>").data := by
  refine ⟨by decide, ?_⟩
  have hp : render_terms_paras (("Bonus bets expire in 7 days.").data) =
      some (("<p>Bonus bets expire in 7 days.</p>").data) := by decide
  unfold render_terms_section_html
  rw [hp]

/-!
## Compliance Validator — `app/services/compliance.py`
-/

/-- `IssueSeverity` enum. -/
inductive IssueSeverity where
  | error : IssueSeverity
  | warning : IssueSeverity
  | info : IssueSeverity
deriving DecidableEq, Repr

/-- `ComplianceIssue` dataclass. -/
structure ComplianceIssue where
  type : Str
  message : Str
  severity : IssueSeverity
  location : Option Str
  suggestion : Option Str
deriving DecidableEq, Repr

/-- `ComplianceResult` dataclass; the Python `float` score is modelled by
`ℚ` (every value produced is an exact small integer). -/
structure ComplianceResult where
  valid : Bool
  issues : List ComplianceIssue
  word_count : Nat
  compliance_score : ℚ
deriving DecidableEq, Repr

/-- Attempt of `\bLITERAL\b` (or without the trailing `\b` when `endB` is
false), case-insensitively. -/
def attWordCI (needle : Str) (endB : Bool) (prev : Option Char) (s : Str) :
    Option (Nat × Unit) :=
  if wordBoundary prev s.head? then
    match mLitCI needle s with
    | [] => none
    | p :: _ =>
      if endB then
        if wordBoundary (p.1.getLast?) (p.2.head?) then some (needle.length, ())
        else none
      else some (needle.length, ())
  else none

/-- Attempt of `\bguarantee[d]?\b` (case-insensitive). -/
def attGuarantee (prev : Option Char) (s : Str) : Option (Nat × Unit) :=
  if wordBoundary prev s.head? then
    ((mLitCI ("guarantee".data) s).flatMap fun p1 =>
      (mOpt (mChar fun c => c = 'd' || c = 'D') p1.2).flatMap fun p2 =>
        if wordBoundary ((p1.1 ++ p2.1).getLast?) (p2.2.head?) then
          [(s.length - p2.2.length, ())]
        else []).head?
  else none

/-- Attempt of `\brisk[-\s]?free\b(?! bet credit)` (case-insensitive). -/
def attRiskFree (prev : Option Char) (s : Str) : Option (Nat × Unit) :=
  if wordBoundary prev s.head? then
    ((mLitCI ("risk".data) s).flatMap fun p1 =>
      (mOpt (mChar fun c => c = '-' || pyIsSpace c) p1.2).flatMap fun p2 =>
      (mLitCI ("free".data) p2.2).flatMap fun p3 =>
        if wordBoundary (p3.1.getLast?) (p3.2.head?) &&
            (mLitCI (" bet credit".data) p3.2).isEmpty then
          [(s.length - p3.2.length, ())]
        else []).head?
  else none

/-- Attempt of `\bcan'?t lose\b` (case-insensitive). -/
def attCantLose (prev : Option Char) (s : Str) : Option (Nat × Unit) :=
  if wordBoundary prev s.head? then
    ((mLitCI ("can".data) s).flatMap fun p1 =>
      (mOpt (mChar fun c => c = '\x27') p1.2).flatMap fun p2 =>
      (mLitCI ("t lose".data) p2.2).flatMap fun p3 =>
        if wordBoundary (p3.1.getLast?) (p3.2.head?) then
          [(s.length - p3.2.length, ())]
        else []).head?
  else none

/-- Attempt of `\bno[- ]brainer\b` (case-insensitive). -/
def attNoBrainer (prev : Option Char) (s : Str) : Option (Nat × Unit) :=
  if wordBoundary prev s.head? then
    ((mLitCI ("no".data) s).flatMap fun p1 =>
      (mChar (fun c => c = '-' || c = ' ') p1.2).flatMap fun p2 =>
      (mLitCI ("brainer".data) p2.2).flatMap fun p3 =>
        if wordBoundary (p3.1.getLast?) (p3.2.head?) then
          [(s.length - p3.2.length, ())]
        else []).head?
  else none

/-- `BANNED_PATTERNS`: pattern attempts with their messages, in source
order. -/
def BANNED_PATTERNS :
    List ((Option Char → Str → Option (Nat × Unit)) × Str) :=
  [(attWordCI ("surefire".data) true,
    ("Avoid \x27surefire\x27 - implies guaranteed outcomes".data)),
   (attGuarantee,
    ("Avoid \x27guarantee\x27 - no betting outcomes are guaranteed".data)),
   (attRiskFree,
    ("Avoid \x27risk-free\x27 unless referring to bet credits".data)),
   (attCantLose,
    ("Avoid \x27can\x27t lose\x27 - misleading claim".data)),
   (attWordCI ("free money".data) true,
    ("Avoid \x27free money\x27 - misleading".data)),
   (attWordCI ("easy win".data) true,
    ("Avoid \x27easy win\x27 - misleading claim".data)),
   (attNoBrainer,
    ("Avoid \x27no-brainer\x27 - implies certainty".data))]

/-- `check_banned_phrases(content)`: one error-severity issue per match of
each banned pattern. -/
def check_banned_phrases (content : Str) : List ComplianceIssue :=
  BANNED_PATTERNS.flatMap fun pat =>
    (findIter pat.1 content).map fun t =>
      { type := ("banned_phrase".data), message := pat.2,
        severity := .error,
        location := some ('\x27' :: t.2.1 ++ ("\x27 at position ".data) ++
          natToStr t.1),
        suggestion := some ("Remove or rephrase this term".data) }

/-- `BET_TRIGGERS` pattern attempts, in source order (`\bgambl` has no
trailing boundary). -/
def BET_TRIGGERS : List (Option Char → Str → Option (Nat × Unit)) :=
  [attWordCI ("bet".data) true,
   attWordCI ("wager".data) true,
   attWordCI ("parlay".data) true,
   attWordCI ("gambl".data) false,
   attWordCI ("sportsbook".data) true]

/-- Responsible-gaming phrases checked as plain substrings of the lowercased
content. -/
def RESPONSIBLE_PHRASES : List Str :=
  [("responsible".data), ("21+".data), ("gambler".data),
   ("gambling problem".data), ("bet responsibly".data)]

/-- `check_responsible_gaming(content)`. -/
def check_responsible_gaming (content : Str) : List ComplianceIssue :=
  let has_bet_trigger := BET_TRIGGERS.any fun att => reSearch att content
  if has_bet_trigger then
    let has_responsible :=
      RESPONSIBLE_PHRASES.any fun phrase => containsSub phrase (pyLower content)
    if ¬ has_responsible then
      [{ type := ("responsible_gaming".data),
         message :=
           ("Content mentions betting but lacks responsible gaming language".data),
         severity := .error,
         location := none,
         suggestion := some ("Add \x2721+\x27 and responsible gaming disclaimer".data) }]
    else []
  else []

/-- Attempt of `\[Claim Offer\]\(([^)]+)\)` (case-insensitive); group: the
URL text. -/
def attCTA (_ : Option Char) (s : Str) : Option (Nat × Str) :=
  ((mLitCI ("[claim offer](".data) s).flatMap fun p1 =>
    (mPlus (fun c => c ≠ ')') p1.2).flatMap fun p2 =>
    (mLit (")".data) p2.2).map fun p3 =>
      (s.length - p3.2.length, p2.1)).head?

/-- `check_cta_links(content)`. -/
def check_cta_links (content : Str) : List ComplianceIssue :=
  if (findIter attCTA content).length < 1 then
    [{ type := ("missing_cta".data),
       message := ("No CTA link found".data),
       severity := .warning,
       location := none,
       suggestion := some ("Add at least one \x27[Claim Offer](url)\x27 link".data) }]
  else []

/-- Attempt of `\]\((https?://[^)]+)\)` (case-sensitive); group: the URL. -/
def attMdLinkURL (_ : Option Char) (s : Str) : Option (Nat × Str) :=
  ((mLit ("](".data) s).flatMap fun p1 =>
    (mLit ("http".data) p1.2).flatMap fun p2 =>
    (mOpt (mLit ("s".data)) p2.2).flatMap fun p3 =>
    (mLit ("://".data) p3.2).flatMap fun p4 =>
    (mPlus (fun c => c ≠ ')') p4.2).flatMap fun p5 =>
    (mLit (")".data) p5.2).map fun p6 =>
      (s.length - p6.2.length, p2.1 ++ p3.1 ++ p4.1 ++ p5.1)).head?

/-- Attempt of `\[([^\]]+)\]\((https?://[^)]+)\)` (case-sensitive); groups:
anchor text and URL. -/
def attMdLink (_ : Option Char) (s : Str) : Option (Nat × (Str × Str)) :=
  ((mLit ("[".data) s).flatMap fun p1 =>
    (mPlus (fun c => c ≠ ']') p1.2).flatMap fun p2 =>
    (mLit ("](".data) p2.2).flatMap fun p3 =>
    (mLit ("http".data) p3.2).flatMap fun p4 =>
    (mOpt (mLit ("s".data)) p4.2).flatMap fun p5 =>
    (mLit ("://".data) p5.2).flatMap fun p6 =>
    (mPlus (fun c => c ≠ ')') p6.2).flatMap fun p7 =>
    (mLit (")".data) p7.2).map fun p8 =>
      (s.length - p8.2.length, (p2.1, p4.1 ++ p5.1 ++ p6.1 ++ p7.1))).head?

/-- Attempt of `^(#{1,6}) ` with `re.MULTILINE`: at a line start (string
start or just after `\n`), one to six hashes then a space; group: the hash
run length. -/
def attHeading (prev : Option Char) (s : Str) : Option (Nat × Nat) :=
  if prev = none ∨ prev = some '\n' then
    let r := (s.takeWhile (· = '#')).length
    if 1 ≤ r ∧ r ≤ 6 ∧ (s.drop r).head? = some ' ' then some (r + 1, r)
    else none
  else none

/-- Attempt of `^#+ .*\]\(` with `re.MULTILINE`: a heading line containing a
markdown link opener. -/
def attHeadingLink (prev : Option Char) (s : Str) : Option (Nat × Unit) :=
  if prev = none ∨ prev = some '\n' then
    let r := (s.takeWhile (· = '#')).length
    if 1 ≤ r ∧ (s.drop r).head? = some ' ' then
      let lineRest := (s.drop (r + 1)).takeWhile (· ≠ '\n')
      if containsSub ("](".data) lineRest then some (r + 1, ()) else none
    else none
  else none

/-- `ALLOWED_DOMAINS` constant. -/
def ALLOWED_DOMAINS : List Str := [("example.com".data)]

/-- `check_link_quality(content, allowed_domains)`. -/
def check_link_quality (content : Str) (allowed_domains : Option (List Str)) :
    List ComplianceIssue :=
  let domains :=
    match allowed_domains with
    | some (d :: ds) => d :: ds
    | _ => ALLOWED_DOMAINS
  let linkIssues :=
    (findIter attMdLink content).flatMap fun t =>
      let anchor := pyStrip t.2.2.1
      let url := t.2.2.2
      (if (pySplitWS anchor).length < 2 then
        [{ type := ("short_anchor".data),
           message := ("Anchor text too short: \x27".data) ++ anchor ++
             ("\x27".data),
           severity := .warning,
           location := some url,
           suggestion := some ("Use descriptive anchor text (2+ words)".data) }]
       else []) ++
      (if domains ≠ [] ∧ ¬ (domains.any fun domain => containsSub domain url) then
        [{ type := ("external_link".data),
           message := ("External link detected: ".data) ++ url,
           severity := .info,
           location := none,
           suggestion := some ("Verify external link is appropriate".data) }]
       else [])
  let headingIssues :=
    if reSearch attHeadingLink content then
      [{ type := ("heading_link".data),
         message := ("Link found in heading".data),
         severity := .warning,
         location := none,
         suggestion := some ("Move links from headings to body text".data) }]
    else []
  linkIssues ++ headingIssues

/-- Does the heading-level list skip a level somewhere (`levels[i] >
levels[i-1] + 1`)? -/
def headingLevelSkip : List Nat → Bool
  | a :: b :: rest => if b > a + 1 then true else headingLevelSkip (b :: rest)
  | _ => false

/-- `check_seo(content)`. -/
def check_seo (content : Str) : List ComplianceIssue :=
  let paragraphs :=
    (pySplitSep ("\n\n".data) content).filter fun p =>
      pyStrip p ≠ [] ∧ ¬ (("#".data).isPrefixOf (pyStrip p))
  let long_paragraphs := paragraphs.filter fun p => (pySplitWS p).length > 130
  let paraIssues :=
    if long_paragraphs ≠ [] then
      [{ type := ("long_paragraph".data),
         message := natToStr long_paragraphs.length ++
           (" paragraph(s) exceed ~120 words".data),
         severity := .warning,
         location := none,
         suggestion := some ("Break long paragraphs into smaller chunks".data) }]
    else []
  let link_count := (findIter attMdLinkURL content).length
  let word_count := (pySplitWS content).length
  -- `link_count / word_count > (1 / 120)` rendered exactly by
  -- cross-multiplication (word_count is positive in this branch).
  let densityIssues :=
    if word_count > 0 ∧ 120 * link_count > word_count then
      [{ type := ("link_density".data),
         message := ("Link density too high (> 1 per ~120 words)".data),
         severity := .warning,
         location := none,
         suggestion := some ("Reduce number of links or add more content".data) }]
    else []
  let levels := (findIter attHeading content).map fun t => t.2.2
  let headingIssues :=
    if levels ≠ [] ∧ headingLevelSkip levels then
      [{ type := ("heading_skip".data),
         message := ("Heading level skipped (e.g., H2 to H4)".data),
         severity := .info,
         location := none,
         suggestion := some ("Use sequential heading levels (H1 → H2 → H3)".data) }]
    else []
  paraIssues ++ densityIssues ++ headingIssues

/-- Offer dict fields read by `check_offer_facts`. -/
structure OfferRec where
  bonus_code : Str
  bonus_expiration_days : Option Int
  terms : Str
deriving DecidableEq, Repr

/-- `_extract_expiration_days(terms)` from `compliance.py` (duplicates the
four patterns of `extract_bonus_expiration_days`). -/
def compliance_extract_expiration_days (terms : Str) : Option Nat :=
  if terms = [] then none
  else searchExpirationPatterns (pyLower terms)

/-- Case-insensitive variant of the first expiration pattern, used by
`check_offer_facts` on the raw content with `re.IGNORECASE`. -/
def attExpireContentCI (_ : Option Char) (s : Str) : Option (Nat × Str) :=
  ((mLitCI ("expire".data) s).flatMap fun p1 =>
   (mOpt (mChar fun c => c = 's' || c = 'd' || c = 'S' || c = 'D') p1.2).flatMap fun p2 =>
   (mWS1 p2.2).flatMap fun p3 =>
   (mAlt [mLitCI ("in".data), mLitCI ("within".data)] p3.2).flatMap fun p4 =>
   (mWS1 p4.2).flatMap fun p5 =>
   (mDigits1 p5.2).flatMap fun p6 =>
   (mWS1 p6.2).flatMap fun p7 =>
   (mLitCI ("day".data) p7.2).flatMap fun p8 =>
   (mOpt (mLitCI ("s".data)) p8.2).map fun p9 =>
     (s.length - p9.2.length, p6.1)).head?

/-- Occurrence-count attempt for `re.findall(re.escape(keyword), content,
re.IGNORECASE)` (non-empty keyword). -/
def attLitCICount (needle : Str) (_ : Option Char) (s : Str) :
    Option (Nat × Unit) :=
  if isPrefixCI needle s then some (needle.length, ()) else none

/-- `check_offer_facts(content, offer, keyword)`. -/
def check_offer_facts (content : Str) (offer : Option OfferRec) (keyword : Str) :
    List ComplianceIssue :=
  if content = [] then []
  else
    let offerIssues :=
      match offer with
      | none => []
      | some o =>
        let bonus_code := pyStrip o.bonus_code
        let codeIssues :=
          if bonus_code ≠ [] ∧ ¬ containsSubCI bonus_code content then
            [{ type := ("missing_bonus_code".data),
               message := ("Bonus code \x27".data) ++ bonus_code ++
                 ("\x27 not found in content".data),
               severity := .error,
               location := none,
               suggestion :=
                 some ("Include the exact promo code in the article body".data) }]
          else []
        let expected_days : Option Int :=
          match o.bonus_expiration_days with
          | some d => some d
          | none => (compliance_extract_expiration_days o.terms).map fun n => (n : Int)
        let expiryIssues :=
          match expected_days with
          | none => []
          | some expected =>
            match ((findIter attExpireContentCI content).map fun t =>
                digitsToNat t.2.2).find? (fun (found : Nat) =>
                  decide ((found : Int) ≠ expected)) with
            | none => []
            | some found =>
              [{ type := ("expiration_mismatch".data),
                 message := ("Expiration mismatch: content says ".data) ++
                   natToStr found ++ (" days, expected ".data) ++
                   intToStr expected ++ (" days".data),
                 severity := .error,
                 location := none,
                 suggestion :=
                   some ("Update expiration days to match the offer terms".data) }]
        codeIssues ++ expiryIssues
    let keywordIssues :=
      if keyword ≠ [] then
        let keyword_count := (findIter (attLitCICount keyword) content).length
        if keyword_count < 6 then
          [{ type := ("keyword_density_low".data),
             message := ("Low keyword density: \x27".data) ++ keyword ++
               ("\x27 appears ".data) ++ natToStr keyword_count ++
               (" times (target 6-9)".data),
             severity := .warning,
             location := none,
             suggestion :=
               some ("Include the exact keyword a few more times naturally".data) }]
        else if keyword_count > 9 then
          [{ type := ("keyword_density_high".data),
             message := ("High keyword density: \x27".data) ++ keyword ++
               ("\x27 appears ".data) ++ natToStr keyword_count ++
               (" times (target 6-9)".data),
             severity := .warning,
             location := none,
             suggestion :=
               some ("Reduce exact keyword repetitions to avoid stuffing".data) }]
        else []
      else []
    offerIssues ++ keywordIssues

/-- `validate_content(content, state, check_links, allowed_domains, keyword,
offer)`: run every check, then score.  The `state` argument is accepted but
unused by the source function. -/
def validate_content (content : Str) (_state : Str) (check_links : Bool)
    (allowed_domains : Option (List Str)) (keyword : Str)
    (offer : Option OfferRec) : ComplianceResult :=
  let issues :=
    check_banned_phrases content ++
    check_responsible_gaming content ++
    check_cta_links content ++
    check_seo content ++
    check_offer_facts content offer keyword ++
    (if check_links then check_link_quality content allowed_domains else [])
  let word_count := (pySplitWS content).length
  let error_count := (issues.filter fun i => i.severity = .error).length
  let warning_count := (issues.filter fun i => i.severity = .warning).length
  let score : ℚ :=
    max 0 (100 - (error_count : ℚ) * 15 - (warning_count : ℚ) * 5)
  { valid := error_count == 0,
    issues := issues,
    word_count := word_count,
    compliance_score := score }

/-- C2: for every input, the compliance score is
`max(0, 100 − 15·errors − 5·warnings)` computed from the issues of the very
result, and `valid` holds exactly when there is no error-severity issue
(hence info-severity issues never change the score). -/
theorem claim_C2_score_formula (content state : Str) (check_links : Bool)
    (allowed_domains : Option (List Str)) (keyword : Str)
    (offer : Option OfferRec) :
    (validate_content content state check_links allowed_domains keyword
        offer).compliance_score =
      max 0 (100 -
        15 * (((validate_content content state check_links allowed_domains
          keyword offer).issues.filter fun i =>
            i.severity = IssueSeverity.error).length : ℚ) -
        5 * (((validate_content content state check_links allowed_domains
          keyword offer).issues.filter fun i =>
            i.severity = IssueSeverity.warning).length : ℚ)) ∧
    ((validate_content content state check_links allowed_domains keyword
        offer).valid = true ↔
      ((validate_content content state check_links allowed_domains keyword
        offer).issues.filter fun i =>
          i.severity = IssueSeverity.error).length = 0) := by
  constructor
  · simp only [validate_content]
    congr 1
    ring
  · simp only [validate_content]
    exact beq_iff_eq

/-- Does `needle` occur in the remaining input at a position whose left
context ends with a word boundary?  `prev` is the character before the
remaining input. -/
def occursWithLeftBoundGo (needle : Str) : Option Char → Str → Bool
  | _, [] => false
  | prev, c :: rest =>
    (wordBoundary prev (some c) && needle.isPrefixOf (c :: rest)) ||
      occursWithLeftBoundGo needle (some c) rest

/-- Occurrence of `needle` in `hay` preceded by a word boundary. -/
def occursWithLeftBound (needle hay : Str) : Bool :=
  occursWithLeftBoundGo needle none hay

/-- Does some attempt of `att` succeed at the current or a later position? -/
def attEventually {α : Type} (att : Option Char → Str → Option (Nat × α)) :
    Option Char → Str → Bool
  | _, [] => false
  | prev, c :: rest =>
    (att prev (c :: rest)).isSome || attEventually att (some c) rest

theorem findIterF_ne_nil {α : Type} (att : Option Char → Str → Option (Nat × α)) :
    ∀ (fuel : Nat) (prev : Option Char) (pos : Nat) (s : Str),
      s.length ≤ fuel → attEventually att prev s = true →
      findIterF att fuel prev pos s ≠ [] := by
  intro fuel
  induction fuel with
  | zero =>
    intro prev pos s hlen hev
    cases s with
    | nil => rw [attEventually] at hev; exact absurd hev (by simp)
    | cons c rest => exact absurd hlen (by simp)
  | succ n ih =>
    intro prev pos s hlen hev
    cases s with
    | nil => rw [attEventually] at hev; exact absurd hev (by simp)
    | cons c rest =>
      rw [attEventually] at hev
      rw [findIterF]
      cases hm : att prev (c :: rest) with
      | some pr => simp
      | none =>
        rw [hm] at hev
        simp only [Option.isSome_none, Bool.false_or] at hev
        exact ih (some c) (pos + 1) rest
          (by simp only [List.length_cons] at hlen; omega) hev

theorem reSearch_of_attEventually {α : Type}
    {att : Option Char → Str → Option (Nat × α)} {s : Str}
    (h : attEventually att none s = true) : reSearch att s = true := by
  rw [reSearch, findIter]
  have := findIterF_ne_nil att s.length none 0 s (le_refl _) h
  cases hfi : findIterF att s.length none 0 s with
  | nil => exact absurd hfi this
  | cons t ts => rfl

theorem attGuarantee_isSome {prev : Option Char} {s : Str}
    (hb : wordBoundary prev s.head? = true)
    (hp : (("guaranteed win".data)).isPrefixOf s = true) :
    (attGuarantee prev s).isSome = true := by
  obtain ⟨t, ht⟩ := List.isPrefixOf_iff_prefix.mp hp
  rw [← ht] at hb ⊢
  unfold attGuarantee
  rw [if_pos hb]
  rfl

theorem attEventually_attGuarantee :
    ∀ (prev : Option Char) (s : Str),
      occursWithLeftBoundGo ("guaranteed win".data) prev s = true →
      attEventually attGuarantee prev s = true := by
  intro prev s
  induction s generalizing prev with
  | nil => intro h; rw [occursWithLeftBoundGo] at h; exact absurd h (by simp)
  | cons c rest ih =>
    intro h
    rw [occursWithLeftBoundGo] at h
    rw [attEventually]
    rcases Bool.or_eq_true_iff.mp h with h1 | h1
    · have hb : wordBoundary prev (List.head? (c :: rest)) = true :=
        (Bool.and_eq_true_iff.mp h1).1
      have hp := (Bool.and_eq_true_iff.mp h1).2
      rw [attGuarantee_isSome hb hp]
      simp
    · rw [ih (some c) h1]
      simp

/-- Count of issues with a given severity. -/
def sevCount (sev : IssueSeverity) (issues : List ComplianceIssue) : Nat :=
  (issues.filter fun i => i.severity = sev).length

theorem sevCount_append (sev : IssueSeverity) (a b : List ComplianceIssue) :
    sevCount sev (a ++ b) = sevCount sev a + sevCount sev b := by
  simp [sevCount, List.filter_append]

theorem check_banned_all_error (content : Str) :
    ∀ i ∈ check_banned_phrases content, i.severity = IssueSeverity.error := by
  intro i hi
  rw [check_banned_phrases] at hi
  rcases List.mem_flatMap.mp hi with ⟨pat, _, hmem⟩
  rcases List.mem_map.mp hmem with ⟨t, _, hmk⟩
  rw [← hmk]

theorem sevCount_all_error {issues : List ComplianceIssue}
    (h : ∀ i ∈ issues, i.severity = IssueSeverity.error) :
    sevCount IssueSeverity.error issues = issues.length := by
  rw [sevCount]
  induction issues with
  | nil => rfl
  | cons i is ih =>
    rw [List.filter_cons]
    rw [if_pos (by simp [h i (List.mem_cons_self i is)])]
    simp only [List.length_cons]
    rw [ih fun j hj => h j (List.mem_cons.mpr (Or.inr hj))]

theorem check_banned_error_count {content : Str}
    (hg : occursWithLeftBound ("guaranteed win".data) content = true) :
    1 ≤ sevCount IssueSeverity.error (check_banned_phrases content) := by
  rw [sevCount_all_error (check_banned_all_error content)]
  have hev := attEventually_attGuarantee none content hg
  have hne := findIterF_ne_nil attGuarantee content.length none 0 content
    (le_refl _) hev
  rw [check_banned_phrases, BANNED_PATTERNS]
  simp only [List.flatMap_cons, List.flatMap_nil, List.append_nil,
    List.length_append, List.length_map]
  cases hfi : findIter attGuarantee content with
  | nil => exact absurd (hfi ▸ rfl) hne
  | cons t ts => simp [findIter] at hfi ⊢; omega

theorem check_rg_error_count {content : Str}
    (ht : (BET_TRIGGERS.any fun att => reSearch att content) = true)
    (hr : ∀ phrase ∈ RESPONSIBLE_PHRASES,
      containsSub phrase (pyLower content) = false) :
    sevCount IssueSeverity.error (check_responsible_gaming content) = 1 := by
  rw [check_responsible_gaming]
  simp only [ht, if_true]
  have hresp : (RESPONSIBLE_PHRASES.any fun phrase =>
      containsSub phrase (pyLower content)) = false := by
    rw [List.any_eq_false]
    intro phrase hphrase
    simp [hr phrase hphrase]
  rw [hresp]
  rfl

theorem score_le_of_errors {e w : Nat} (he : 2 ≤ e) :
    max (0 : ℚ) (100 - (e : ℚ) * 15 - (w : ℚ) * 5) ≤ 70 := by
  rw [max_le_iff]
  refine ⟨by norm_num, ?_⟩
  have he2 : (2 : ℚ) ≤ (e : ℚ) := by exact_mod_cast he
  have hw : (0 : ℚ) ≤ (w : ℚ) := Nat.cast_nonneg w
  linarith

/-- C3 (amended): for every content string that contains `guaranteed win`
at a word boundary, contains one of the betting trigger words, and contains
none of the responsible-gaming phrases, `validate_content` scores at most 70
and reports `valid = false` — whatever the other arguments are.  (As
originally stated, without the word-boundary and betting-trigger conditions,
the claim is refuted by `claim_C3_counterexample`.) -/
theorem claim_C3_compliance (content state : Str) (check_links : Bool)
    (allowed_domains : Option (List Str)) (keyword : Str)
    (offer : Option OfferRec)
    (hg : occursWithLeftBound ("guaranteed win".data) content = true)
    (ht : (BET_TRIGGERS.any fun att => reSearch att content) = true)
    (hr : ∀ phrase ∈ RESPONSIBLE_PHRASES,
      containsSub phrase (pyLower content) = false) :
    (validate_content content state check_links allowed_domains keyword
      offer).compliance_score ≤ 70 ∧
    (validate_content content state check_links allowed_domains keyword
      offer).valid = false := by
  have hE : 2 ≤ sevCount IssueSeverity.error
      (check_banned_phrases content ++ check_responsible_gaming content ++
        check_cta_links content ++ check_seo content ++
        check_offer_facts content offer keyword ++
        (if check_links then check_link_quality content allowed_domains
          else [])) := by
    rw [sevCount_append, sevCount_append, sevCount_append, sevCount_append,
      sevCount_append]
    have h1 := check_banned_error_count hg
    have h2 := check_rg_error_count ht hr
    omega
  constructor
  · simp only [validate_content]
    apply score_le_of_errors
    simpa [sevCount] using hE
  · simp only [validate_content]
    rw [beq_eq_false_iff_ne]
    intro h0
    have hE2 := hE
    simp only [sevCount] at hE2
    omega

/-- C3 counterexample: the claim as stated fails on the code.  The content
`guaranteed win` (and likewise `xguaranteed win bet now`, where the phrase is
preceded by a word character) contains the phrase `guaranteed win` and none
of the responsible-gaming phrases, yet `validate_content` scores it 80, not
≤ 70: only one error fires (the banned phrase — or, in the second input,
only the responsible-gaming error) together with one warning. -/
theorem validate_content_score_eq (content state : Str) (check_links : Bool)
    (allowed_domains : Option (List Str)) (keyword : Str)
    (offer : Option OfferRec) (e w : Nat)
    (he : sevCount IssueSeverity.error
      (validate_content content state check_links allowed_domains keyword
        offer).issues = e)
    (hw : sevCount IssueSeverity.warning
      (validate_content content state check_links allowed_domains keyword
        offer).issues = w) :
    (validate_content content state check_links allowed_domains keyword
      offer).compliance_score =
      max 0 (100 - (e : ℚ) * 15 - (w : ℚ) * 5) := by
  rw [← he, ← hw]
  simp [validate_content, sevCount]

theorem claim_C3_counterexample :
    (containsSub ("guaranteed win".data) ("guaranteed win".data) = true ∧
     (RESPONSIBLE_PHRASES.all fun p =>
       !(containsSub p (pyLower ("guaranteed win".data)))) = true ∧
     (validate_content ("guaranteed win".data) ("ALL".data) true none []
       none).compliance_score = 80 ∧
     (validate_content ("guaranteed win".data) ("ALL".data) true none []
       none).valid = false) ∧
    (containsSub ("guaranteed win".data) ("xguaranteed win bet now".data) = true ∧
     (RESPONSIBLE_PHRASES.all fun p =>
       !(containsSub p (pyLower ("xguaranteed win bet now".data)))) = true ∧
     (validate_content ("xguaranteed win bet now".data) ("ALL".data) true none
       [] none).compliance_score = 80) := by
  refine ⟨⟨by decide, by decide, ?_, by decide⟩, by decide, by decide, ?_⟩
  · rw [validate_content_score_eq _ _ _ _ _ _ 1 1 (by decide) (by decide)]
    norm_num
  · rw [validate_content_score_eq _ _ _ _ _ _ 1 1 (by decide) (by decide)]
    norm_num

/-- Witness for C3 at a concrete input satisfying all hypotheses. -/
theorem claim_C3_witness :
    occursWithLeftBound ("guaranteed win".data)
      ("bet on a guaranteed win".data) = true ∧
    (validate_content ("bet on a guaranteed win".data) ("ALL".data) true none
      [] none).compliance_score ≤ 70 ∧
    (validate_content ("bet on a guaranteed win".data) ("ALL".data) true none
      [] none).valid = false :=
  ⟨by decide,
   (claim_C3_compliance _ _ _ _ _ _ (by decide) (by decide) (by decide)).1,
   (claim_C3_compliance _ _ _ _ _ _ (by decide) (by decide) (by decide)).2⟩

/-!
## Link Injector — `app/services/switchboard_links.py`
-/

/-- One `re.sub` pass, fuel-driven.  `att pos count s` attempts the pattern
at the current position of the scanned string; `some (n, rep, incr)` means a
match of length `n ≥ 1` whose replacer emits `rep` (or the matched text
itself when `rep = none`, i.e. the replacer skipped) and advances the shared
injected-link counter when `incr`.  Returns the rewritten string and the
final counter. -/
def reSubF (att : Nat → Nat → Str → Option (Nat × Option Str × Bool)) :
    Nat → Nat → Nat → Str → (Str × Nat)
  | 0, _, count, s => (s, count)
  | _ + 1, _, count, [] => ([], count)
  | fuel + 1, pos, count, c :: rest =>
    match att pos count (c :: rest) with
    | some (n, rep, incr) =>
      let step := max n 1
      let emit := match rep with | some e => e | none => (c :: rest).take step
      let r := reSubF att fuel (pos + step)
        (count + (if incr then 1 else 0)) ((c :: rest).drop step)
      (emit ++ r.1, r.2)
    | none =>
      let r := reSubF att fuel (pos + 1) count rest
      (c :: r.1, r.2)

/-- `re.sub` over a whole string, threading the `links_injected` counter. -/
def reSub (att : Nat → Nat → Str → Option (Nat × Option Str × Bool))
    (count : Nat) (s : Str) : Str × Nat :=
  reSubF att s.length 0 count s

/-- The strong replacers' skip test on the prefix `text[:start]`:
`"<a " in before and "</a>" not in before[before.rfind("<a "):]`. -/
def strongReplacerSkip (src : Str) (pos : Nat) : Bool :=
  let before := src.take pos
  containsSub ("<a ".data) before &&
    !(containsSub ("</a>".data)
      (before.drop (match (occIndices ("<a ".data) before).getLast? with
        | some n => n
        | none => 0)))

/-- `rfind(open) > rfind(close)` on a prefix: an unmatched opening tag
precedes the position. -/
def insideTag (openT closeT pre : Str) : Bool :=
  rfindInt openT pre > rfindInt closeT pre

/-- The plain replacers' skip test on the prefix `result[:match_start]`. -/
def plainReplacerSkip (src : Str) (pos : Nat) : Bool :=
  let before := src.take pos
  insideTag ("<strong>".data) ("</strong>".data) before ||
    insideTag ("<a ".data) ("</a>".data) before

/-- Alternation `bonus\s+code|promo\s+code|Promo\s+Code|Bonus\s+Code|code`
(the pattern is compiled with `re.IGNORECASE`, so the duplicated cased
alternatives are kept only for order fidelity). -/
def mCodeWords : Matcher :=
  mAlt [mSeq (mLitCI ("bonus".data)) (mSeq mWS1 (mLitCI ("code".data))),
        mSeq (mLitCI ("promo".data)) (mSeq mWS1 (mLitCI ("code".data))),
        mSeq (mLitCI ("promo".data)) (mSeq mWS1 (mLitCI ("code".data))),
        mSeq (mLitCI ("bonus".data)) (mSeq mWS1 (mLitCI ("code".data))),
        mLitCI ("code".data)]

/-- Alternation `bonus\s+code|promo\s+code|Promo\s+Code|Bonus\s+Code`
(without the bare `code`). -/
def mCodeWordsNoBare : Matcher :=
  mAlt [mSeq (mLitCI ("bonus".data)) (mSeq mWS1 (mLitCI ("code".data))),
        mSeq (mLitCI ("promo".data)) (mSeq mWS1 (mLitCI ("code".data))),
        mSeq (mLitCI ("promo".data)) (mSeq mWS1 (mLitCI ("code".data))),
        mSeq (mLitCI ("bonus".data)) (mSeq mWS1 (mLitCI ("code".data)))]

/-- Match of `<strong>((?:the\s+)?BRAND\s+(?:…|code)\s+CODE)</strong>`
(case-insensitive) at the head of `s`; yields the length and group 1. -/
def matchStrongWithCode (brand code : Str) (s : Str) : Option (Nat × Str) :=
  ((mLitCI ("<strong>".data) s).flatMap fun p1 =>
   (mOpt (mSeq (mLitCI ("the".data)) mWS1) p1.2).flatMap fun p2 =>
   (mLitCI brand p2.2).flatMap fun p3 =>
   (mWS1 p3.2).flatMap fun p4 =>
   (mCodeWords p4.2).flatMap fun p5 =>
   (mWS1 p5.2).flatMap fun p6 =>
   (mLitCI code p6.2).flatMap fun p7 =>
   (mLitCI ("</strong>".data) p7.2).map fun p8 =>
     (s.length - p8.2.length,
       p2.1 ++ p3.1 ++ p4.1 ++ p5.1 ++ p6.1 ++ p7.1)).head?

/-- Match of `<strong>((?:the\s+)?BRAND\s+(?:bonus\s+code|…))</strong>`
(case-insensitive), the variant without the code value. -/
def matchStrongPlain (brand : Str) (s : Str) : Option (Nat × Str) :=
  ((mLitCI ("<strong>".data) s).flatMap fun p1 =>
   (mOpt (mSeq (mLitCI ("the".data)) mWS1) p1.2).flatMap fun p2 =>
   (mLitCI brand p2.2).flatMap fun p3 =>
   (mWS1 p3.2).flatMap fun p4 =>
   (mCodeWordsNoBare p4.2).flatMap fun p5 =>
   (mLitCI ("</strong>".data) p5.2).map fun p6 =>
     (s.length - p6.2.length, p2.1 ++ p3.1 ++ p4.1 ++ p5.1)).head?

/-- Match of `\b(the\s+)?(BRAND)\s+(…|code)\s+(CODE)\b` (case-insensitive);
yields length and groups 1–4. -/
def matchPlainWithCode (brand code : Str) (prev : Option Char) (s : Str) :
    Option (Nat × (Str × Str × Str × Str)) :=
  if wordBoundary prev s.head? then
    ((mOpt (mSeq (mLitCI ("the".data)) mWS1) s).flatMap fun p1 =>
     (mLitCI brand p1.2).flatMap fun p2 =>
     (mWS1 p2.2).flatMap fun p3 =>
     (mCodeWords p3.2).flatMap fun p4 =>
     (mWS1 p4.2).flatMap fun p5 =>
     (mLitCI code p5.2).flatMap fun p6 =>
       if wordBoundary (p6.1.getLast?) p6.2.head? then
         [(s.length - p6.2.length, (p1.1, p2.1, p4.1, p6.1))]
       else []).head?
  else none

/-- Match of `\b(the\s+)?(BRAND)\s+(bonus\s+code|…)\b` with, when a bonus
code is configured, the negative lookahead `(?!\s+CODE)`; yields length and
groups 1–3. -/
def matchPlainNoCode (brand code : Str) (prev : Option Char) (s : Str) :
    Option (Nat × (Str × Str × Str)) :=
  if wordBoundary prev s.head? then
    ((mOpt (mSeq (mLitCI ("the".data)) mWS1) s).flatMap fun p1 =>
     (mLitCI brand p1.2).flatMap fun p2 =>
     (mWS1 p2.2).flatMap fun p3 =>
     (mCodeWordsNoBare p3.2).flatMap fun p4 =>
       if wordBoundary (p4.1.getLast?) p4.2.head? then
         if code ≠ [] then
           if (mSeq mWS1 (mLitCI code) p4.2).isEmpty then
             [(s.length - p4.2.length, (p1.1, p2.1, p4.1))]
           else []
         else [(s.length - p4.2.length, (p1.1, p2.1, p4.1))]
       else []).head?
  else none

/-- The injected anchor markup:
`<a data-id="switchboard_tracking" href="URL" rel="nofollow"><strong>INNER</strong></a>`. -/
def strongLinkWrap (url inner : Str) : Str :=
  ("<a data-id=\x22switchboard_tracking\x22 href=\x22".data) ++ url ++
    ("\x22 rel=\x22nofollow\x22><strong>".data) ++ inner ++ ("</strong></a>".data)

/-- Shared replacer outcome: skip (emit the original match) when the context
test fires or the cap is reached, else emit the replacement and advance the
counter.  This is the common shape of all four replacer closures. -/
def subDecide (cap count : Nat) (skip : Bool) (n : Nat) (rep : Str) :
    Option (Nat × Option Str × Bool) :=
  if skip then some (n, none, false)
  else if cap ≤ count then some (n, none, false)
  else some (n, some rep, true)

/-- Substitution attempt for the strong pattern with the code: skip when
already inside an anchor (checked, as in the source, against the original
`text` prefix) or when the cap is reached; otherwise wrap group 1. -/
def attStrongWithCodeSub (checkSrc brand code url : Str) (cap : Nat)
    (pos count : Nat) (s : Str) : Option (Nat × Option Str × Bool) :=
  match matchStrongWithCode brand code s with
  | none => none
  | some (n, inner) =>
    subDecide cap count (strongReplacerSkip checkSrc pos) n
      (strongLinkWrap url inner)

/-- Substitution attempt for the strong pattern without the code value: the
replacer appends the code to the anchor text when it is missing. -/
def attStrongPlainSub (checkSrc brand code url : Str) (cap : Nat)
    (pos count : Nat) (s : Str) : Option (Nat × Option Str × Bool) :=
  match matchStrongPlain brand s with
  | none => none
  | some (n, inner) =>
    let inner2 :=
      if code ≠ [] ∧ ¬ containsSub (pyUpper code) (pyUpper inner) then
        inner ++ (" ".data) ++ code
      else inner
    subDecide cap count (strongReplacerSkip checkSrc pos) n
      (strongLinkWrap url inner2)

/-- Substitution attempt for the plain pattern with the code. -/
def attPlainWithCodeSub (src brand code url : Str) (cap : Nat)
    (pos count : Nat) (s : Str) : Option (Nat × Option Str × Bool) :=
  match matchPlainWithCode brand code
      (if pos = 0 then none else (src.take pos).getLast?) s with
  | none => none
  | some (n, gs) =>
    subDecide cap count (plainReplacerSkip src pos) n
      (gs.1 ++ strongLinkWrap url
        (gs.2.1 ++ (" ".data) ++ gs.2.2.1 ++ (" ".data) ++ gs.2.2.2))

/-- Substitution attempt for the plain pattern without the code value. -/
def attPlainNoCodeSub (src brand code url : Str) (cap : Nat)
    (pos count : Nat) (s : Str) : Option (Nat × Option Str × Bool) :=
  match matchPlainNoCode brand code
      (if pos = 0 then none else (src.take pos).getLast?) s with
  | none => none
  | some (n, gs) =>
    let code_suffix := if code ≠ [] then (" ".data) ++ code else ([] : Str)
    subDecide cap count (plainReplacerSkip src pos) n
      (gs.1 ++ strongLinkWrap url (gs.2.1 ++ (" ".data) ++ gs.2.2 ++ code_suffix))

/-- Pass 1 of `inject_switchboard_links`: the two substitutions over
emphasis-wrapped phrases.  Both replacers inspect prefixes of the original
`text`, as the source's closures do (even though the second substitution
scans the output of the first). -/
def injectStrongPhase (text brand bonus_code switchboard_url : Str)
    (max_links : Nat) : Str × Nat :=
  let r1 :=
    if bonus_code ≠ [] then
      reSub (attStrongWithCodeSub text brand bonus_code switchboard_url
        max_links) 0 text
    else (text, 0)
  reSub (attStrongPlainSub text brand bonus_code switchboard_url max_links)
    r1.2 r1.1

/-- Pass 2 of `inject_switchboard_links`: the two substitutions over plain
text, continuing the shared counter. -/
def injectPlainPhase (s0 : Str) (count0 : Nat)
    (brand bonus_code switchboard_url : Str) (max_links : Nat) : Str × Nat :=
  let r3 :=
    if bonus_code ≠ [] then
      reSub (attPlainWithCodeSub s0 brand bonus_code switchboard_url
        max_links) count0 s0
    else (s0, count0)
  reSub (attPlainNoCodeSub r3.1 brand bonus_code switchboard_url max_links)
    r3.2 r3.1

/-- `inject_switchboard_links` with the final `links_injected` counter. -/
def inject_switchboard_links_core (text brand bonus_code switchboard_url : Str)
    (max_links : Nat) : Str × Nat :=
  if ¬ (brand ≠ [] ∧ switchboard_url ≠ []) then (text, 0)
  else
    let r2 := injectStrongPhase text brand bonus_code switchboard_url max_links
    injectPlainPhase r2.1 r2.2 brand bonus_code switchboard_url max_links

/-- `inject_switchboard_links(text, brand, bonus_code, switchboard_url,
max_links)`. -/
def inject_switchboard_links (text brand bonus_code switchboard_url : Str)
    (max_links : Nat) : Str :=
  (inject_switchboard_links_core text brand bonus_code switchboard_url
    max_links).1

set_option maxRecDepth 40000 in
example :
    inject_switchboard_links ("try the bk bonus code GO now".data) ("bk".data)
      ("GO".data) ("u".data) 12 =
    ("try the <a data-id=\x22switchboard_tracking\x22 href=\x22u\x22 rel=\x22nofollow\x22><strong>bk bonus code GO</strong></a> now".data) := by
  decide

theorem subDecide_incr {cap count : Nat} {skip : Bool} {n m : Nat}
    {rep : Str} {rep2 : Option Str}
    (h : subDecide cap count skip n rep = some (m, rep2, true)) :
    count < cap := by
  unfold subDecide at h
  split at h
  · simp at h
  · split at h
    · simp at h
    · omega

theorem subDecide_frozen {cap count : Nat} {skip : Bool} {n : Nat}
    {rep : Str} {r : Nat × Option Str × Bool} (hc : cap ≤ count)
    (h : subDecide cap count skip n rep = some r) :
    r.2.1 = none ∧ r.2.2 = false := by
  unfold subDecide at h
  split at h
  · cases Option.some.inj h; exact ⟨rfl, rfl⟩
  · cases Option.some.inj h; exact ⟨rfl, rfl⟩

theorem reSubF_count_le
    {att : Nat → Nat → Str → Option (Nat × Option Str × Bool)} {cap : Nat}
    (hatt : ∀ pos count s n rep,
      att pos count s = some (n, rep, true) → count < cap) :
    ∀ (fuel pos count : Nat) (s : Str), count ≤ cap →
      (reSubF att fuel pos count s).2 ≤ cap := by
  intro fuel
  induction fuel with
  | zero => intro pos count s hc; exact hc
  | succ m ih =>
    intro pos count s hc
    cases s with
    | nil => exact hc
    | cons c rest =>
      rw [reSubF]
      cases hm : att pos count (c :: rest) with
      | none => exact ih _ _ _ hc
      | some trip =>
        obtain ⟨n, rep, incr⟩ := trip
        cases incr with
        | false =>
          have h0 : (if false = true then 1 else 0) = 0 := rfl
          dsimp only
          rw [h0]
          exact ih _ _ _ (by omega)
        | true =>
          have hlt := hatt pos count (c :: rest) n rep hm
          have h1 : (if true = true then 1 else 0) = 1 := rfl
          dsimp only
          rw [h1]
          exact ih _ _ _ (by omega)

theorem reSubF_frozen
    {att : Nat → Nat → Str → Option (Nat × Option Str × Bool)} {cap : Nat}
    (hatt : ∀ pos count s r, cap ≤ count → att pos count s = some r →
      r.2.1 = none ∧ r.2.2 = false) :
    ∀ (fuel pos count : Nat) (s : Str), cap ≤ count →
      reSubF att fuel pos count s = (s, count) := by
  intro fuel
  induction fuel with
  | zero => intro pos count s _; rfl
  | succ m ih =>
    intro pos count s hc
    cases s with
    | nil => rfl
    | cons c rest =>
      rw [reSubF]
      cases hm : att pos count (c :: rest) with
      | none =>
        dsimp only
        rw [ih _ _ _ hc]
      | some trip =>
        obtain ⟨n, rep, incr⟩ := trip
        obtain ⟨h1, h2⟩ := hatt pos count (c :: rest) (n, rep, incr) hc hm
        dsimp only at h1 h2
        subst h1
        subst h2
        dsimp only
        rw [ih _ _ _ (by omega)]
        simp [List.take_append_drop]

theorem reSub_count_le
    {att : Nat → Nat → Str → Option (Nat × Option Str × Bool)} {cap : Nat}
    (hatt : ∀ pos count s n rep,
      att pos count s = some (n, rep, true) → count < cap)
    {count : Nat} (hc : count ≤ cap) (s : Str) :
    (reSub att count s).2 ≤ cap :=
  reSubF_count_le hatt s.length 0 count s hc

theorem attStrongWithCodeSub_incr {checkSrc brand code url : Str} {cap : Nat}
    {pos count : Nat} {s : Str} {n : Nat} {rep : Option Str}
    (h : attStrongWithCodeSub checkSrc brand code url cap pos count s =
      some (n, rep, true)) : count < cap := by
  unfold attStrongWithCodeSub at h
  split at h
  · exact Option.noConfusion h
  · exact subDecide_incr h

theorem attStrongPlainSub_incr {checkSrc brand code url : Str} {cap : Nat}
    {pos count : Nat} {s : Str} {n : Nat} {rep : Option Str}
    (h : attStrongPlainSub checkSrc brand code url cap pos count s =
      some (n, rep, true)) : count < cap := by
  unfold attStrongPlainSub at h
  split at h
  · exact Option.noConfusion h
  · exact subDecide_incr h

theorem attPlainWithCodeSub_incr {src brand code url : Str} {cap : Nat}
    {pos count : Nat} {s : Str} {n : Nat} {rep : Option Str}
    (h : attPlainWithCodeSub src brand code url cap pos count s =
      some (n, rep, true)) : count < cap := by
  unfold attPlainWithCodeSub at h
  split at h
  · exact Option.noConfusion h
  · exact subDecide_incr h

theorem attPlainNoCodeSub_incr {src brand code url : Str} {cap : Nat}
    {pos count : Nat} {s : Str} {n : Nat} {rep : Option Str}
    (h : attPlainNoCodeSub src brand code url cap pos count s =
      some (n, rep, true)) : count < cap := by
  unfold attPlainNoCodeSub at h
  split at h
  · exact Option.noConfusion h
  · exact subDecide_incr h

theorem attPlainWithCodeSub_frozen {src brand code url : Str} {cap : Nat}
    {pos count : Nat} {s : Str} {r : Nat × Option Str × Bool}
    (hc : cap ≤ count)
    (h : attPlainWithCodeSub src brand code url cap pos count s = some r) :
    r.2.1 = none ∧ r.2.2 = false := by
  unfold attPlainWithCodeSub at h
  split at h
  · exact Option.noConfusion h
  · exact subDecide_frozen hc h

theorem attPlainNoCodeSub_frozen {src brand code url : Str} {cap : Nat}
    {pos count : Nat} {s : Str} {r : Nat × Option Str × Bool}
    (hc : cap ≤ count)
    (h : attPlainNoCodeSub src brand code url cap pos count s = some r) :
    r.2.1 = none ∧ r.2.2 = false := by
  unfold attPlainNoCodeSub at h
  split at h
  · exact Option.noConfusion h
  · exact subDecide_frozen hc h

/-- C7 (amended): the per-call cap invariant.  Idempotence as claimed fails
(see the counterexample): when the first application stops at the max-link
cap, a second application wraps phrases the first left plain.  What does
hold for every document, brand, code, URL and cap is that one call never
injects more than `max_links` links. -/
theorem claim_C7_injector_cap (text brand bonus_code switchboard_url : Str)
    (max_links : Nat) :
    (inject_switchboard_links_core text brand bonus_code switchboard_url
      max_links).2 ≤ max_links := by
  unfold inject_switchboard_links_core
  split
  · exact Nat.zero_le _
  · have h2 : (injectStrongPhase text brand bonus_code switchboard_url
        max_links).2 ≤ max_links := by
      unfold injectStrongPhase
      apply reSub_count_le (fun pos count s n rep h => attStrongPlainSub_incr h)
      split
      · exact reSub_count_le
          (fun pos count s n rep h => attStrongWithCodeSub_incr h)
          (Nat.zero_le _) _
      · exact Nat.zero_le _
    unfold injectPlainPhase
    apply reSub_count_le (fun pos count s n rep h => attPlainNoCodeSub_incr h)
    split
    · exact reSub_count_le
        (fun pos count s n rep h => attPlainWithCodeSub_incr h) h2 _
    · exact h2

set_option maxRecDepth 1000000

theorem reSub_frozen
    {att : Nat → Nat → Str → Option (Nat × Option Str × Bool)} {cap : Nat}
    (hatt : ∀ pos count s r, cap ≤ count → att pos count s = some r →
      r.2.1 = none ∧ r.2.2 = false)
    {count : Nat} (hc : cap ≤ count) (s : Str) :
    reSub att count s = (s, count) :=
  reSubF_frozen hatt s.length 0 count s hc

/-- C7 counterexample: with `max_links = 1` and a document holding two
plain-text `bk bonus code GO` phrases, the first application wraps one
phrase (one tracked anchor), and applying the injector a second time to its
own output wraps the leftover phrase as well — the link count increases
beyond the first pass, refuting idempotence as claimed. -/
theorem claim_C7_counterexample :
    (occIndices ("data-id=\x22switchboard_tracking\x22".data)
      (inject_switchboard_links ("bk bonus code GO and bk bonus code GO".data)
        ("bk".data) ("GO".data) ("u".data) 1)).length = 1 ∧
    (occIndices ("data-id=\x22switchboard_tracking\x22".data)
      (inject_switchboard_links
        (inject_switchboard_links ("bk bonus code GO and bk bonus code GO".data)
          ("bk".data) ("GO".data) ("u".data) 1)
        ("bk".data) ("GO".data) ("u".data) 1)).length = 2 := by
  constructor
  · decide
  · decide

/-- C8 (amended): the plain-text passes are not conditional on pass 1 having
injected zero links (see the counterexample); they run unconditionally and
wrap every eligible plain-text brand-plus-code-word phrase while the shared
counter is below `max_links`.  In particular, once the emphasis passes have
already reached the cap, the plain passes leave the document and the counter
untouched. -/
theorem claim_C8_plain_pass (s0 : Str) (count0 : Nat)
    (brand bonus_code switchboard_url : Str) (max_links : Nat)
    (h : max_links ≤ count0) :
    injectPlainPhase s0 count0 brand bonus_code switchboard_url max_links =
      (s0, count0) := by
  unfold injectPlainPhase
  have h3 : (if bonus_code ≠ [] then
      reSub (attPlainWithCodeSub s0 brand bonus_code switchboard_url
        max_links) count0 s0
    else (s0, count0)) = (s0, count0) := by
    split
    · exact reSub_frozen
        (fun pos count s r hc hm => attPlainWithCodeSub_frozen hc hm) h s0
    · rfl
  dsimp only
  rw [h3]
  exact reSub_frozen
    (fun pos count s r hc hm => attPlainNoCodeSub_frozen hc hm) h s0

/-- C8 counterexample: on a document with one emphasis-wrapped and one plain
`bk bonus code GO` phrase (`max_links = 12`), pass 1 injects one link, yet
the full call injects a second one by wrapping the plain phrase — pass 2 is
not conditional on pass 1 having injected zero links. -/
theorem claim_C8_counterexample :
    (injectStrongPhase
      ("<strong>bk bonus code GO</strong> and bk bonus code GO".data)
      ("bk".data) ("GO".data) ("u".data) 12).2 = 1 ∧
    (inject_switchboard_links_core
      ("<strong>bk bonus code GO</strong> and bk bonus code GO".data)
      ("bk".data) ("GO".data) ("u".data) 12).2 = 2 := by
  constructor
  · decide
  · decide

/-- Witness for C8 at a concrete input: with the counter already at the cap,
the plain passes leave a document holding an eligible phrase unchanged. -/
theorem claim_C8_witness :
    2 ≤ 3 ∧
    injectPlainPhase ("bk bonus code GO".data) 3 ("bk".data) ("GO".data)
      ("u".data) 2 = (("bk bonus code GO".data), 3) :=
  ⟨by decide, claim_C8_plain_pass _ _ _ _ _ _ (by decide)⟩

/-!
## Internal Link Index — `app/services/internal_links.py`

External effects are modelled explicitly: the store's in-memory items, the
two file fallbacks read by `_always_include_links`, the result of
`_ensure_loaded` (`none` = no loadable index) and the embedding provider (a
function from the query string to `Except`, `error` = the provider raised).
Vector components are modelled by `ℚ`; the provider's output stands for the
already L2-normalised query vector (normalisation only rescales every
similarity by the same positive factor, which no proved property depends
on), and `np.argsort` tie order, unspecified in numpy, is fixed to a stable
sort here — no proved property depends on it either.
-/

/-- Attempt of `\bhard[\s-]?rock\b` (on already-lowercased text). -/
def attHardRock (prev : Option Char) (s : Str) : Option (Nat × Unit) :=
  if wordBoundary prev s.head? then
    ((mLit ("hard".data) s).flatMap fun p1 =>
      (mOpt (mChar fun c => pyIsSpace c || c = '-') p1.2).flatMap fun p2 =>
      (mLit ("rock".data) p2.2).flatMap fun p3 =>
        if wordBoundary (p3.1.getLast?) (p3.2.head?) then
          [(s.length - p3.2.length, ())]
        else []).head?
  else none

/-- `OPERATOR_PATTERNS` from `internal_links.py`: search functions (applied
to the stripped, lowercased text) with their operator values, in source
order. -/
def OPERATOR_PATTERNS : List ((Str → Bool) × Str) :=
  [(fun hay => searchWordLit ("bet365".data) hay, ("bet365".data)),
   (fun hay => searchWordLit ("fanduel".data) hay, ("fanduel".data)),
   (fun hay => searchWordLit ("draftkings".data) hay, ("draftkings".data)),
   (fun hay => searchWordLit ("betmgm".data) hay, ("betmgm".data)),
   (fun hay => searchWordLit ("caesars".data) hay, ("caesars".data)),
   (fun hay => searchWordLit ("fanatics".data) hay, ("fanatics".data)),
   (fun hay => searchWordLit ("underdog".data) hay, ("underdog".data)),
   (fun hay => searchWordLit ("sleeper".data) hay, ("sleeper".data)),
   (fun hay => searchWordLit ("kalshi".data) hay, ("kalshi".data)),
   (fun hay => searchWordLit ("novig".data) hay, ("novig".data)),
   (fun hay => searchWordLit ("thescore".data) hay ||
      searchWordLit ("the score".data) hay, ("thescore".data)),
   (fun hay => reSearch attHardRock hay, ("hard_rock".data)),
   (fun hay => searchWordLit ("crypto.com".data) hay ||
      searchWordLit ("crypto".data) hay, ("crypto".data)),
   (fun hay => searchWordLit ("fliff".data) hay, ("fliff".data)),
   (fun hay => searchWordLit ("polymarket".data) hay, ("polymarket".data)),
   (fun hay => searchWordLit ("dabble".data) hay, ("dabble".data)),
   (fun hay => searchWordLit ("prophetx".data) hay ||
      searchWordLit ("prophet".data) hay, ("prophetx".data))]

/-- `_normalize_operator(text)`: first matching alias pattern wins. -/
def normalize_operator (text : Str) : Str :=
  let clean := pyLower (pyStrip text)
  if clean = [] then []
  else
    match OPERATOR_PATTERNS.find? fun pv => pv.1 clean with
    | some pv => pv.2
    | none => []

example : normalize_operator ("DraftKings".data) = ("draftkings".data) := by
  decide

example : normalize_operator ("Unknown Brand".data) = [] := by decide

/-- A persisted index item (the dict shape built by `ingest_from_jsonl` and
read back by `_read_index_items`; the `anchors` and `description` alias keys
accepted by the readers are modelled by the single canonical field). -/
structure LinkItem where
  id : Str
  title : Str
  url : Str
  summary : Str
  recommended_anchors : List Str
  operator : Str
  always_include : Bool
deriving DecidableEq, Repr, Inhabited

/-- `_link_operator(item)`: the explicit operator field wins, else inferred
from title, url and the first five anchors. -/
def link_operator (item : LinkItem) : Str :=
  let explicit := pyLower (pyStrip item.operator)
  if explicit ≠ [] then explicit
  else
    normalize_operator (pyJoin (" ".data)
      [item.title, item.url, pyJoin (" ".data) (item.recommended_anchors.take 5)])

/-- `InternalLinkSpec` (score is `ℚ` for Python `float`). -/
structure InternalLinkSpec where
  title : Str
  url : Str
  recommended_anchors : List Str
  description : Str
  score : ℚ
  operator : Str
  always_include : Bool
deriving DecidableEq, Repr

/-- The `InternalLinkSpec` constructor, with the source's falsy-anchor
default `recommended_anchors or [title, title.lower()]`. -/
def mkInternalLinkSpec (title url : Str) (recommended_anchors : List Str)
    (description : Str) (score : ℚ) (operator : Str) (always_include : Bool) :
    InternalLinkSpec :=
  { title := title, url := url,
    recommended_anchors :=
      if recommended_anchors.isEmpty then [title, pyLower title]
      else recommended_anchors,
    description := description, score := score, operator := operator,
    always_include := always_include }

/-- One record of `REQUIRED_LINKS_BY_PROPERTY`. -/
structure RequiredRec where
  title : Str
  url : Str
  recommended_anchors : List Str
  description : Str
deriving DecidableEq, Repr

/-- `REQUIRED_LINKS_BY_PROPERTY.get(property_key, [])`. -/
def REQUIRED_LINKS_BY_PROPERTY (property_key : Str) : List RequiredRec :=
  if property_key = ("action_network".data) then
    [{ title := ("Best Betting Sites".data),
       url := ("https://www.actionnetwork.com/online-sports-betting/reviews".data),
       recommended_anchors := [("best betting sites".data), ("best sportsbooks".data)],
       description := ("Action Network\x27s sportsbook review hub.".data) },
     { title := ("Legal Sports Betting States".data),
       url := ("https://www.actionnetwork.com/online-sports-betting".data),
       recommended_anchors :=
         [("legal sports betting states".data), ("where betting is legal".data)],
       description := ("State-by-state legal sports betting coverage.".data) },
     { title := ("Best Sportsbooks".data),
       url := ("https://www.actionnetwork.com/online-sports-betting/reviews".data),
       recommended_anchors := [("best sportsbooks".data), ("top sportsbooks".data)],
       description := ("Best sportsbook resources and comparisons.".data) }]
  else if property_key = ("vegas_insider".data) then
    [{ title := ("Best Sportsbook Promos".data),
       url := ("https://www.vegasinsider.com/sportsbooks/bonus-codes/".data),
       recommended_anchors := [("best sportsbook promos".data)],
       description := ("VegasInsider sportsbook promos hub.".data) },
     { title := ("Best Online Casinos".data),
       url := ("https://www.vegasinsider.com/casinos/".data),
       recommended_anchors := [("best online casinos".data)],
       description := ("VegasInsider casino hub.".data) },
     { title := ("New Sweepstakes Casinos".data),
       url := ("https://www.vegasinsider.com/sweepstakes-casinos/new/".data),
       recommended_anchors := [("new sweepstakes casinos".data)],
       description := ("VegasInsider sweepstakes coverage.".data) }]
  else if property_key = ("sportshandle".data) then
    [{ title := ("Best Betting Sites".data),
       url := ("https://sportshandle.com/best-sports-betting-sites/".data),
       recommended_anchors := [("best betting sites".data)],
       description := ("SportsHandle best sites page.".data) },
     { title := ("Best Sports Betting Apps".data),
       url := ("https://sportshandle.com/mobile-sportsbooks/".data),
       recommended_anchors := [("best sports betting apps".data)],
       description := ("SportsHandle app coverage.".data) }]
  else if property_key = ("rotogrinders".data) then
    [{ title := ("Best Prediction Market Apps".data),
       url := ("https://rotogrinders.com/best-prediction-market-apps".data),
       recommended_anchors := [("best prediction market apps".data)],
       description := ("RotoGrinders prediction market guide.".data) },
     { title := ("Best DFS Apps".data),
       url := ("https://rotogrinders.com/fantasy".data),
       recommended_anchors := [("best dfs apps".data), ("dfs apps".data)],
       description := ("RotoGrinders DFS resources.".data) }]
  else if property_key = ("fantasy_labs".data) then
    [{ title := ("NFL DFS".data),
       url := ("https://www.fantasylabs.com/daily-fantasy-football/".data),
       recommended_anchors := [("nfl dfs".data), ("daily fantasy football".data)],
       description := ("FantasyLabs NFL DFS hub.".data) },
     { title := ("Best DFS Apps".data),
       url := ("https://www.fantasylabs.com/articles/top-dfs-sites/".data),
       recommended_anchors := [("best dfs apps".data), ("top dfs sites".data)],
       description := ("FantasyLabs DFS picks and resources.".data) }]
  else []

/-- `_always_include_links`: guaranteed specs built from the in-memory
items, else the persisted index items, else the source JSONL records. -/
def always_include_links (mem_items index_items source_items : List LinkItem) :
    List InternalLinkSpec :=
  let items :=
    if mem_items ≠ [] then mem_items
    else if index_items ≠ [] then index_items
    else source_items
  items.flatMap fun item =>
    if ¬ item.always_include then []
    else
      let title := pyStrip item.title
      let url := pyStrip item.url
      if title = [] ∨ url = [] then []
      else
        let anchors0 :=
          if item.recommended_anchors ≠ [] then item.recommended_anchors
          else [title]
        let anchors :=
          let a := (anchors0.map pyStrip).filter (· ≠ [])
          if a = [] then [title] else a
        [mkInternalLinkSpec title url anchors (pyStrip item.summary) 1
          (let op := pyLower (pyStrip item.operator)
           if op ≠ [] then op else link_operator item)
          true]

/-- `_required_links`: the property table, then admin-managed guaranteed
links, deduplicated by lowercased stripped URL, empty URLs dropped. -/
def required_links (property_key : Str)
    (mem_items index_items source_items : List LinkItem) :
    List InternalLinkSpec :=
  let table :=
    (REQUIRED_LINKS_BY_PROPERTY property_key).map fun rec =>
      mkInternalLinkSpec rec.title rec.url rec.recommended_anchors
        rec.description 1 [] true
  let links := table ++ always_include_links mem_items index_items source_items
  (links.foldl
    (fun acc link =>
      let url := pyLower (pyStrip link.url)
      if url = [] ∨ url ∈ acc.2 then acc
      else (acc.1 ++ [link], acc.2 ++ [url]))
    ([], [])).1

/-- Similarity of a stored vector with the query vector
(`self._vectors @ query_arr.T`, row-wise dot product). -/
def dotQ (v q : List ℚ) : ℚ :=
  (v.zip q).foldl (fun acc p => acc + p.1 * p.2) 0

/-- Similarity of index `i` (`sims[idx]`; out-of-range reads never happen in
the guarded loop). -/
def simAt (sims : List ℚ) (i : Nat) : ℚ :=
  sims.getD i 0

/-- Stable insertion for descending-similarity order (earlier index first on
ties). -/
def insertIdxBySim (sims : List ℚ) (i : Nat) : List Nat → List Nat
  | [] => [i]
  | j :: js =>
    if simAt sims j > simAt sims i then j :: insertIdxBySim sims i js
    else i :: j :: js

/-- `np.argsort(-sims)`: indices sorted by descending similarity (numpy's
tie order is implementation-defined; a stable order is fixed here and no
proved property depends on it). -/
def argsortDesc (sims : List ℚ) : List Nat :=
  (List.range sims.length).foldr (insertIdxBySim sims) []

/-- The candidate loop of `suggest_links`: walk the ranked indices, skip
out-of-range indices, empty or seen URLs and conflicting operators, stop at
`k` picks. -/
def pickLoop (items : List LinkItem) (sims : List ℚ) (target_operator : Str)
    (k : Nat) :
    List Nat → List InternalLinkSpec → List Str → List InternalLinkSpec
  | [], picked, _ => picked
  | idx :: rest, picked, seen =>
    if items.length ≤ idx then pickLoop items sims target_operator k rest picked seen
    else
      let item := items.getD idx default
      let url := pyStrip item.url
      if url = [] ∨ url ∈ seen then
        pickLoop items sims target_operator k rest picked seen
      else
        let item_operator := link_operator item
        if target_operator ≠ [] ∧ item_operator ≠ [] ∧
            item_operator ≠ target_operator then
          pickLoop items sims target_operator k rest picked seen
        else
          let spec := mkInternalLinkSpec item.title url
            (if item.recommended_anchors ≠ [] then item.recommended_anchors
             else [item.title])
            item.summary (simAt sims idx) item_operator item.always_include
          let picked2 := picked ++ [spec]
          if k ≤ picked2.length then picked2
          else pickLoop items sims target_operator k rest picked2 (seen ++ [url])

/-- The ranked (similarity-ordered) portion of a `suggest_links` result. -/
def rankAndPick (items : List LinkItem) (vectors : List (List ℚ))
    (query_vec : List ℚ) (k : Nat) (brand : Str)
    (required : List InternalLinkSpec) : List InternalLinkSpec :=
  let sims := vectors.map fun v => dotQ v query_vec
  let ranked_idx := argsortDesc sims
  let target_operator := normalize_operator brand
  let seen0 := (required.filter fun r => r.url ≠ []).map fun r => r.url
  let max_candidates := min ranked_idx.length (max 50 (k * 10))
  pickLoop items sims target_operator k (ranked_idx.take max_candidates) [] seen0

/-- `InternalLinksStore.suggest_links(title, context, k, brand)`.  `loaded`
is the outcome of `_ensure_loaded` (`none`: no index could be loaded);
`embed` is the embedding provider, whose failure is the provider raising. -/
def suggest_links (property_key : Str)
    (mem_items index_items source_items : List LinkItem)
    (loaded : Option (List LinkItem × List (List ℚ)))
    (embed : Str → Except Unit (List ℚ))
    (title : Str) (context : List Str) (k : Nat) (brand : Str) :
    Except Unit (List InternalLinkSpec) :=
  let required := required_links property_key mem_items index_items source_items
  match loaded with
  | none => .ok required
  | some (items, vectors) =>
    if items.length = 0 then .ok required
    else
      let query_parts := [title] ++ context.take 3
      let query := pyJoin (" | ".data) query_parts
      match embed query with
      | .error e => .error e
      | .ok query_vec =>
        .ok (required ++ rankAndPick items vectors query_vec k brand required)

theorem pickLoop_operator (items : List LinkItem) (sims : List ℚ)
    (target : Str) (k : Nat) :
    ∀ (idxs : List Nat) (picked : List InternalLinkSpec) (seen : List Str),
      (∀ spec ∈ picked, target ≠ [] → spec.operator ≠ [] →
        spec.operator = target) →
      ∀ spec ∈ pickLoop items sims target k idxs picked seen,
        target ≠ [] → spec.operator ≠ [] → spec.operator = target := by
  intro idxs
  induction idxs with
  | nil =>
    intro picked seen hp spec hs
    rw [pickLoop] at hs
    exact hp spec hs
  | cons idx rest ih =>
    intro picked seen hp spec hs
    rw [pickLoop] at hs
    split at hs
    · exact ih picked seen hp spec hs
    · dsimp only at hs
      split at hs
      · exact ih picked seen hp spec hs
      · split at hs
        · exact ih picked seen hp spec hs
        · rename_i hnoskip hfilter
          have key : ∀ (sp : InternalLinkSpec),
              sp.operator = link_operator (items.getD idx default) →
              ∀ s ∈ picked ++ [sp],
                target ≠ [] → s.operator ≠ [] → s.operator = target := by
            intro sp hop s hmem htarget hne
            rcases List.mem_append.mp hmem with h1 | h1
            · exact hp s h1 htarget hne
            · rw [List.mem_singleton.mp h1] at hne ⊢
              rw [hop] at hne ⊢
              by_cases heq : link_operator (items.getD idx default) = target
              · exact heq
              · exact absurd ⟨htarget, hne, heq⟩ hfilter
          split at hs <;> split at hs <;>
            first
            | exact key _ rfl spec hs
            | exact ih _ _ (key _ rfl) spec hs

/-- C1: every ranked (similarity-ordered) candidate surviving
`suggest_links`' pick loop has an operator tag that is either empty or equal
to the requesting brand's normalized operator tag — stored items whose
non-empty operator tag conflicts with the brand's tag are dropped, whatever
their similarity rank.  In particular, for brand `DraftKings`
(normalized tag `draftkings`) no candidate tagged `fanduel` can appear. -/
theorem claim_C1_operator_filter (items : List LinkItem)
    (vectors : List (List ℚ)) (query_vec : List ℚ) (k : Nat) (brand : Str)
    (required : List InternalLinkSpec) :
    ∀ spec ∈ rankAndPick items vectors query_vec k brand required,
      normalize_operator brand ≠ [] → spec.operator ≠ [] →
      spec.operator = normalize_operator brand := by
  intro spec hs
  rw [rankAndPick] at hs
  exact pickLoop_operator items _ (normalize_operator brand) k _ [] _
    (fun s h => absurd h (List.not_mem_nil s)) spec hs

/-- Witness fixture: a FanDuel-tagged stored item. -/
def fdItemW : LinkItem :=
  { id := ("1".data), title := ("FanDuel Promo".data),
    url := ("https://e.x/fd".data), summary := [],
    recommended_anchors := [("fanduel promo".data)],
    operator := ("fanduel".data), always_include := false }

/-- Witness fixture: a DraftKings-tagged stored item. -/
def dkItemW : LinkItem :=
  { id := ("2".data), title := ("DraftKings Promo".data),
    url := ("https://e.x/dk".data), summary := [],
    recommended_anchors := [("draftkings promo".data)],
    operator := ("draftkings".data), always_include := false }

/-- Witness fixture: the spec the pick loop builds for `dkItemW`. -/
def dkSpecW : InternalLinkSpec :=
  { title := ("DraftKings Promo".data), url := ("https://e.x/dk".data),
    recommended_anchors := [("draftkings promo".data)], description := [],
    score := (0 : ℚ), operator := ("draftkings".data),
    always_include := false }

/-- Witness for C1: with the FanDuel item ranked first by similarity and the
brand `DraftKings`, the ranked results contain only the DraftKings item —
the top-similarity FanDuel candidate is dropped. -/
theorem claim_C1_witness :
    normalize_operator ("DraftKings".data) = ("draftkings".data) ∧
    rankAndPick [fdItemW, dkItemW] [[(1 : ℚ)], [(0 : ℚ)]] [(1 : ℚ)] 3
      ("DraftKings".data) [] = [dkSpecW] ∧
    dkSpecW.operator = normalize_operator ("DraftKings".data) := by
  have hsims : List.map (fun v => dotQ v [(1 : ℚ)]) [[(1 : ℚ)], [(0 : ℚ)]] =
      [(1 : ℚ), (0 : ℚ)] := by
    simp [dotQ]
  have hcmp : ¬ (simAt [(1 : ℚ), (0 : ℚ)] 1 > simAt [(1 : ℚ), (0 : ℚ)] 0) := by
    norm_num [simAt]
  have hsort : argsortDesc [(1 : ℚ), (0 : ℚ)] = [0, 1] := by
    show insertIdxBySim [(1 : ℚ), (0 : ℚ)] 0 [1] = [0, 1]
    rw [insertIdxBySim, if_neg hcmp]
  have heq : rankAndPick [fdItemW, dkItemW] [[(1 : ℚ)], [(0 : ℚ)]] [(1 : ℚ)] 3
      ("DraftKings".data) [] = [dkSpecW] := by
    simp only [rankAndPick]
    rw [hsims, hsort]
    rfl
  exact ⟨by decide, heq,
    claim_C1_operator_filter _ _ _ _ _ _ dkSpecW
      (by rw [heq]; exact List.mem_singleton_self _) (by decide) (by decide)⟩

/-- Witness fixture: a stored item for the loaded-index scenario of C9. -/
def c9ItemW : LinkItem :=
  { id := ("9".data), title := ("Promo Guide".data),
    url := ("https://e.x/t".data), summary := [],
    recommended_anchors := [], operator := [], always_include := false }

/-- C9 counterexample: with a loaded, non-empty index, a failure of the
embedding provider propagates out of `suggest_links` as an exception instead
of falling back to the guaranteed links — `query_vec = await
get_embedding(query)` is not wrapped in any try/except. -/
theorem claim_C9_counterexample :
    suggest_links ("action_network".data) [] [] []
      (some ([c9ItemW], [[(1 : ℚ)]]))
      (fun _ => .error ()) ("Title".data) [] 3 [] = .error () := rfl

/-- C9 (amended): when the per-property index is missing or unloadable
(`_ensure_loaded` returns false) or the loaded item list is empty,
`suggest_links` returns exactly the guaranteed (required/always-include)
links for the property and nothing else, without consulting the embedding
provider. -/
theorem claim_C9_fallback (property_key : Str)
    (mem_items index_items source_items : List LinkItem)
    (loaded : Option (List LinkItem × List (List ℚ)))
    (embed : Str → Except Unit (List ℚ))
    (title : Str) (context : List Str) (k : Nat) (brand : Str)
    (h : loaded = none ∨ ∃ items vectors,
      loaded = some (items, vectors) ∧ items.length = 0) :
    suggest_links property_key mem_items index_items source_items loaded
      embed title context k brand =
      .ok (required_links property_key mem_items index_items source_items) := by
  rcases h with h | ⟨items, vectors, hl, h0⟩
  · subst h
    rfl
  · subst hl
    unfold suggest_links
    dsimp only
    rw [if_pos h0]

/-- Witness for C9: a missing index makes `suggest_links` return exactly the
required links of `action_network`. -/
theorem claim_C9_witness :
    suggest_links ("action_network".data) [] [] [] none
      (fun _ => .error ()) ("Title".data) [] 3 [] =
      .ok (required_links ("action_network".data) [] [] []) :=
  claim_C9_fallback ("action_network".data) [] [] [] none
    (fun _ => .error ()) ("Title".data) [] 3 [] (Or.inl rfl)

/-- One outline section dict: `level`, `title`, `talking_points`, `avoid`
(the fields of `OUTLINE_SCHEMA`). -/
structure OSection where
  level : Str
  title : Str
  talking_points : List Str
  avoid : List Str
deriving DecidableEq, Repr, Inhabited

/-- The `"intro"` level string. -/
def introL : Str := ("intro".data)

/-- The `"shortcode"` level string. -/
def shortcodeL : Str := ("shortcode".data)

/-- The `"h2"` level string. -/
def h2L : Str := ("h2".data)

/-- The blank shortcode section `_ensure_shortcodes` inserts. -/
def scSection : OSection := ⟨shortcodeL, [], [], []⟩

/-- The default intro section `_ensure_shortcodes` inserts at the front when
the outline has no intro. -/
def introDefault : OSection :=
  ⟨introL, [],
   [("Hook with date and offer value".data),
    ("Mention promo code twice".data)], []⟩

/-- The loop of `_ensure_shortcodes`: `count` is `h2_count_since_shortcode`
and the lookahead `outline[i + 1]` is the head of the remaining list. -/
def esGo (count : Nat) : List OSection → List OSection
  | [] => []
  | s :: rest =>
    if s.level = introL then
      s :: (match rest with
        | [] => []
        | t :: _ =>
          if t.level ≠ shortcodeL then scSection :: esGo 0 rest
          else esGo count rest)
    else if s.level = shortcodeL then s :: esGo 0 rest
    else if s.level = h2L then
      if 2 ≤ count then scSection :: s :: esGo 1 rest
      else s :: esGo (count + 1) rest
    else s :: esGo count rest

/-- `_ensure_shortcodes(outline)`. -/
def ensure_shortcodes (outline : List OSection) : List OSection :=
  if outline = [] then outline
  else
    let result := esGo 0 outline
    if outline.any (fun s => s.level = introL) then result
    else
      match result with
      | [] => []
      | r :: rs =>
        if r.level ≠ introL then introDefault :: scSection :: r :: rs
        else r :: rs

/-- `_headline_topic(keyword, brand, is_prediction_market)`. -/
def headline_topic (keyword brand : Str) (is_prediction_market : Bool) :
    Str :=
  if pyStrip keyword ≠ [] then pyStrip keyword
  else if pyStrip brand ≠ [] then pyStrip brand ++ (" promo code".data)
  else if is_prediction_market then ("prediction market promo code".data)
  else ("sportsbook promo code".data)

/-- The dict built by `_contextual_section_titles`. -/
structure SectionTitles where
  overview : Str
  claim : Str
  signup : Str
  daily_promos : Str
  terms : Str
deriving DecidableEq, Repr

/-- `_contextual_section_titles(keyword, brand, event_context,
is_prediction_market)`; `matchup` stands for the value of
`_extract_matchup_from_event_context(event_context)` (for an empty
`event_context` that value is the empty string by the guard on its first
line). -/
def contextual_section_titles (keyword brand matchup : Str)
    (is_prediction_market : Bool) : SectionTitles :=
  let topic := headline_topic keyword brand is_prediction_market
  let claim_title :=
    if is_prediction_market ∧ matchup ≠ [] then
      ("How to Use ".data) ++ topic ++ (" for ".data) ++ matchup
    else if is_prediction_market then
      ("How to Use ".data) ++ topic ++ (" for Any Market".data)
    else if matchup ≠ [] then
      ("How to Claim ".data) ++ topic ++ (" for ".data) ++ matchup
    else ("How to Claim ".data) ++ topic ++ (" for Any Sport".data)
  let terms_title :=
    if is_prediction_market then ("Terms & Eligibility".data)
    else ("Terms & Conditions".data)
  let overview_no_matchup :=
    if is_prediction_market then
      topic ++ (": Promo for Top Markets Today".data)
    else topic ++ (": Get Bonus for All Sports Today".data)
  if matchup ≠ [] then
    { overview := topic ++ (" for ".data) ++ matchup,
      claim := claim_title,
      signup := ("How to Sign Up Before ".data) ++ matchup,
      daily_promos := ("Daily Promos Today".data),
      terms := terms_title }
  else
    { overview := overview_no_matchup,
      claim := claim_title,
      signup := ("How to Sign Up for ".data) ++ topic,
      daily_promos := ("Daily Promos Today".data),
      terms := terms_title }

/-- The fold state of the `_apply_editorial_section_rules` loop. -/
structure EdState where
  cleaned : List OSection
  has_daily : Bool
  has_claim : Bool
  has_signup : Bool
  has_terms : Bool
  first_h2_idx : Option Nat
deriving Repr

/-- One iteration of the `_apply_editorial_section_rules` loop: drop
redundant key-details/eligibility h2 sections, retitle the recognized h2
sections from the contextual titles, record which house sections exist and
where the first h2 sits. -/
def edStep (titles : SectionTitles) (st : EdState) (s : OSection) :
    EdState :=
  let tl := pyLower s.title
  if s.level = h2L ∧
      (containsSub ("key details".data) tl ||
       containsSub ("eligibility".data) tl) then
    st
  else if s.level = h2L then
    let fh := match st.first_h2_idx with
      | none => some st.cleaned.length
      | some i => some i
    if containsSub ("how to claim".data) tl ||
        containsSub ("how to use".data) tl then
      let s2 : OSection := { s with title := titles.claim }
      { st with
          cleaned := st.cleaned ++ [s2],
          has_claim := true,
          first_h2_idx := fh }
    else if containsSub ("daily promo".data) tl ||
        containsSub ("promos today".data) tl then
      let s2 : OSection := { s with title := titles.daily_promos }
      { st with
          cleaned := st.cleaned ++ [s2],
          has_daily := true,
          first_h2_idx := fh }
    else if containsSub ("how to sign".data) tl ||
        containsSub ("sign up".data) tl ||
        containsSub ("register".data) tl then
      let s2 : OSection := { s with title := titles.signup }
      { st with
          cleaned := st.cleaned ++ [s2],
          has_signup := true,
          first_h2_idx := fh }
    else if containsSub ("terms".data) tl ||
        containsSub ("conditions".data) tl ||
        containsSub ("fine print".data) tl then
      let s2 : OSection := { s with title := titles.terms }
      { st with
          cleaned := st.cleaned ++ [s2],
          has_terms := true,
          first_h2_idx := fh }
    else { st with cleaned := st.cleaned ++ [s], first_h2_idx := fh }
  else { st with cleaned := st.cleaned ++ [s] }

/-- The overview retitling of the first h2 after the loop. -/
def setOverview (titles : SectionTitles) (cleaned : List OSection)
    (fh : Option Nat) : List OSection :=
  match fh with
  | none => cleaned
  | some i =>
    let first_h2 := cleaned.getD i default
    if first_h2.level = h2L then
      cleaned.set i { first_h2 with title := titles.overview }
    else cleaned

/-- The claim section appended when `has_claim` is false. -/
def claimSection (titles : SectionTitles) (is_pm : Bool) : OSection :=
  { level := h2L, title := titles.claim,
    talking_points :=
      [if is_pm then ("Worked example with contract settlement outcomes".data)
       else ("Worked example with win/loss outcomes".data),
       if is_pm then
         ("How promo credits apply to eligible market positions".data)
       else ("How bonus credits are applied".data)],
    avoid := [("Rewriting legal terms".data)] }

/-- The daily-promos section inserted when `has_daily_promos` is false. -/
def dailySection (titles : SectionTitles) (is_pm : Bool) : OSection :=
  { level := h2L, title := titles.daily_promos,
    talking_points :=
      [("Placeholder for today\x27s rotating promos".data),
       if is_pm then ("List operator, promo code, and eligible states".data)
       else ("List sportsbook, promo code, and eligible states".data),
       ("Update this section daily before publishing".data)],
    avoid := [("Using stale promos from prior days".data)] }

/-- The sign-up section appended when `has_signup` is false. -/
def signupSection (titles : SectionTitles) (is_pm : Bool) : OSection :=
  { level := h2L, title := titles.signup,
    talking_points :=
      [("Five-step registration flow".data),
       ("Where to enter promo code".data),
       if is_pm then ("How to place first qualifying market position".data)
       else ("How to place first qualifying bet".data)],
    avoid := [("Deep legal terms".data)] }

/-- The terms section appended when `has_terms` is false. -/
def termsSection (titles : SectionTitles) (is_pm : Bool) : OSection :=
  { level := h2L, title := titles.terms,
    talking_points :=
      [if is_pm then ("Reference official market terms".data)
       else ("Reference official operator terms".data),
       if is_pm then ("State restrictions and settlement timelines".data)
       else ("State restrictions and expiry windows".data)],
    avoid := [("Repeating claim walkthrough".data)] }

/-- `list.insert(idx, x)` of Python (an index past the end appends). -/
def pyInsert (idx : Nat) (x : OSection) : List OSection → List OSection
  | [] => [x]
  | s :: rest =>
    match idx with
    | 0 => x :: s :: rest
    | n + 1 => s :: pyInsert n x rest

/-- `_apply_editorial_section_rules(outline, keyword, brand, event_context,
is_prediction_market)`; `matchup` stands for
`_extract_matchup_from_event_context(event_context)` as in
`contextual_section_titles`. -/
def apply_editorial_section_rules (outline : List OSection)
    (keyword brand matchup : Str) (is_pm : Bool) : List OSection :=
  if outline = [] then outline
  else
    let titles := contextual_section_titles keyword brand matchup is_pm
    let st := outline.foldl (edStep titles)
      ⟨[], false, false, false, false, none⟩
    let cleaned := setOverview titles st.cleaned st.first_h2_idx
    let cleaned :=
      if st.has_claim then cleaned
      else cleaned ++ [claimSection titles is_pm]
    let cleaned :=
      if st.has_daily then cleaned
      else
        let idx := (cleaned.findIdx? fun sec =>
          decide (sec.level = h2L) &&
          (containsSub ("sign up".data) (pyLower sec.title) ||
           containsSub ("terms".data) (pyLower sec.title))).getD
          cleaned.length
        pyInsert idx (dailySection titles is_pm) cleaned
    let cleaned :=
      if st.has_signup then cleaned
      else cleaned ++ [signupSection titles is_pm]
    let cleaned :=
      if st.has_terms then cleaned
      else cleaned ++ [termsSection titles is_pm]
    cleaned

/-- The planner post-processing of a generated section list:
`_ensure_shortcodes` then `_apply_editorial_section_rules`, in the order of
`generate_structured_outline`. -/
def plannerPostProcess (keyword brand matchup : Str) (is_pm : Bool)
    (outline : List OSection) : List OSection :=
  apply_editorial_section_rules (ensure_shortcodes outline)
    keyword brand matchup is_pm

/-- No run of three adjacent h2 sections without a section of another level
(in particular a shortcode) in between. -/
def noH2Run3 : List OSection → Bool
  | a :: b :: c :: rest =>
    !(a.level == h2L && b.level == h2L && c.level == h2L) &&
      noH2Run3 (b :: c :: rest)
  | _ => true

/-- Every intro section that has a successor is immediately followed by a
shortcode section. -/
def introScOK : List OSection → Bool
  | s :: t :: rest =>
    (!(s.level == introL) || (t.level == shortcodeL)) &&
      introScOK (t :: rest)
  | _ => true

/-- Length of the leading run of h2 sections. -/
def h2Lead : List OSection → Nat
  | [] => 0
  | s :: rest => if s.level = h2L then h2Lead rest + 1 else 0

theorem h2Lead_cons (s : OSection) (l : List OSection) :
    h2Lead (s :: l) = if s.level = h2L then h2Lead l + 1 else 0 := rfl

theorem noH2Run3_cons_not (s : OSection) (l : List OSection)
    (hs : ¬ s.level = h2L) (h : noH2Run3 l = true) :
    noH2Run3 (s :: l) = true := by
  cases l with
  | nil => rfl
  | cons b tl =>
    cases tl with
    | nil => rfl
    | cons c tl2 =>
      have hb : (s.level == h2L) = false := beq_eq_false_iff_ne.mpr hs
      rw [noH2Run3, hb]
      simp [h]

theorem noH2Run3_cons_lead (s : OSection) (l : List OSection)
    (h : noH2Run3 l = true) (hl : h2Lead l ≤ 1) :
    noH2Run3 (s :: l) = true := by
  cases l with
  | nil => rfl
  | cons b tl =>
    cases tl with
    | nil => rfl
    | cons c tl2 =>
      rw [noH2Run3, h, Bool.and_true]
      by_cases hb : b.level = h2L
      · by_cases hc : c.level = h2L
        · exfalso
          rw [h2Lead_cons, if_pos hb, h2Lead_cons, if_pos hc] at hl
          omega
        · have hcf : (c.level == h2L) = false := beq_eq_false_iff_ne.mpr hc
          simp [hcf]
      · have hbf : (b.level == h2L) = false := beq_eq_false_iff_ne.mpr hb
        simp [hbf]

theorem introScOK_cons (s : OSection) (l : List OSection)
    (h : introScOK l = true)
    (hst : ∀ t tl, l = t :: tl → s.level = introL → t.level = shortcodeL) :
    introScOK (s :: l) = true := by
  cases l with
  | nil => rfl
  | cons t tl =>
    rw [introScOK, h, Bool.and_true]
    by_cases hs : s.level = introL
    · have ht : t.level = shortcodeL := hst t tl rfl hs
      simp [ht]
    · have hsf : (s.level == introL) = false := beq_eq_false_iff_ne.mpr hs
      simp [hsf]

theorem esGo_sc_head (count : Nat) (t : OSection) (r2 : List OSection)
    (ht : t.level = shortcodeL) :
    esGo count (t :: r2) = t :: esGo 0 r2 := by
  rw [esGo.eq_def]
  dsimp only
  rw [if_neg (show ¬ t.level = introL by rw [ht]; decide), if_pos ht]

theorem esGo_inv (l : List OSection) : ∀ count : Nat,
    noH2Run3 (esGo count l) = true ∧
    h2Lead (esGo count l) + min count 2 ≤ 2 ∧
    introScOK (esGo count l) = true := by
  induction l with
  | nil =>
    intro count
    refine ⟨rfl, ?_, rfl⟩
    have h0 : h2Lead (esGo count []) = 0 := rfl
    rw [h0]
    omega
  | cons s rest ih =>
    intro count
    by_cases hintro : s.level = introL
    · have hsh2 : ¬ s.level = h2L := by rw [hintro]; decide
      cases rest with
      | nil =>
        have he : esGo count [s] = [s] := by
          rw [esGo.eq_def]
          dsimp only
          rw [if_pos hintro]
        rw [he]
        refine ⟨rfl, ?_, rfl⟩
        rw [h2Lead_cons, if_neg hsh2]
        omega
      | cons t r2 =>
        by_cases hts : t.level = shortcodeL
        · have hhead := esGo_sc_head count t r2 hts
          have he : esGo count (s :: t :: r2) =
              s :: esGo count (t :: r2) := by
            rw [esGo.eq_def]
            dsimp only
            rw [if_pos hintro, if_neg (not_not_intro hts)]
          obtain ⟨h1, h2, h3⟩ := ih count
          rw [he]
          refine ⟨noH2Run3_cons_not s _ hsh2 h1, ?_, ?_⟩
          · rw [h2Lead_cons, if_neg hsh2]
            omega
          · refine introScOK_cons s _ h3 ?_
            intro t2 tl2 heq _
            rw [hhead] at heq
            injection heq with heq1 _
            rw [← heq1]
            exact hts
        · have he : esGo count (s :: t :: r2) =
              s :: scSection :: esGo 0 (t :: r2) := by
            rw [esGo.eq_def]
            dsimp only
            rw [if_pos hintro, if_pos hts]
          obtain ⟨h1, h2, h3⟩ := ih 0
          rw [he]
          have hscn : ¬ scSection.level = h2L := by decide
          have hsc1 : noH2Run3 (scSection :: esGo 0 (t :: r2)) = true :=
            noH2Run3_cons_not _ _ hscn h1
          refine ⟨noH2Run3_cons_not s _ hsh2 hsc1, ?_, ?_⟩
          · rw [h2Lead_cons, if_neg hsh2]
            omega
          · have hsci : introScOK (scSection :: esGo 0 (t :: r2)) = true := by
              refine introScOK_cons _ _ h3 ?_
              intro t2 tl2 _ hl
              exact absurd hl (by decide)
            refine introScOK_cons s _ hsci ?_
            intro t2 tl2 heq _
            injection heq with heq1 _
            rw [← heq1]
            decide
    · by_cases hsc : s.level = shortcodeL
      · have he : esGo count (s :: rest) = s :: esGo 0 rest := by
          rw [esGo.eq_def]
          dsimp only
          rw [if_neg hintro, if_pos hsc]
        obtain ⟨h1, h2, h3⟩ := ih 0
        rw [he]
        have hsh2 : ¬ s.level = h2L := by rw [hsc]; decide
        refine ⟨noH2Run3_cons_not s _ hsh2 h1, ?_, ?_⟩
        · rw [h2Lead_cons, if_neg hsh2]
          omega
        · refine introScOK_cons s _ h3 ?_
          intro t2 tl2 _ hl
          exact absurd hl hintro
      · by_cases hh2 : s.level = h2L
        · by_cases hcnt : 2 ≤ count
          · have he : esGo count (s :: rest) =
                scSection :: s :: esGo 1 rest := by
              rw [esGo.eq_def]
              dsimp only
              rw [if_neg hintro, if_neg hsc, if_pos hh2, if_pos hcnt]
            obtain ⟨h1, h2, h3⟩ := ih 1
            rw [he]
            have hlead : h2Lead (esGo 1 rest) ≤ 1 := by omega
            have hs1 : noH2Run3 (s :: esGo 1 rest) = true :=
              noH2Run3_cons_lead s _ h1 hlead
            have hscn : ¬ scSection.level = h2L := by decide
            refine ⟨noH2Run3_cons_not _ _ hscn hs1, ?_, ?_⟩
            · rw [h2Lead_cons, if_neg hscn]
              omega
            · have hi1 : introScOK (s :: esGo 1 rest) = true := by
                refine introScOK_cons s _ h3 ?_
                intro t2 tl2 _ hl
                exact absurd hl hintro
              refine introScOK_cons _ _ hi1 ?_
              intro t2 tl2 _ hl
              exact absurd hl (by decide)
          · have he : esGo count (s :: rest) =
                s :: esGo (count + 1) rest := by
              rw [esGo.eq_def]
              dsimp only
              rw [if_neg hintro, if_neg hsc, if_pos hh2, if_neg hcnt]
            obtain ⟨h1, h2, h3⟩ := ih (count + 1)
            rw [he]
            have hlead : h2Lead (esGo (count + 1) rest) ≤ 1 := by omega
            refine ⟨noH2Run3_cons_lead s _ h1 hlead, ?_, ?_⟩
            · rw [h2Lead_cons, if_pos hh2]
              omega
            · refine introScOK_cons s _ h3 ?_
              intro t2 tl2 _ hl
              exact absurd hl hintro
        · have he : esGo count (s :: rest) = s :: esGo count rest := by
            rw [esGo.eq_def]
            dsimp only
            rw [if_neg hintro, if_neg hsc, if_neg hh2]
          obtain ⟨h1, h2, h3⟩ := ih count
          rw [he]
          refine ⟨noH2Run3_cons_not s _ hh2 h1, ?_, ?_⟩
          · rw [h2Lead_cons, if_neg hh2]
            omega
          · refine introScOK_cons s _ h3 ?_
            intro t2 tl2 _ hl
            exact absurd hl hintro

/-- C4 (amended): the shortcode invariant is established by the repair pass
`_ensure_shortcodes` alone: in its output no three adjacent sections are all
h2 (so every 3+ run of h2 sections has an intervening shortcode), and every
intro section that has a successor is immediately followed by a shortcode
section.  The subsequent editorial pass `_apply_editorial_section_rules`
can break both halves, because it appends h2 house sections without
re-running the repair (see the counterexample). -/
theorem claim_C4_repair (outline : List OSection) :
    noH2Run3 (ensure_shortcodes outline) = true ∧
    introScOK (ensure_shortcodes outline) = true := by
  obtain ⟨h1, _, h3⟩ := esGo_inv outline 0
  rw [ensure_shortcodes]
  split
  · rename_i hnil
    subst hnil
    exact ⟨rfl, rfl⟩
  · dsimp only
    split
    · exact ⟨h1, h3⟩
    · split
      · exact ⟨rfl, rfl⟩
      · rename_i r rs heq
        rw [heq] at h1 h3
        split
        · have hscn : ¬ scSection.level = h2L := by decide
          have hidn : ¬ introDefault.level = h2L := by decide
          have hn1 : noH2Run3 (scSection :: r :: rs) = true :=
            noH2Run3_cons_not _ _ hscn h1
          have hi1 : introScOK (scSection :: r :: rs) = true := by
            refine introScOK_cons _ _ h3 ?_
            intro t2 tl2 _ hl
            exact absurd hl (by decide)
          refine ⟨noH2Run3_cons_not _ _ hidn hn1, ?_⟩
          refine introScOK_cons _ _ hi1 ?_
          intro t2 tl2 heq2 _
          injection heq2 with heq1 _
          rw [← heq1]
          decide
        · exact ⟨h1, h3⟩

/-- Counterexample fixture: an h2 section of the generated outline. -/
def c4H2x : OSection := ⟨h2L, ("x".data), [("p".data)], []⟩

/-- Counterexample fixture: an h3 section of the generated outline. -/
def c4H3y : OSection := ⟨("h3".data), ("y".data), [("q".data)], []⟩

/-- Counterexample fixture: an intro section placed last. -/
def c4Intro : OSection := ⟨introL, [], [("hook".data)], []⟩

/-- C4 counterexample: post-processing the schema-valid generated section
list `[h2, h3, intro]` (keyword `k`, empty brand and event context) yields
`[h2, h3, intro, h2, h2, h2, h2]` — the intro is followed by an h2 instead
of a shortcode, and the four appended house sections form a run of four
consecutive h2 sections with no intervening shortcode, so both halves of
the claimed invariant fail on a planner-produced outline. -/
theorem claim_C4_counterexample :
    introScOK (plannerPostProcess ("k".data) [] [] false
      [c4H2x, c4H3y, c4Intro]) = false ∧
    noH2Run3 (plannerPostProcess ("k".data) [] [] false
      [c4H2x, c4H3y, c4Intro]) = false := by
  exact ⟨rfl, rfl⟩

/-- The lines `outline_to_text` emits for one section: the header (intro,
shortcode token or `[H2: title]`/`[H3: title]`; nothing for other levels),
one `> point` line per talking point, one `! Avoid: ...` line when the
avoid list is nonempty, and the blank separator line. -/
def sectionLines (s : OSection) : List Str :=
  (if s.level = introL then [("[INTRO]".data)]
   else if List.isPrefixOf shortcodeL s.level then
     (if pyUpper s.level = ("SHORTCODE".data) then [("[SHORTCODE]".data)]
      else [("[".data) ++ pyUpper s.level ++ ("]".data)])
   else if s.level = h2L ∨ s.level = ("h3".data) then
     [("[".data) ++ pyUpper s.level ++ (": ".data) ++ s.title ++ ("]".data)]
   else []) ++
  (s.talking_points.map fun p => ("> ".data) ++ p) ++
  (if s.avoid ≠ [] then
    [("! Avoid: ".data) ++ pyJoin (", ".data) s.avoid]
   else []) ++
  [[]]

/-- `outline_to_text(outline)`. -/
def outline_to_text (outline : List OSection) : Str :=
  pyStrip (pyJoin ['\n'] (outline.flatMap sectionLines))

/-- The bracketed body of a line of shape `[...]` (first char `[`, last
char `]`), used by the decoder regexes, which all anchor `^\[...\]$`. -/
def bracketInner (line : Str) : Option Str :=
  match line with
  | '[' :: rest =>
    if rest.getLast? = some ']' then some rest.dropLast else none
  | _ => none

/-- `[A-Z0-9]` under `re.IGNORECASE`. -/
def scAlnum (c : Char) : Bool :=
  (decide ('A' ≤ c.toUpper) && decide (c.toUpper ≤ 'Z')) || pyIsDigit c

/-- The `^\[(SHORTCODE(?:_[A-Z0-9]+)?)\]$` match (IGNORECASE): the captured
group (original case) when the line has exactly that shape. -/
def shortcodeMatch (line : Str) : Option Str :=
  match bracketInner line with
  | none => none
  | some g =>
    if pyUpper (g.take 9) = ("SHORTCODE".data) then
      match g.drop 9 with
      | [] => some g
      | '_' :: more =>
        if more ≠ [] && more.all scAlnum then some g else none
      | _ => none
    else none

/-- The `^\[H2:\s*(.+)\]$` (resp. `H3`) match under IGNORECASE, composed
with the `.strip()` the decoder applies to the captured group.  The match
succeeds exactly when the bracket body after the `H<digit>:` head is
nonempty; the greedy `\s*` with backtracking leaves at least one character
to `(.+)` (a lone whitespace character when the body is all whitespace), so
the stripped capture is `pyStrip` of that body in every case. -/
def hMatch (digit : Char) (line : Str) : Option Str :=
  match bracketInner line with
  | none => none
  | some g =>
    match g with
    | h :: d :: ':' :: middle =>
      if h.toUpper = 'H' ∧ d = digit ∧ middle ≠ [] then
        some (pyStrip middle)
      else none
    | _ => none

/-- The `^!\s*Avoid:\s*(.+)$` match (IGNORECASE) composed with the
decoder\x27s `[a.strip() for a in group(1).split(",")]`: the items are the
comma-split pieces of the body after `Avoid:`, each stripped (the leading
`\s*` only removes whitespace that `strip` removes again), and the match
requires a nonempty body. -/
def avoidMatch (line : Str) : Option (List Str) :=
  match line with
  | '!' :: rest =>
    let r2 := rest.dropWhile (fun c => pyIsSpace c)
    if isPrefixCI ("Avoid:".data) r2 then
      let middle := r2.drop 6
      if middle ≠ [] then
        some ((pySplitSep (",".data) middle).map pyStrip)
      else none
    else none
  | _ => none

/-- The decoder state of `text_to_outline`: the flushed sections and the
section under construction. -/
structure PState where
  outline : List OSection
  current : Option OSection
deriving Repr

/-- `outline + ([current] if current else [])`. -/
def flushCur (st : PState) : List OSection :=
  st.outline ++ (match st.current with | none => [] | some c => [c])

/-- One line of the `text_to_outline` loop: strip, skip blanks, open a new
section on a header match (flushing the previous one), else record talking
points and avoid items into the current section. -/
def parseStep (st : PState) (raw : Str) : PState :=
  let line := pyStrip raw
  if line = [] then st
  else if pyUpper line = ("[INTRO]".data) then
    { outline := flushCur st, current := some ⟨introL, [], [], []⟩ }
  else
    match shortcodeMatch line with
    | some g =>
      { outline := flushCur st, current := some ⟨pyLower g, [], [], []⟩ }
    | none =>
      match hMatch '2' line with
      | some t =>
        { outline := flushCur st, current := some ⟨h2L, t, [], []⟩ }
      | none =>
        match hMatch '3' line with
        | some t =>
          { outline := flushCur st,
            current := some ⟨("h3".data), t, [], []⟩ }
        | none =>
          match line with
          | '>' :: rest =>
            match st.current with
            | none => st
            | some c =>
              let point := pyStrip rest
              if point ≠ [] then
                let c2 : OSection :=
                  { c with talking_points := c.talking_points ++ [point] }
                { st with current := some c2 }
              else st
          | '!' :: _ =>
            match st.current with
            | none => st
            | some c =>
              match avoidMatch line with
              | some items =>
                let c2 : OSection := { c with avoid := c.avoid ++ items }
                { st with current := some c2 }
              | none => st
          | _ => st

/-- `text_to_outline(text)`. -/
def text_to_outline (text : Str) : List OSection :=
  flushCur ((pySplitlines text).foldl parseStep ⟨[], none⟩)

theorem pyJoin_singleton (sep x : Str) : pyJoin sep [x] = x := by
  simp [pyJoin, List.intercalate]

theorem pyJoin_cons (sep x : Str) (R : List Str) (h : R ≠ []) :
    pyJoin sep (x :: R) = x ++ sep ++ pyJoin sep R := by
  cases R with
  | nil => exact absurd rfl h
  | cons y R2 =>
    rw [List.append_assoc]
    rfl

theorem pyJoin_head (sep x : Str) (R : List Str) (hx : x ≠ []) :
    (pyJoin sep (x :: R)).head? = x.head? := by
  cases R with
  | nil => rw [pyJoin_singleton]
  | cons y R2 =>
    rw [pyJoin_cons sep x (y :: R2) (List.cons_ne_nil y R2)]
    cases x with
    | nil => exact absurd rfl hx
    | cons hh tt => rfl

theorem pyJoin_getLast (sep : Str) : ∀ (R : List Str) (g : Str),
    R.getLast? = some g → g ≠ [] →
    (pyJoin sep R).getLast? = g.getLast? ∧ pyJoin sep R ≠ [] := by
  intro R
  induction R with
  | nil => intro g hg _; exact absurd hg (by simp)
  | cons x R2 ih =>
    intro g hg hgne
    cases R2 with
    | nil =>
      have hxg : x = g := by
        have : (x :: ([] : List Str)).getLast? = some x := rfl
        rw [this] at hg
        exact Option.some.inj hg
      rw [pyJoin_singleton, hxg]
      exact ⟨rfl, hgne⟩
    | cons y R3 =>
      have hg2 : (y :: R3).getLast? = some g := by
        rw [← hg]
        exact List.getLast?_cons_cons.symm
      obtain ⟨ihl, ihne⟩ := ih g hg2 hgne
      rw [pyJoin_cons sep x (y :: R3) (List.cons_ne_nil y R3)]
      constructor
      · rw [List.getLast?_append_of_ne_nil (x ++ sep) ihne]
        exact ihl
      · intro hab
        exact ihne (List.append_eq_nil.mp hab).2

theorem pySplitlines_nl_cons (s : Str) :
    pySplitlines ('\n' :: s) = [] :: pySplitlines s := rfl

theorem pySplitlines_nlfree (l : Str)
    (h : ∀ c ∈ l, pyIsLineBreak c = false) :
    ∀ s : Str, pySplitlines (l ++ '\n' :: s) = l :: pySplitlines s := by
  induction l with
  | nil => intro s; exact pySplitlines_nl_cons s
  | cons c rest ih =>
    intro s
    have hc : pyIsLineBreak c = false := h c (List.mem_cons_self c rest)
    have hrest : ∀ d ∈ rest, pyIsLineBreak d = false :=
      fun d hd => h d (List.mem_cons_of_mem c hd)
    rw [List.cons_append, pySplitlines.eq_def]
    split
    · rename_i heq
      exact absurd heq (List.cons_ne_nil c _)
    · rename_i heq
      have hcr : c = '\x0d' := (List.cons.inj heq).1
      rw [hcr] at hc
      exact absurd hc (by decide)
    · rename_i x0 d tl hnc heq
      obtain ⟨hc2, hrest2⟩ := List.cons.inj heq
      rw [← hc2, ← hrest2]
      rw [if_neg (show ¬ pyIsLineBreak c = true by rw [hc]; exact Bool.false_ne_true)]
      rw [ih hrest s]

theorem pySplitlines_single (l : Str) (hne : l ≠ [])
    (h : ∀ c ∈ l, pyIsLineBreak c = false) : pySplitlines l = [l] := by
  induction l with
  | nil => exact absurd rfl hne
  | cons c rest ih =>
    have hc : pyIsLineBreak c = false := h c (List.mem_cons_self c rest)
    have hrest : ∀ d ∈ rest, pyIsLineBreak d = false :=
      fun d hd => h d (List.mem_cons_of_mem c hd)
    rw [pySplitlines.eq_def]
    split
    · rename_i heq
      exact absurd heq (List.cons_ne_nil c _)
    · rename_i heq
      have hcr : c = '\x0d' := (List.cons.inj heq).1
      rw [hcr] at hc
      exact absurd hc (by decide)
    · rename_i x0 d tl hnc heq
      obtain ⟨hc2, hrest2⟩ := List.cons.inj heq
      rw [← hc2, ← hrest2]
      rw [if_neg (show ¬ pyIsLineBreak c = true by
        rw [hc]; exact Bool.false_ne_true)]
      cases rest with
      | nil => rfl
      | cons e rest2 =>
        rw [ih (List.cons_ne_nil e rest2) hrest]

theorem pySplitlines_join (X : List Str)
    (hnl : ∀ l ∈ X, ∀ c ∈ l, pyIsLineBreak c = false)
    (g : Str) (hg : X.getLast? = some g) (hgne : g ≠ []) :
    pySplitlines (pyJoin ['\n'] X) = X := by
  induction X with
  | nil => exact absurd hg (by simp)
  | cons x X2 ih =>
    cases X2 with
    | nil =>
      have hxg : x = g := by
        have h0 : (x :: ([] : List Str)).getLast? = some x := rfl
        rw [h0] at hg
        exact Option.some.inj hg
      rw [pyJoin_singleton]
      exact pySplitlines_single x (hxg ▸ hgne)
        (hnl x (List.mem_cons_self x []))
    | cons y X3 =>
      have hg2 : (y :: X3).getLast? = some g := by
        rw [← hg]
        exact List.getLast?_cons_cons.symm
      have hnl2 : ∀ l ∈ y :: X3, ∀ c ∈ l, pyIsLineBreak c = false :=
        fun l hl => hnl l (List.mem_cons_of_mem x hl)
      rw [pyJoin_cons _ x (y :: X3) (List.cons_ne_nil y X3),
        List.append_assoc]
      have hx : ∀ c ∈ x, pyIsLineBreak c = false :=
        hnl x (List.mem_cons_self x _)
      rw [show ['\n'] ++ pyJoin ['\n'] (y :: X3) =
        '\n' :: pyJoin ['\n'] (y :: X3) from rfl]
      rw [pySplitlines_nlfree x hx]
      rw [ih hnl2 hg2]

theorem dropWhile_cons_false {p : Char → Bool} {c : Char} {t : Str}
    (hc : p c = false) : List.dropWhile p (c :: t) = c :: t := by
  rw [List.dropWhile_cons, hc]
  rfl

theorem dropWhile_cons_true {p : Char → Bool} {c : Char} {t : Str}
    (hc : p c = true) : List.dropWhile p (c :: t) = List.dropWhile p t := by
  rw [List.dropWhile_cons, hc]
  rfl

theorem rev_head_last (l : Str) (g : Char) (hg : l.getLast? = some g) :
    ∃ r, l.reverse = g :: r := by
  have h1 : l.reverse.head? = some g := by
    rw [List.head?_reverse]
    exact hg
  cases hr : l.reverse with
  | nil => rw [hr] at h1; exact absurd h1 (by simp)
  | cons d r =>
    rw [hr] at h1
    have : d = g := by
      have h2 : (d :: r).head? = some d := rfl
      rw [h2] at h1
      exact Option.some.inj h1
    exact ⟨r, by rw [this]⟩

theorem pyStrip_eq_self (l : Str)
    (hh : ∀ c, l.head? = some c → pyIsSpace c = false)
    (hg : ∀ c, l.getLast? = some c → pyIsSpace c = false) :
    pyStrip l = l := by
  cases l with
  | nil => rfl
  | cons c t =>
    have hc : pyIsSpace c = false := hh c rfl
    obtain ⟨g, hgl⟩ : ∃ g, (c :: t).getLast? = some g := by
      cases hgl2 : (c :: t).getLast? with
      | none => exact absurd hgl2 (by simp)
      | some g => exact ⟨g, rfl⟩
    have hgs : pyIsSpace g = false := hg g hgl
    obtain ⟨r, hr⟩ := rev_head_last (c :: t) g hgl
    rw [pyStrip, dropWhile_cons_false hc, hr, dropWhile_cons_false hgs,
      ← hr, List.reverse_reverse]

theorem pyStrip_append_ws (x : Str) (c : Char) (hc : pyIsSpace c = true)
    (hh : ∀ d, x.head? = some d → pyIsSpace d = false)
    (hg : ∀ d, x.getLast? = some d → pyIsSpace d = false) (hx : x ≠ []) :
    pyStrip (x ++ [c]) = x := by
  cases x with
  | nil => exact absurd rfl hx
  | cons a t =>
    have ha : pyIsSpace a = false := hh a rfl
    obtain ⟨g, hgl⟩ : ∃ g, (a :: t).getLast? = some g := by
      cases hgl2 : (a :: t).getLast? with
      | none => exact absurd hgl2 (by simp)
      | some g => exact ⟨g, rfl⟩
    have hgs : pyIsSpace g = false := hg g hgl
    obtain ⟨r, hr⟩ := rev_head_last (a :: t) g hgl
    rw [pyStrip, List.cons_append, dropWhile_cons_false ha,
      ← List.cons_append, List.reverse_append, List.reverse_singleton]
    rw [show ([c] : Str) ++ (a :: t).reverse = c :: (a :: t).reverse from rfl]
    rw [dropWhile_cons_true hc, hr, dropWhile_cons_false hgs, ← hr,
      List.reverse_reverse]

theorem length_dropWhile_le2 (p : Char → Bool) (l : Str) :
    (List.dropWhile p l).length ≤ l.length :=
  (List.dropWhile_suffix p).length_le

theorem pyStrip_ws_cons (c : Char) (hc : pyIsSpace c = true) (p : Str) :
    pyStrip (c :: p) = pyStrip p := by
  rw [pyStrip, pyStrip, dropWhile_cons_true hc]

theorem strip_self_head (p : Str) (hp : pyStrip p = p) :
    ∀ c, p.head? = some c → pyIsSpace c = false := by
  intro c hc
  cases p with
  | nil => exact absurd hc (by simp)
  | cons a t =>
    have hac : a = c := by
      have h0 : (a :: t).head? = some a := rfl
      rw [h0] at hc
      exact Option.some.inj hc
    subst hac
    by_contra hws
    have hws2 : pyIsSpace a = true := by
      revert hws
      cases pyIsSpace a <;> simp
    have h1 : (pyStrip (a :: t)).length ≤ t.length := by
      rw [pyStrip, dropWhile_cons_true hws2]
      calc ((List.dropWhile pyIsSpace t).reverse.dropWhile
            pyIsSpace).reverse.length
          = ((List.dropWhile pyIsSpace t).reverse.dropWhile
            pyIsSpace).length := List.length_reverse _
        _ ≤ (List.dropWhile pyIsSpace t).reverse.length :=
            length_dropWhile_le2 _ _
        _ = (List.dropWhile pyIsSpace t).length :=
            List.length_reverse _
        _ ≤ t.length := length_dropWhile_le2 _ _
    rw [hp] at h1
    simp at h1

theorem strip_self_last (p : Str) (hp : pyStrip p = p) :
    ∀ c, p.getLast? = some c → pyIsSpace c = false := by
  intro c hc
  obtain ⟨q, rfl⟩ : ∃ q, p = q ++ [c] := by
    obtain ⟨q, hq⟩ := (List.getLast?_eq_some_iff).mp hc
    exact ⟨q, hq⟩
  by_contra hws
  have hws2 : pyIsSpace c = true := by
    revert hws
    cases pyIsSpace c <;> simp
  have h1 : (pyStrip (q ++ [c])).length ≤ q.length := by
    rw [pyStrip]
    have hsuf : List.dropWhile pyIsSpace (q ++ [c]) <:+ q ++ [c] :=
      List.dropWhile_suffix _
    obtain ⟨u, hu⟩ := hsuf
    cases hD : List.dropWhile pyIsSpace (q ++ [c]) with
    | nil => simp
    | cons d D2 =>
      rw [hD] at hu
      have hlast : (d :: D2).getLast? = some c := by
        have h2 : (u ++ d :: D2).getLast? = (d :: D2).getLast? :=
          List.getLast?_append_of_ne_nil u (List.cons_ne_nil d D2)
        rw [hu] at h2
        rw [← h2, List.getLast?_concat]
      obtain ⟨r, hr⟩ := rev_head_last (d :: D2) c hlast
      rw [hr, dropWhile_cons_true hws2]
      have hlen1 : (List.dropWhile pyIsSpace r).length ≤ r.length :=
        length_dropWhile_le2 _ _
      have hlen2 : r.length + 1 = (d :: D2).length := by
        have : (d :: D2).reverse.length = (d :: D2).length :=
          List.length_reverse _
        rw [hr] at this
        simpa using this
      have hlen3 : (d :: D2).length ≤ (q ++ [c]).length := by
        rw [← hu]
        simp
      have hb : (d :: D2).length = D2.length + 1 := by simp
      simp only [List.length_reverse]
      simp [List.length_append] at hlen3
      omega
  rw [hp] at h1
  simp [List.length_append] at h1

theorem splitCommaF_nocomma : ∀ (s : Str) (f : Nat), s.length ≤ f →
    (∀ c ∈ s, ¬ c = ',') → pySplitSepF (",".data) f s = [s] := by
  intro s
  induction s with
  | nil => intro f _ _; cases f <;> rfl
  | cons c rest ih =>
    intro f hf hc
    cases f with
    | zero => simp at hf
    | succ g =>
      have hcc : (',' == c) = false :=
        beq_eq_false_iff_ne.mpr
          (fun h => hc c (List.mem_cons_self c rest) h.symm)
      rw [pySplitSepF.eq_def]
      dsimp only
      rw [if_neg (by simp [List.isPrefixOf, hcc])]
      rw [ih g (by simpa using Nat.lt_succ_iff.mp (Nat.lt_of_lt_of_le
        (by simp) hf)) (fun d hd => hc d (List.mem_cons_of_mem c hd))]

theorem splitCommaF_seam : ∀ (x y : Str) (f : Nat),
    (x ++ ',' :: y).length ≤ f → (∀ c ∈ x, ¬ c = ',') →
    pySplitSepF (",".data) f (x ++ ',' :: y) =
      x :: pySplitSepF (",".data) (f - x.length - 1) y := by
  intro x
  induction x with
  | nil =>
    intro y f hf hc
    cases f with
    | zero => simp at hf
    | succ g =>
      rw [List.nil_append, pySplitSepF.eq_def]
      dsimp only
      split
      · rfl
      · rename_i hcond
        exact absurd (by simp [List.isPrefixOf]) hcond
  | cons c x2 ih =>
    intro y f hf hc
    cases f with
    | zero => simp at hf
    | succ g =>
      have hcc : (',' == c) = false :=
        beq_eq_false_iff_ne.mpr
          (fun h => hc c (List.mem_cons_self c x2) h.symm)
      rw [List.cons_append, pySplitSepF.eq_def]
      dsimp only
      rw [if_neg (by simp [List.isPrefixOf, hcc])]
      have hlen : (x2 ++ ',' :: y).length ≤ g := by
        have : ((c :: x2) ++ ',' :: y).length ≤ g + 1 := hf
        simp [List.length_append] at this ⊢
        omega
      rw [ih y g hlen (fun d hd => hc d (List.mem_cons_of_mem c hd))]
      have harith : g - x2.length - 1 = g + 1 - (c :: x2).length - 1 := by
        simp [List.length_cons]
      rw [harith]

theorem splitComma_nocomma (s : Str) (hc : ∀ c ∈ s, ¬ c = ',') :
    pySplitSep (",".data) s = [s] :=
  splitCommaF_nocomma s s.length le_rfl hc

theorem splitComma_join : ∀ (items : List Str), items ≠ [] →
    (∀ a ∈ items, pyStrip a = a ∧ a ≠ [] ∧ ∀ c ∈ a, ¬ c = ',') →
    (pySplitSep (",".data)
      (' ' :: pyJoin (", ".data) items)).map pyStrip = items := by
  intro items
  induction items with
  | nil => intro hne _; exact absurd rfl hne
  | cons a items2 ih =>
    intro _ hcl
    obtain ⟨hstrip, hane, hcomma⟩ := hcl a (List.mem_cons_self a items2)
    cases items2 with
    | nil =>
      rw [pyJoin_singleton]
      rw [splitComma_nocomma (' ' :: a) ?hcf]
      case hcf =>
        intro c hcm
        rcases List.mem_cons.mp hcm with h1 | h1
        · rw [h1]; decide
        · exact hcomma c h1
      rw [List.map_singleton, pyStrip_ws_cons ' ' (by decide) a, hstrip]
    | cons b items3 =>
      rw [pyJoin_cons _ a (b :: items3) (List.cons_ne_nil b items3)]
      have hshape : ' ' :: (a ++ (", ".data) ++
          pyJoin (", ".data) (b :: items3)) =
          (' ' :: a) ++ ',' ::
            (' ' :: pyJoin (", ".data) (b :: items3)) := by
        simp
      rw [hshape, pySplitSep]
      rw [splitCommaF_seam (' ' :: a)
        (' ' :: pyJoin (", ".data) (b :: items3)) _ le_rfl ?hcf2]
      case hcf2 =>
        intro c hcm
        rcases List.mem_cons.mp hcm with h1 | h1
        · rw [h1]; decide
        · exact hcomma c h1
      have harr : ((' ' :: a) ++ ',' ::
          (' ' :: pyJoin (", ".data) (b :: items3))).length -
          (' ' :: a).length - 1 =
          (' ' :: pyJoin (", ".data) (b :: items3)).length := by
        simp [List.length_append]
      rw [harr]
      rw [show pySplitSepF (",".data)
        (' ' :: pyJoin (", ".data) (b :: items3)).length
        (' ' :: pyJoin (", ".data) (b :: items3)) =
        pySplitSep (",".data)
          (' ' :: pyJoin (", ".data) (b :: items3)) from rfl]
      rw [List.map_cons, pyStrip_ws_cons ' ' (by decide) a, hstrip]
      rw [ih (List.cons_ne_nil b items3)
        (fun d hd => hcl d (List.mem_cons_of_mem a hd))]

/-- A text fragment that survives the codec unchanged: nonempty,
strip-invariant, and free of line-break characters. -/
def cleanStr (p : Str) : Prop :=
  p ≠ [] ∧ pyStrip p = p ∧ ∀ c ∈ p, pyIsLineBreak c = false

instance (p : Str) : Decidable (cleanStr p) := by
  unfold cleanStr
  infer_instance

/-- An outline section the round-trip preserves: one of the four schema
levels, an empty title on intro/shortcode and a clean title on h2/h3,
clean talking points, and clean comma-free avoid items. -/
def cleanSection (s : OSection) : Prop :=
  ((s.level = introL ∨ s.level = shortcodeL) ∧ s.title = [] ∨
    (s.level = h2L ∨ s.level = ("h3".data)) ∧ cleanStr s.title) ∧
  (∀ p ∈ s.talking_points, cleanStr p) ∧
  (∀ a ∈ s.avoid, cleanStr a ∧ ∀ c ∈ a, ¬ c = ',')

instance (s : OSection) : Decidable (cleanSection s) := by
  unfold cleanSection
  infer_instance

theorem clean_head (p : Str) (h : cleanStr p) :
    ∀ c, p.head? = some c → pyIsSpace c = false :=
  strip_self_head p h.2.1

theorem clean_last (p : Str) (h : cleanStr p) :
    ∀ c, p.getLast? = some c → pyIsSpace c = false :=
  strip_self_last p h.2.1

theorem parseStep_blank (st : PState) : parseStep st [] = st := rfl

theorem parseStep_intro (st : PState) :
    parseStep st ("[INTRO]".data) =
      ⟨flushCur st, some ⟨introL, [], [], []⟩⟩ := rfl

theorem parseStep_shortcode (st : PState) :
    parseStep st ("[SHORTCODE]".data) =
      ⟨flushCur st, some ⟨shortcodeL, [], [], []⟩⟩ := rfl

theorem hdr_shape (pre t : Str) :
    (('[' :: pre) ++ t ++ ("]".data)) =
      '[' :: ((pre ++ t) ++ [']']) := by
  simp

theorem parseStep_h2 (st : PState) (t : Str) (ht : cleanStr t) :
    parseStep st (("[H2: ".data) ++ t ++ ("]".data)) =
      ⟨flushCur st, some ⟨h2L, t, [], []⟩⟩ := by
  have hraw : ("[H2: ".data) ++ t ++ ("]".data) =
      '[' :: (('H' :: '2' :: ':' :: ' ' :: t) ++ [']']) := by simp
  have hgl : (('H' :: '2' :: ':' :: ' ' :: t) ++ [']']).getLast? =
      some ']' := List.getLast?_concat _
  have hline : pyStrip (("[H2: ".data) ++ t ++ ("]".data)) =
      ("[H2: ".data) ++ t ++ ("]".data) := by
    refine pyStrip_eq_self _ ?_ ?_
    · intro c hc
      rw [hraw] at hc
      have : c = '[' := (Option.some.inj hc).symm
      rw [this]
      decide
    · intro c hc
      rw [hraw] at hc
      have h2 : ('[' ::
          (('H' :: '2' :: ':' :: ' ' :: t) ++ [']'])).getLast? =
          some ']' := by
        rw [show ('[' :: (('H' :: '2' :: ':' :: ' ' :: t) ++ [']'])) =
          ('[' :: 'H' :: '2' :: ':' :: ' ' :: t) ++ [']'] by simp]
        exact List.getLast?_concat _
      rw [h2] at hc
      have : c = ']' := (Option.some.inj hc).symm
      rw [this]
      decide
  have hbr : bracketInner (("[H2: ".data) ++ t ++ ("]".data)) =
      some ('H' :: '2' :: ':' :: ' ' :: t) := by
    rw [hraw, bracketInner]
    rw [if_pos hgl, List.dropLast_concat]
  have hsc : shortcodeMatch (("[H2: ".data) ++ t ++ ("]".data)) =
      none := by
    rw [shortcodeMatch, hbr]
    dsimp only
    rw [if_neg]
    intro hx
    have hx2 : ('H' :: '2' :: ':' :: ' ' :: t).take 9 =
        'H' :: '2' :: ':' :: ' ' :: t.take 5 := rfl
    rw [hx2] at hx
    exact absurd (List.cons.inj hx).1 (by decide)
  have hh2 : hMatch '2' (("[H2: ".data) ++ t ++ ("]".data)) =
      some t := by
    rw [hMatch, hbr]
    dsimp only
    show (if ('H').toUpper = 'H' ∧ ('2' : Char) = '2' ∧ (' ' :: t) ≠ [] then
        some (pyStrip (' ' :: t)) else none) = some t
    rw [if_pos ⟨by decide, rfl, by simp⟩]
    rw [pyStrip_ws_cons ' ' (by decide) t, ht.2.1]
  have hup : ¬ (pyUpper (("[H2: ".data) ++ t ++ ("]".data)) =
      ("[INTRO]".data)) := by
    intro hx
    rw [hraw] at hx
    simp only [pyUpper, List.map_cons] at hx
    obtain ⟨h1, h2⟩ := List.cons.inj hx
    obtain ⟨h3, _⟩ := List.cons.inj h2
    exact absurd h3 (by decide)
  have hnn : ¬ (("[H2: ".data) ++ t ++ ("]".data) = []) := by
    rw [hraw]
    exact List.cons_ne_nil _ _
  unfold parseStep
  dsimp only
  rw [hline, if_neg hnn, if_neg hup, hsc, hh2]

theorem parseStep_h3 (st : PState) (t : Str) (ht : cleanStr t) :
    parseStep st (("[H3: ".data) ++ t ++ ("]".data)) =
      ⟨flushCur st, some ⟨("h3".data), t, [], []⟩⟩ := by
  have hraw : ("[H3: ".data) ++ t ++ ("]".data) =
      '[' :: (('H' :: '3' :: ':' :: ' ' :: t) ++ [']']) := by simp
  have hgl : (('H' :: '3' :: ':' :: ' ' :: t) ++ [']']).getLast? =
      some ']' := List.getLast?_concat _
  have hline : pyStrip (("[H3: ".data) ++ t ++ ("]".data)) =
      ("[H3: ".data) ++ t ++ ("]".data) := by
    refine pyStrip_eq_self _ ?_ ?_
    · intro c hc
      rw [hraw] at hc
      have : c = '[' := (Option.some.inj hc).symm
      rw [this]
      decide
    · intro c hc
      rw [hraw] at hc
      have h2 : ('[' ::
          (('H' :: '3' :: ':' :: ' ' :: t) ++ [']'])).getLast? =
          some ']' := by
        rw [show ('[' :: (('H' :: '3' :: ':' :: ' ' :: t) ++ [']'])) =
          ('[' :: 'H' :: '3' :: ':' :: ' ' :: t) ++ [']'] by simp]
        exact List.getLast?_concat _
      rw [h2] at hc
      have : c = ']' := (Option.some.inj hc).symm
      rw [this]
      decide
  have hbr : bracketInner (("[H3: ".data) ++ t ++ ("]".data)) =
      some ('H' :: '3' :: ':' :: ' ' :: t) := by
    rw [hraw, bracketInner]
    rw [if_pos hgl, List.dropLast_concat]
  have hsc : shortcodeMatch (("[H3: ".data) ++ t ++ ("]".data)) =
      none := by
    rw [shortcodeMatch, hbr]
    dsimp only
    rw [if_neg]
    intro hx
    have hx2 : ('H' :: '3' :: ':' :: ' ' :: t).take 9 =
        'H' :: '3' :: ':' :: ' ' :: t.take 5 := rfl
    rw [hx2] at hx
    exact absurd (List.cons.inj hx).1 (by decide)
  have hh2 : hMatch '2' (("[H3: ".data) ++ t ++ ("]".data)) =
      none := by
    rw [hMatch, hbr]
    dsimp only
    show (if ('H').toUpper = 'H' ∧ ('3' : Char) = '2' ∧ (' ' :: t) ≠ []
        then some (pyStrip (' ' :: t)) else none) = none
    rw [if_neg]
    intro hx
    exact absurd hx.2.1 (by decide)
  have hh3 : hMatch '3' (("[H3: ".data) ++ t ++ ("]".data)) =
      some t := by
    rw [hMatch, hbr]
    dsimp only
    show (if ('H').toUpper = 'H' ∧ ('3' : Char) = '3' ∧ (' ' :: t) ≠ []
        then some (pyStrip (' ' :: t)) else none) = some t
    rw [if_pos ⟨by decide, rfl, by simp⟩]
    rw [pyStrip_ws_cons ' ' (by decide) t, ht.2.1]
  have hup : ¬ (pyUpper (("[H3: ".data) ++ t ++ ("]".data)) =
      ("[INTRO]".data)) := by
    intro hx
    rw [hraw] at hx
    simp only [pyUpper, List.map_cons] at hx
    obtain ⟨h1, h2⟩ := List.cons.inj hx
    obtain ⟨h3, _⟩ := List.cons.inj h2
    exact absurd h3 (by decide)
  have hnn : ¬ (("[H3: ".data) ++ t ++ ("]".data) = []) := by
    rw [hraw]
    exact List.cons_ne_nil _ _
  unfold parseStep
  dsimp only
  rw [hline, if_neg hnn, if_neg hup, hsc, hh2, hh3]

theorem parseStep_point (acc : List OSection) (c : OSection) (p : Str)
    (hp : cleanStr p) :
    parseStep ⟨acc, some c⟩ (("> ".data) ++ p) =
      ⟨acc, some { c with
        talking_points := c.talking_points ++ [p] }⟩ := by
  have hne : p ≠ [] := hp.1
  have hline : pyStrip (("> ".data) ++ p) = ("> ".data) ++ p := by
    refine pyStrip_eq_self _ ?_ ?_
    · intro d hd
      have : d = '>' := (Option.some.inj hd).symm
      rw [this]
      decide
    · intro d hd
      rw [List.getLast?_append_of_ne_nil ("> ".data) hne] at hd
      exact clean_last p hp d hd
  have hup : ¬ (pyUpper (("> ".data) ++ p) = ("[INTRO]".data)) := by
    intro hx
    simp only [pyUpper, List.map_append, List.map_cons] at hx
    exact absurd (List.cons.inj hx).1 (by decide)
  have hnn : ("> ".data) ++ p ≠ [] := by simp
  have hsc : shortcodeMatch (("> ".data) ++ p) = none := rfl
  have hm2 : hMatch '2' (("> ".data) ++ p) = none := rfl
  have hm3 : hMatch '3' (("> ".data) ++ p) = none := rfl
  unfold parseStep
  dsimp only
  rw [hline, if_neg hnn, if_neg hup, hsc, hm2, hm3]
  dsimp only
  rw [show ((['>', ' '] : Str) ++ p) = '>' :: ' ' :: p from rfl]
  split
  · rename_i rest heq
    obtain ⟨_, hrest⟩ := List.cons.inj heq
    rw [← hrest, pyStrip_ws_cons ' ' (by decide) p, hp.2.1, if_pos hne]
  · rename_i tail heq
    exact absurd ((List.cons.inj heq).1) (by decide)
  · rename_i hn1 hn2
    exact (hn1 (' ' :: p) rfl).elim

theorem getLast?_mem2 : ∀ (l : List Str) (g : Str),
    l.getLast? = some g → g ∈ l := by
  intro l
  induction l with
  | nil => intro g hg; exact absurd hg (by simp)
  | cons a t ih =>
    intro g hg
    cases t with
    | nil =>
      have : a = g := Option.some.inj hg
      rw [this]
      exact List.mem_cons_self g []
    | cons b t2 =>
      have hg2 : (b :: t2).getLast? = some g := by
        rw [← hg]
        exact List.getLast?_cons_cons.symm
      exact List.mem_cons_of_mem a (ih g hg2)

theorem parseStep_avoid (acc : List OSection) (c : OSection)
    (items : List Str) (hne : items ≠ [])
    (hcl : ∀ a ∈ items, cleanStr a ∧ ∀ ch ∈ a, ¬ ch = ',') :
    parseStep ⟨acc, some c⟩
      (("! Avoid: ".data) ++ pyJoin (", ".data) items) =
      ⟨acc, some { c with avoid := c.avoid ++ items }⟩ := by
  obtain ⟨g, hg⟩ : ∃ g, items.getLast? = some g := by
    cases items with
    | nil => exact absurd rfl hne
    | cons a t =>
      cases hgeq : (a :: t).getLast? with
      | none => exact absurd hgeq (by simp)
      | some g => exact ⟨g, rfl⟩
  have hgmem : g ∈ items := getLast?_mem2 items g hg
  have hgclean : cleanStr g := (hcl g hgmem).1
  obtain ⟨hJlast, hJne⟩ :=
    pyJoin_getLast (", ".data) items g hg hgclean.1
  have hline : pyStrip (("! Avoid: ".data) ++ pyJoin (", ".data) items) =
      ("! Avoid: ".data) ++ pyJoin (", ".data) items := by
    refine pyStrip_eq_self _ ?_ ?_
    · intro d hd
      have : d = '!' := (Option.some.inj hd).symm
      rw [this]
      decide
    · intro d hd
      rw [List.getLast?_append_of_ne_nil ("! Avoid: ".data) hJne,
        hJlast] at hd
      exact clean_last g hgclean d hd
  have hup : ¬ (pyUpper (("! Avoid: ".data) ++ pyJoin (", ".data) items) =
      ("[INTRO]".data)) := by
    intro hx
    simp only [pyUpper, List.map_append, List.map_cons] at hx
    exact absurd (List.cons.inj hx).1 (by decide)
  have hnn : ("! Avoid: ".data) ++ pyJoin (", ".data) items ≠ [] := by
    simp
  have hsc : shortcodeMatch
      (("! Avoid: ".data) ++ pyJoin (", ".data) items) = none := rfl
  have hm2 : hMatch '2'
      (("! Avoid: ".data) ++ pyJoin (", ".data) items) = none := rfl
  have hm3 : hMatch '3'
      (("! Avoid: ".data) ++ pyJoin (", ".data) items) = none := rfl
  have hav : avoidMatch
      ('!' :: ' ' :: 'A' :: 'v' :: 'o' :: 'i' :: 'd' :: ':' :: ' ' ::
        pyJoin (", ".data) items) = some items := by
    rw [avoidMatch.eq_def]
    split
    · rename_i rest heq
      obtain ⟨_, hrest⟩ := List.cons.inj heq
      rw [← hrest]
      dsimp only
      rw [show (' ' :: 'A' :: 'v' :: 'o' :: 'i' :: 'd' :: ':' :: ' ' ::
          pyJoin (", ".data) items).dropWhile (fun c => pyIsSpace c) =
          'A' :: 'v' :: 'o' :: 'i' :: 'd' :: ':' ::
          (' ' :: pyJoin (", ".data) items) from rfl]
      rw [if_pos (show isPrefixCI ("Avoid:".data)
        ('A' :: 'v' :: 'o' :: 'i' :: 'd' :: ':' ::
          (' ' :: pyJoin (", ".data) items)) = true from rfl)]
      dsimp only
      rw [if_pos (show ('A' :: 'v' :: 'o' :: 'i' :: 'd' :: ':' ::
          (' ' :: pyJoin (", ".data) items)).drop 6 ≠ [] by simp)]
      rw [show ('A' :: 'v' :: 'o' :: 'i' :: 'd' :: ':' ::
          (' ' :: pyJoin (", ".data) items)).drop 6 =
          ' ' :: pyJoin (", ".data) items from rfl]
      rw [splitComma_join items hne
        (fun a ha => ⟨(hcl a ha).1.2.1, (hcl a ha).1.1, (hcl a ha).2⟩)]
    · rename_i hn
      exact (hn _ rfl).elim
  unfold parseStep
  dsimp only
  rw [hline, if_neg hnn, if_neg hup, hsc, hm2, hm3]
  dsimp only
  rw [show ((['!', ' ', 'A', 'v', 'o', 'i', 'd', ':', ' '] : Str) ++
    pyJoin (", ".data) items) =
    '!' :: ' ' :: 'A' :: 'v' :: 'o' :: 'i' :: 'd' :: ':' :: ' ' ::
      pyJoin (", ".data) items from rfl]
  split
  · rename_i rest heq
    exact absurd ((List.cons.inj heq).1) (by decide)
  · rename_i tail heq
    rw [hav]
  · rename_i hn1 hn2
    exact (hn2 _ rfl).elim

theorem foldl_points (ps : List Str) (hps : ∀ p ∈ ps, cleanStr p) :
    ∀ (acc : List OSection) (c : OSection),
    List.foldl parseStep ⟨acc, some c⟩
      (ps.map fun p => ("> ".data) ++ p) =
      ⟨acc, some { c with
        talking_points := c.talking_points ++ ps }⟩ := by
  induction ps with
  | nil =>
    intro acc c
    simp
  | cons p ps2 ih =>
    intro acc c
    rw [List.map_cons, List.foldl_cons,
      parseStep_point acc c p (hps p (List.mem_cons_self p ps2))]
    rw [ih (fun q hq => hps q (List.mem_cons_of_mem p hq)) acc _]
    simp [List.append_assoc]

theorem foldl_avoid_blank (acc : List OSection) (c : OSection)
    (av : List Str)
    (hav : ∀ a ∈ av, cleanStr a ∧ ∀ ch ∈ a, ¬ ch = ',') :
    List.foldl parseStep ⟨acc, some c⟩
      ((if av ≠ [] then
        [("! Avoid: ".data) ++ pyJoin (", ".data) av] else []) ++ [[]]) =
      ⟨acc, some { c with avoid := c.avoid ++ av }⟩ := by
  by_cases hne : av = []
  · subst hne
    rw [if_neg (by simp), List.nil_append, List.foldl_cons, parseStep_blank,
      List.foldl_nil]
    simp
  · rw [if_pos hne, List.cons_append, List.nil_append, List.foldl_cons,
      parseStep_avoid acc c av hne hav, List.foldl_cons, parseStep_blank]
    rfl

theorem foldl_block (s : OSection) (hs : cleanSection s)
    (acc : List OSection) (cur : Option OSection) :
    List.foldl parseStep ⟨acc, cur⟩ (sectionLines s) =
      ⟨flushCur ⟨acc, cur⟩, some s⟩ := by
  obtain ⟨lev, title, tps, av⟩ := s
  obtain ⟨hlev, hpts, havcl⟩ := hs
  rcases hlev with ⟨hl, htitle⟩ | ⟨hl, htitle⟩
  · dsimp only at htitle
    subst htitle
    rcases hl with hl | hl <;> dsimp only at hl <;> subst hl
    · have hsec : sectionLines ⟨introL, [], tps, av⟩ =
          ("[INTRO]".data) ::
            ((tps.map fun p => ("> ".data) ++ p) ++
              ((if av ≠ [] then
                [("! Avoid: ".data) ++ pyJoin (", ".data) av]
               else []) ++ [[]])) := by
        rw [sectionLines]
        rw [if_pos rfl]
        simp [List.append_assoc]
      rw [hsec, List.foldl_cons, parseStep_intro, List.foldl_append,
        foldl_points tps hpts, foldl_avoid_blank]
      · simp
      · exact havcl
    · have hsec : sectionLines ⟨shortcodeL, [], tps, av⟩ =
          ("[SHORTCODE]".data) ::
            ((tps.map fun p => ("> ".data) ++ p) ++
              ((if av ≠ [] then
                [("! Avoid: ".data) ++ pyJoin (", ".data) av]
               else []) ++ [[]])) := by
        rw [sectionLines]
        dsimp only
        rw [if_neg (by decide), if_pos (by decide), if_pos (by decide)]
        simp [List.append_assoc]
      rw [hsec, List.foldl_cons, parseStep_shortcode, List.foldl_append,
        foldl_points tps hpts, foldl_avoid_blank]
      · simp
      · exact havcl
  · dsimp only at htitle hl
    rcases hl with hl | hl <;> subst hl
    · have hsec : sectionLines ⟨h2L, title, tps, av⟩ =
          (("[H2: ".data) ++ title ++ ("]".data)) ::
            ((tps.map fun p => ("> ".data) ++ p) ++
              ((if av ≠ [] then
                [("! Avoid: ".data) ++ pyJoin (", ".data) av]
               else []) ++ [[]])) := by
        rw [sectionLines]
        dsimp only
        rw [if_neg (by decide), if_neg (by decide), if_pos (Or.inl rfl)]
        simp [List.append_assoc]
        rfl
      rw [hsec, List.foldl_cons, parseStep_h2 _ title htitle,
        List.foldl_append, foldl_points tps hpts, foldl_avoid_blank]
      · simp
      · exact havcl
    · have hsec : sectionLines ⟨("h3".data), title, tps, av⟩ =
          (("[H3: ".data) ++ title ++ ("]".data)) ::
            ((tps.map fun p => ("> ".data) ++ p) ++
              ((if av ≠ [] then
                [("! Avoid: ".data) ++ pyJoin (", ".data) av]
               else []) ++ [[]])) := by
        rw [sectionLines]
        dsimp only
        rw [if_neg (by decide), if_neg (by decide), if_pos (Or.inr rfl)]
        simp [List.append_assoc]
        rfl
      rw [hsec, List.foldl_cons, parseStep_h3 _ title htitle,
        List.foldl_append, foldl_points tps hpts, foldl_avoid_blank]
      · simp
      · exact havcl

theorem foldl_flat (o : List OSection) (ho : ∀ s ∈ o, cleanSection s) :
    ∀ (acc : List OSection) (cur : Option OSection),
    flushCur (List.foldl parseStep ⟨acc, cur⟩ (o.flatMap sectionLines)) =
      flushCur ⟨acc, cur⟩ ++ o := by
  induction o with
  | nil =>
    intro acc cur
    simp
  | cons s o2 ih =>
    intro acc cur
    rw [List.flatMap_cons, List.foldl_append,
      foldl_block s (ho s (List.mem_cons_self s o2)) acc cur]
    rw [ih (fun u hu => ho u (List.mem_cons_of_mem s hu))
      (flushCur ⟨acc, cur⟩) (some s)]
    rw [show flushCur ⟨flushCur ⟨acc, cur⟩, some s⟩ =
      flushCur ⟨acc, cur⟩ ++ [s] from rfl]
    rw [List.append_assoc]
    rfl

theorem pyJoin_append_singleton (sep y : Str) :
    ∀ (X : List Str), X ≠ [] →
    pyJoin sep (X ++ [y]) = pyJoin sep X ++ sep ++ y := by
  intro X
  induction X with
  | nil => intro h; exact absurd rfl h
  | cons x X2 ih =>
    intro _
    cases X2 with
    | nil =>
      rw [show ([x] : List Str) ++ [y] = [x, y] from rfl,
        pyJoin_cons sep x [y] (List.cons_ne_nil y []), pyJoin_singleton,
        pyJoin_singleton]
    | cons z X3 =>
      rw [List.cons_append,
        pyJoin_cons sep x ((z :: X3) ++ [y]) (by simp),
        ih (List.cons_ne_nil z X3),
        pyJoin_cons sep x (z :: X3) (List.cons_ne_nil z X3)]
      simp [List.append_assoc]

theorem head?_append2 (a b : List Str) (ha : a ≠ []) :
    (a ++ b).head? = a.head? := by
  cases a with
  | nil => exact absurd rfl ha
  | cons x t => rfl

theorem mem_pyJoin (sep : Str) : ∀ (R : List Str) (c : Char),
    c ∈ pyJoin sep R → (∃ r ∈ R, c ∈ r) ∨ c ∈ sep := by
  intro R
  induction R with
  | nil =>
    intro c hc
    simp [pyJoin, List.intercalate] at hc
  | cons x R2 ih =>
    intro c hc
    cases R2 with
    | nil =>
      rw [pyJoin_singleton] at hc
      exact Or.inl ⟨x, List.mem_cons_self x [], hc⟩
    | cons y R3 =>
      rw [pyJoin_cons sep x (y :: R3) (List.cons_ne_nil y R3)] at hc
      rcases List.mem_append.mp hc with h1 | h2
      · rcases List.mem_append.mp h1 with ha | hb
        · exact Or.inl ⟨x, List.mem_cons_self x _, ha⟩
        · exact Or.inr hb
      · rcases ih c h2 with ⟨r, hr, hcr⟩ | hsep
        · exact Or.inl ⟨r, List.mem_cons_of_mem x hr, hcr⟩
        · exact Or.inr hsep

theorem avoid_line_facts (av : List Str) (hne : av ≠ [])
    (hav : ∀ a ∈ av, cleanStr a ∧ ∀ ch ∈ a, ¬ ch = ',') :
    (("! Avoid: ".data) ++ pyJoin (", ".data) av ≠ [] ∧
      (∀ c, (("! Avoid: ".data) ++
        pyJoin (", ".data) av).getLast? = some c →
        pyIsSpace c = false)) ∧
    ∀ c ∈ ("! Avoid: ".data) ++ pyJoin (", ".data) av,
      pyIsLineBreak c = false := by
  obtain ⟨g, hg⟩ : ∃ g, av.getLast? = some g := by
    cases av with
    | nil => exact absurd rfl hne
    | cons a t =>
      cases hgeq : (a :: t).getLast? with
      | none => exact absurd hgeq (by simp)
      | some g => exact ⟨g, rfl⟩
  have hgclean : cleanStr g := (hav g (getLast?_mem2 av g hg)).1
  obtain ⟨hJlast, hJne⟩ := pyJoin_getLast (", ".data) av g hg hgclean.1
  refine ⟨⟨by simp, ?_⟩, ?_⟩
  · intro c hc
    rw [List.getLast?_append_of_ne_nil ("! Avoid: ".data) hJne,
      hJlast] at hc
    exact clean_last g hgclean c hc
  · intro c hc
    rcases List.mem_append.mp hc with h1 | h2
    · exact (by decide :
        ∀ d ∈ ("! Avoid: ".data), pyIsLineBreak d = false) c h1
    · rcases mem_pyJoin (", ".data) av c h2 with ⟨r, hr, hcr⟩ | hsep
      · exact (hav r hr).1.2.2 c hcr
      · exact (by decide :
          ∀ d ∈ (", ".data), pyIsLineBreak d = false) c hsep

theorem tail_line_facts (tps av : List Str)
    (hpts : ∀ p ∈ tps, cleanStr p)
    (hav : ∀ a ∈ av, cleanStr a ∧ ∀ ch ∈ a, ¬ ch = ',') :
    ∀ l ∈ ((tps.map fun p => ("> ".data) ++ p) ++
      (if av ≠ [] then
        [("! Avoid: ".data) ++ pyJoin (", ".data) av] else [])),
      (l ≠ [] ∧ ∀ c, l.getLast? = some c → pyIsSpace c = false) ∧
      (∀ c ∈ l, pyIsLineBreak c = false) := by
  intro l hl
  rcases List.mem_append.mp hl with h1 | h2
  · obtain ⟨p, hp, rfl⟩ := List.mem_map.mp h1
    have hpc := hpts p hp
    refine ⟨⟨by simp, ?_⟩, ?_⟩
    · intro c hc
      rw [List.getLast?_append_of_ne_nil ("> ".data) hpc.1] at hc
      exact clean_last p hpc c hc
    · intro c hc
      rcases List.mem_append.mp hc with ha | hb
      · exact (by decide :
          ∀ d ∈ ("> ".data), pyIsLineBreak d = false) c ha
      · exact hpc.2.2 c hb
  · by_cases hne : av = []
    · subst hne
      simp at h2
    · rw [if_pos hne] at h2
      rw [List.mem_singleton.mp h2]
      obtain ⟨⟨hn, hlast⟩, hnl⟩ := avoid_line_facts av hne hav
      exact ⟨⟨hn, hlast⟩, hnl⟩

theorem sectionLines_shape (s : OSection) (hs : cleanSection s) :
    ∃ core, sectionLines s = core ++ [[]] ∧
      (∃ t, core.head? = some ('[' :: t)) ∧
      (∀ l ∈ core, l ≠ [] ∧
        ∀ c, l.getLast? = some c → pyIsSpace c = false) ∧
      (∀ l ∈ sectionLines s, ∀ c ∈ l, pyIsLineBreak c = false) := by
  obtain ⟨lev, title, tps, av⟩ := s
  obtain ⟨hlev, hpts, havcl⟩ := hs
  dsimp only at hpts havcl
  have htail := tail_line_facts tps av hpts havcl
  rcases hlev with ⟨hl, htitle⟩ | ⟨hl, htitle⟩
  · dsimp only at htitle
    subst htitle
    rcases hl with hl | hl <;> dsimp only at hl <;> subst hl
    · refine ⟨("[INTRO]".data) ::
        ((tps.map fun p => ("> ".data) ++ p) ++
          (if av ≠ [] then
            [("! Avoid: ".data) ++ pyJoin (", ".data) av] else [])),
        ?_, ⟨("INTRO]".data), rfl⟩, ?_, ?_⟩
      · rw [sectionLines]
        dsimp only
        rw [if_pos rfl]
        simp [List.append_assoc]
      · intro l hl2
        rcases List.mem_cons.mp hl2 with rfl | hlt
        · refine ⟨by decide, ?_⟩
          intro c hc
          have h2 : ']' = c := Option.some.inj hc
          rw [← h2]
          decide
        · exact (htail l hlt).1
      · intro l hl2 c hc
        rw [show sectionLines ⟨introL, [], tps, av⟩ =
          (("[INTRO]".data) ::
            ((tps.map fun p => ("> ".data) ++ p) ++
              (if av ≠ [] then
                [("! Avoid: ".data) ++ pyJoin (", ".data) av]
               else []))) ++ [[]] from by
          rw [sectionLines]
          dsimp only
          rw [if_pos rfl]
          simp [List.append_assoc]] at hl2
        rcases List.mem_append.mp hl2 with h1 | h1
        · rcases List.mem_cons.mp h1 with rfl | hlt
          · exact (by decide :
              ∀ d ∈ ("[INTRO]".data), pyIsLineBreak d = false) c hc
          · exact (htail l hlt).2 c hc
        · rw [List.mem_singleton.mp h1] at hc
          simp at hc
    · refine ⟨("[SHORTCODE]".data) ::
        ((tps.map fun p => ("> ".data) ++ p) ++
          (if av ≠ [] then
            [("! Avoid: ".data) ++ pyJoin (", ".data) av] else [])),
        ?_, ⟨("SHORTCODE]".data), rfl⟩, ?_, ?_⟩
      · rw [sectionLines]
        dsimp only
        rw [if_neg (by decide), if_pos (by decide), if_pos (by decide)]
        simp [List.append_assoc]
      · intro l hl2
        rcases List.mem_cons.mp hl2 with rfl | hlt
        · refine ⟨by decide, ?_⟩
          intro c hc
          have h2 : ']' = c := Option.some.inj hc
          rw [← h2]
          decide
        · exact (htail l hlt).1
      · intro l hl2 c hc
        rw [show sectionLines ⟨shortcodeL, [], tps, av⟩ =
          (("[SHORTCODE]".data) ::
            ((tps.map fun p => ("> ".data) ++ p) ++
              (if av ≠ [] then
                [("! Avoid: ".data) ++ pyJoin (", ".data) av]
               else []))) ++ [[]] from by
          rw [sectionLines]
          dsimp only
          rw [if_neg (by decide), if_pos (by decide), if_pos (by decide)]
          simp [List.append_assoc]] at hl2
        rcases List.mem_append.mp hl2 with h1 | h1
        · rcases List.mem_cons.mp h1 with rfl | hlt
          · exact (by decide :
              ∀ d ∈ ("[SHORTCODE]".data), pyIsLineBreak d = false) c hc
          · exact (htail l hlt).2 c hc
        · rw [List.mem_singleton.mp h1] at hc
          simp at hc
  · dsimp only at htitle hl
    have hhdr2 : ∀ (dg : Char), pyIsLineBreak dg = false → cleanStr title →
        (∀ c ∈ ('[' :: 'H' :: dg :: ':' :: ' ' :: (title ++ [']'])),
          pyIsLineBreak c = false) := by
      intro dg hdg htc c hc
      simp only [List.mem_cons, List.mem_append,
        List.mem_singleton] at hc
      rcases hc with rfl | rfl | rfl | rfl | rfl | hct | rfl | h0
      · decide
      · decide
      · exact hdg
      · decide
      · decide
      · exact htc.2.2 c hct
      · decide
      · simp at h0
    rcases hl with hl | hl <;> subst hl
    · refine ⟨(("[H2: ".data) ++ title ++ ("]".data)) ::
        ((tps.map fun p => ("> ".data) ++ p) ++
          (if av ≠ [] then
            [("! Avoid: ".data) ++ pyJoin (", ".data) av] else [])),
        ?_, ⟨'H' :: '2' :: ':' :: ' ' :: (title ++ [']']), by
          rw [show ("[H2: ".data) ++ title ++ ("]".data) =
            '[' :: ('H' :: '2' :: ':' :: ' ' :: (title ++ [']']))
            from by simp]
          rfl⟩, ?_, ?_⟩
      · rw [sectionLines]
        dsimp only
        rw [if_neg (by decide), if_neg (by decide), if_pos (Or.inl rfl)]
        simp [List.append_assoc]
        rfl
      · intro l hl2
        rcases List.mem_cons.mp hl2 with rfl | hlt
        · refine ⟨by simp, ?_⟩
          intro c hc
          rw [show ("[H2: ".data) ++ title ++ ("]".data) =
            ('[' :: 'H' :: '2' :: ':' :: ' ' :: title) ++ [']']
            from by simp] at hc
          rw [List.getLast?_concat] at hc
          have h2 : ']' = c := Option.some.inj hc
          rw [← h2]
          decide
        · exact (htail l hlt).1
      · intro l hl2 c hc
        rw [show sectionLines ⟨h2L, title, tps, av⟩ =
          ((("[H2: ".data) ++ title ++ ("]".data)) ::
            ((tps.map fun p => ("> ".data) ++ p) ++
              (if av ≠ [] then
                [("! Avoid: ".data) ++ pyJoin (", ".data) av]
               else []))) ++ [[]] from by
          rw [sectionLines]
          dsimp only
          rw [if_neg (by decide), if_neg (by decide), if_pos (Or.inl rfl)]
          simp [List.append_assoc]
          rfl] at hl2
        rcases List.mem_append.mp hl2 with h1 | h1
        · rcases List.mem_cons.mp h1 with rfl | hlt
          · rw [show ("[H2: ".data) ++ title ++ ("]".data) =
              '[' :: 'H' :: '2' :: ':' :: ' ' :: (title ++ [']'])
              from by simp] at hc
            exact hhdr2 '2' (by decide) htitle c hc
          · exact (htail l hlt).2 c hc
        · rw [List.mem_singleton.mp h1] at hc
          simp at hc
    · refine ⟨(("[H3: ".data) ++ title ++ ("]".data)) ::
        ((tps.map fun p => ("> ".data) ++ p) ++
          (if av ≠ [] then
            [("! Avoid: ".data) ++ pyJoin (", ".data) av] else [])),
        ?_, ⟨'H' :: '3' :: ':' :: ' ' :: (title ++ [']']), by
          rw [show ("[H3: ".data) ++ title ++ ("]".data) =
            '[' :: ('H' :: '3' :: ':' :: ' ' :: (title ++ [']']))
            from by simp]
          rfl⟩, ?_, ?_⟩
      · rw [sectionLines]
        dsimp only
        rw [if_neg (by decide), if_neg (by decide), if_pos (Or.inr rfl)]
        simp [List.append_assoc]
        rfl
      · intro l hl2
        rcases List.mem_cons.mp hl2 with rfl | hlt
        · refine ⟨by simp, ?_⟩
          intro c hc
          rw [show ("[H3: ".data) ++ title ++ ("]".data) =
            ('[' :: 'H' :: '3' :: ':' :: ' ' :: title) ++ [']']
            from by simp] at hc
          rw [List.getLast?_concat] at hc
          have h2 : ']' = c := Option.some.inj hc
          rw [← h2]
          decide
        · exact (htail l hlt).1
      · intro l hl2 c hc
        rw [show sectionLines ⟨("h3".data), title, tps, av⟩ =
          ((("[H3: ".data) ++ title ++ ("]".data)) ::
            ((tps.map fun p => ("> ".data) ++ p) ++
              (if av ≠ [] then
                [("! Avoid: ".data) ++ pyJoin (", ".data) av]
               else []))) ++ [[]] from by
          rw [sectionLines]
          dsimp only
          rw [if_neg (by decide), if_neg (by decide), if_pos (Or.inr rfl)]
          simp [List.append_assoc]
          rfl] at hl2
        rcases List.mem_append.mp hl2 with h1 | h1
        · rcases List.mem_cons.mp h1 with rfl | hlt
          · rw [show ("[H3: ".data) ++ title ++ ("]".data) =
              '[' :: 'H' :: '3' :: ':' :: ' ' :: (title ++ [']'])
              from by simp] at hc
            exact hhdr2 '3' (by decide) htitle c hc
          · exact (htail l hlt).2 c hc
        · rw [List.mem_singleton.mp h1] at hc
          simp at hc

theorem flat_shape : ∀ (o : List OSection), (∀ s ∈ o, cleanSection s) →
    o ≠ [] →
    ∃ X, o.flatMap sectionLines = X ++ [[]] ∧ X ≠ [] ∧
      (∃ t, X.head? = some ('[' :: t)) ∧
      (∃ g, X.getLast? = some g ∧ g ≠ [] ∧
        (∀ c, g.getLast? = some c → pyIsSpace c = false)) ∧
      (∀ l ∈ o.flatMap sectionLines, ∀ c ∈ l, pyIsLineBreak c = false) := by
  intro o
  induction o with
  | nil => intro _ h; exact absurd rfl h
  | cons s o2 ih =>
    intro ho _
    obtain ⟨core, hsec, ⟨t0, hhd⟩, hcf, hnl⟩ :=
      sectionLines_shape s (ho s (List.mem_cons_self s o2))
    have hcne : core ≠ [] := by
      intro hcn
      rw [hcn] at hhd
      simp at hhd
    by_cases ho2 : o2 = []
    · subst ho2
      refine ⟨core, ?_, hcne, ⟨t0, hhd⟩, ?_, ?_⟩
      · rw [List.flatMap_cons, List.flatMap_nil, List.append_nil, hsec]
      · obtain ⟨g, hg⟩ : ∃ g, core.getLast? = some g := by
          cases core with
          | nil => exact absurd rfl hcne
          | cons a t =>
            cases hgeq : (a :: t).getLast? with
            | none => exact absurd hgeq (by simp)
            | some g => exact ⟨g, rfl⟩
        obtain ⟨hgne, hgws⟩ := hcf g (getLast?_mem2 core g hg)
        exact ⟨g, hg, hgne, hgws⟩
      · intro l hl c hc
        rw [List.flatMap_cons, List.flatMap_nil, List.append_nil] at hl
        exact hnl l hl c hc
    · obtain ⟨X2, hflat2, hX2ne, ⟨t2, hhd2⟩, hgl2, hnl2⟩ :=
        ih (fun u hu => ho u (List.mem_cons_of_mem s hu)) ho2
      refine ⟨sectionLines s ++ X2, ?_, by simp [hsec], ?_, ?_, ?_⟩
      · rw [List.flatMap_cons, hflat2, ← List.append_assoc]
      · refine ⟨t0, ?_⟩
        rw [head?_append2 _ _ (by simp [hsec]), hsec,
          head?_append2 core [[]] hcne]
        exact hhd
      · obtain ⟨g2, hg2, hg2ne, hg2ws⟩ := hgl2
        refine ⟨g2, ?_, hg2ne, hg2ws⟩
        rw [List.getLast?_append_of_ne_nil _ hX2ne]
        exact hg2
      · intro l hl c hc
        rw [List.flatMap_cons] at hl
        rcases List.mem_append.mp hl with h1 | h1
        · exact hnl l h1 c hc
        · exact hnl2 l h1 c hc

/-- C5 (amended): the outline/text round-trip
`text_to_outline (outline_to_text o) = o` holds exactly on the planner
outlines whose sections are clean: levels drawn from the schema enum
(`intro`/`shortcode`/`h2`/`h3`), empty titles on intro/shortcode sections,
nonempty strip-invariant newline-free titles on h2/h3 sections, clean
talking points, and clean comma-free avoid items.  It is not lossless on
every producible outline: a comma inside an avoid item is re-split into
several items by the decoder (see the counterexample). -/
theorem claim_C5_clean (o : List OSection)
    (ho : ∀ s ∈ o, cleanSection s) :
    text_to_outline (outline_to_text o) = o := by
  by_cases hne : o = []
  · subst hne
    rfl
  · obtain ⟨X, hflat, hXne, ⟨t0, hhead⟩, ⟨g, hglast, hgne, hgws⟩, hnl⟩ :=
      flat_shape o ho hne
    unfold text_to_outline outline_to_text
    rw [hflat]
    have hjoin : pyJoin ['\n'] (X ++ [[]]) =
        pyJoin ['\n'] X ++ ['\n'] := by
      rw [pyJoin_append_singleton ['\n'] [] X hXne, List.append_nil]
    rw [hjoin]
    have hXnlfree : ∀ l ∈ X, ∀ c ∈ l, pyIsLineBreak c = false := by
      intro l hl
      exact hnl l (by rw [hflat]; exact List.mem_append_left _ hl)
    have hstrip : pyStrip (pyJoin ['\n'] X ++ ['\n']) =
        pyJoin ['\n'] X := by
      refine pyStrip_append_ws _ '\n' (by decide) ?_ ?_
        (pyJoin_getLast ['\n'] X g hglast hgne).2
      · intro d hd
        cases X with
        | nil => exact absurd rfl hXne
        | cons x X2 =>
          have hx : x = '[' :: t0 := Option.some.inj hhead
          rw [pyJoin_head ['\n'] x X2 (by rw [hx]; simp)] at hd
          rw [hx] at hd
          have hd2 : d = '[' := (Option.some.inj hd).symm
          rw [hd2]
          decide
      · intro d hd
        rw [(pyJoin_getLast ['\n'] X g hglast hgne).1] at hd
        exact hgws d hd
    rw [hstrip]
    rw [pySplitlines_join X hXnlfree g hglast hgne]
    have hfold : List.foldl parseStep ⟨[], none⟩ X =
        List.foldl parseStep ⟨[], none⟩ (X ++ [[]]) := by
      rw [List.foldl_append, List.foldl_cons, parseStep_blank,
        List.foldl_nil]
    rw [hfold, ← hflat, foldl_flat o ho [] none]
    rfl

/-- Witness outline: intro, shortcode, h2 with a talking point and an
avoid item, and an h3 section with two of each. -/
def oW : List OSection :=
  [⟨introL, [], [("Hook with offer value".data)], []⟩,
   ⟨shortcodeL, [], [], []⟩,
   ⟨h2L, ("Overview".data), [("Why it matters".data)],
     [("Claiming steps".data)]⟩,
   ⟨("h3".data), ("Fine print".data),
     [("Key terms".data), ("Expiry".data)],
     [("Legal text".data), ("Stale promos".data)]⟩]

/-- Witness for C5: the round-trip is the identity on the clean
four-section outline `oW`. -/
theorem claim_C5_witness :
    text_to_outline (outline_to_text oW) = oW :=
  claim_C5_clean oW (by decide)

/-- Counterexample fixture: an h2 section whose avoid list holds the single
item `a, b` containing a comma. -/
def c5Bad : OSection :=
  ⟨h2L, ("Terms".data), [("p".data)], [("a, b".data)]⟩

/-- C5 counterexample: the planner can produce a section whose avoid item
contains a comma (the schema allows arbitrary strings), and the round-trip
is then not the identity even up to whitespace — the decoder splits the
single avoid item `a, b` into the two items `a` and `b`. -/
theorem claim_C5_counterexample :
    text_to_outline (outline_to_text [c5Bad]) ≠ [c5Bad] := by
  decide
